import Mathlib

/-!
wablast: the blast result aggregator, the recipient resolver and the template renderer.

A shallow embedding of the bulk-message ("blast") core of the WhatsApp gateway
frontend:

* `context/AppContext.js`: `addMessageLog`, `processTemplateForBlast`,
  `processCustomBlastTemplate`;
* `components/Blast/RegularBlast.js`, `components/Blast/CustomBlast.js`:
  `handleSubmit` with its checks and its dispatch loop, the completion notifier,
  `processCustomBlastExcelData`;
* `components/Blast/BlastResults.js` and `components/RetryBlast.jsx`:
  `retryFailedBlast`, the retry button and the completion notifier;
* `services/api.js`: the response interceptor and `messageAPI`;
* `utils/helpers.js`: `parsePhoneNumbers`, `shouldRetryMessage`;
* `utils/template.js`: `processTemplate`, `processCustomBlastTemplate`.

JavaScript strings are modelled as lists of characters (one character per UTF-16
code unit, which is exact on the Basic Multilingual Plane).  React state updates
made with an updater function are applied in the order in which they are queued,
so a sequence of `setBlastResults` calls is modelled as function composition on
the state record.
-/

namespace WaBlast

/-- A JavaScript string, as the list of its characters. -/
abbrev JsString := List Char

/-! ## Result aggregator (`context/AppContext.js`) -/

/-- The `status` argument of `addMessageLog`: the code tests it against
`"success"` and `"error"`; any other string takes neither branch. -/
inductive Status where
  | success
  | error
  | other
deriving DecidableEq, Repr

/-- One element of `blastResults.logs`. -/
structure LogEntry where
  timestamp : JsString
  phoneNumber : JsString
  status : Status
  message : JsString
  details : JsString
deriving DecidableEq, Repr

/-- The `blastResults` state of `AppProvider`. -/
structure RunResult where
  total : Int
  success : Int
  failed : Int
  logs : List LogEntry
  failedNumbers : List JsString
deriving DecidableEq, Repr

/-- The initial value of `blastResults` (also what `clearLogs` stores). -/
def emptyResults : RunResult :=
  { total := 0, success := 0, failed := 0, logs := [], failedNumbers := [] }

/-- The value stored by `setBlastResults` when a run starts
(`RegularBlast.js` 368-374, `CustomBlast.js` 553-559). -/
def resetResults (n : Nat) : RunResult :=
  { total := n, success := 0, failed := 0, logs := [], failedNumbers := [] }

/-- The text kept in a log entry:
`message.substring(0, 50) + (message.length > 50 ? "..." : "")`. -/
def truncateMessage (message : JsString) : JsString :=
  message.take 50 ++ (if message.length > 50 then "...".toList else [])

/-- The updater of `addMessageLog` (`AppContext.js` 168-198), applied to the
previous state `prev`; `timestamp` is `new Date().toLocaleString()`. -/
def addMessageLog (timestamp : JsString) (prev : RunResult) (phoneNumber : JsString)
    (status : Status) (message : JsString) (details : JsString) : RunResult :=
  let logEntry : LogEntry :=
    { timestamp := timestamp, phoneNumber := phoneNumber, status := status,
      message := truncateMessage message, details := details }
  let newResults : RunResult := { prev with logs := prev.logs ++ [logEntry] }
  match status with
  | Status.success =>
      { newResults with
        success := prev.success + 1
        failedNumbers := prev.failedNumbers.filter (fun num => num ≠ phoneNumber) }
  | Status.error =>
      { newResults with
        failed := prev.failed + 1
        failedNumbers :=
          if prev.failedNumbers.contains phoneNumber then prev.failedNumbers
          else prev.failedNumbers ++ [phoneNumber] }
  | Status.other => newResults

/-! ## Delivery interface as seen by the loops -/

/-- What awaiting a send call gives the caller: a response (its HTTP status and
whether `data.timeout` is set), or a rejection with its error message. -/
inductive SendResult where
  | resolved (status : Nat) (timeout : Bool)
  | rejected (msg : JsString)
deriving DecidableEq, Repr

/-- Display text that the loops write into log entries: the timestamp, the
personalised message of a recipient (the renderer's output) and the detail line.
None of it is read back by the aggregator. -/
structure LogText where
  timestamp : JsString → JsString
  personalized : JsString → JsString
  details : JsString → SendResult → JsString

/-! ## Dispatch loop (`components/Blast/RegularBlast.js`) -/

namespace RegularBlast

/-- One iteration of the `for (const phoneNumber of phoneNumbersList)` loop of
`handleSubmit` (lines 420-489): the awaited send either resolves, and the `try`
block logs a success, or rejects, and the `catch` block logs an error. -/
def sendStep (txt : LogText) (blastMessage : JsString) (r : RunResult)
    (phoneNumber : JsString) (res : SendResult) : RunResult :=
  match res with
  | SendResult.resolved _ _ =>
      addMessageLog (txt.timestamp phoneNumber) r phoneNumber Status.success
        (txt.personalized phoneNumber) (txt.details phoneNumber res)
  | SendResult.rejected _ =>
      addMessageLog (txt.timestamp phoneNumber) r phoneNumber Status.error
        blastMessage (txt.details phoneNumber res)

/-- The loop of `handleSubmit`, from state `r`, over the recipients paired with
the result of their send. -/
def sendLoop (txt : LogText) (blastMessage : JsString) (r : RunResult) :
    List (JsString × SendResult) → RunResult
  | [] => r
  | (phoneNumber, res) :: rest =>
      sendLoop txt blastMessage (sendStep txt blastMessage r phoneNumber res) rest

/-- The run of `handleSubmit` after its precondition checks (lines 364-503):
`blastResults` is reset with `total = phoneNumbersList.length`, then the loop
runs; `outcomes` are the results of the successive sends. -/
def handleSubmit (txt : LogText) (blastMessage : JsString)
    (phoneNumbersList : List JsString) (outcomes : List SendResult) : RunResult :=
  sendLoop txt blastMessage (resetResults phoneNumbersList.length)
    (phoneNumbersList.zip outcomes)

end RegularBlast

/-! ## Retry (`components/Blast/BlastResults.js`, `components/RetryBlast.jsx`) -/

/-- The `lastBlastConfig` state, stored when a run starts. -/
structure BlastConfig where
  blastType : JsString
  blastMessage : JsString
  blastDelay : Nat
  isCustomBlast : Bool
deriving DecidableEq, Repr

namespace BlastResults

/-- The retry's success test, `response && (response.status < 400 ||
response.data?.timeout)` (line 171); a rejected send goes to `catch`. -/
def retryAccepted : SendResult → Bool
  | SendResult.resolved status timeout => decide (status < 400) || timeout
  | SendResult.rejected _ => false

/-- The updater of the extra `setBlastResults` call of the retry's success
branch (lines 177-184). -/
def retrySuccessUpdate (prev : RunResult) (phoneNumber : JsString) : RunResult :=
  { prev with
    success := prev.success + 1
    failed := max 0 (prev.failed - 1)
    failedNumbers := prev.failedNumbers.filter (fun num => num ≠ phoneNumber) }

/-- One iteration of the retry loop (lines 127-224): on an accepted response the
extra update is queued and then `addMessageLog(phoneNumber, "success", ...)`;
otherwise the `catch` block calls `addMessageLog(phoneNumber, "error", ...)`. -/
def retryStep (txt : LogText) (blastMessage : JsString) (r : RunResult)
    (phoneNumber : JsString) (res : SendResult) : RunResult :=
  if retryAccepted res then
    addMessageLog (txt.timestamp phoneNumber) (retrySuccessUpdate r phoneNumber)
      phoneNumber Status.success (txt.personalized phoneNumber)
      (txt.details phoneNumber res)
  else
    addMessageLog (txt.timestamp phoneNumber) r phoneNumber Status.error
      blastMessage (txt.details phoneNumber res)

/-- The retry loop over the snapshot of failed numbers paired with the results
of their sends. -/
def retryLoop (txt : LogText) (blastMessage : JsString) (r : RunResult) :
    List (JsString × SendResult) → RunResult
  | [] => r
  | (phoneNumber, res) :: rest =>
      retryLoop txt blastMessage (retryStep txt blastMessage r phoneNumber res) rest

/-- The function `retryFailedBlast` (lines 88-258) as a state transformer of
`blastResults`: nothing happens without a stored configuration, with no failed
number, or when the dialog is not confirmed; otherwise the loop runs over
`[...blastResults.failedNumbers]`, the snapshot taken before the first send. -/
def retryFailedBlast (txt : LogText) (lastBlastConfig : Option BlastConfig)
    (confirmed : Bool) (r : RunResult) (outcomes : List SendResult) : RunResult :=
  match lastBlastConfig with
  | none => r
  | some cfg =>
      if r.failedNumbers.length = 0 then r
      else if !confirmed then r
      else retryLoop txt cfg.blastMessage r (r.failedNumbers.zip outcomes)

end BlastResults

namespace RetryBlast

/-- The success test of `RetryBlast.jsx`, `response.ok` (line 119): `fetch`
resolved with a status in 200..299. -/
def retryAccepted : SendResult → Bool
  | SendResult.resolved status _ => decide (200 ≤ status) && decide (status < 300)
  | SendResult.rejected _ => false

/-- One iteration of the retry loop of `RetryBlast.jsx` (lines 62-152): only
`addMessageLog` updates the results. -/
def retryStep (txt : LogText) (blastMessage : JsString) (r : RunResult)
    (phoneNumber : JsString) (res : SendResult) : RunResult :=
  if retryAccepted res then
    addMessageLog (txt.timestamp phoneNumber) r phoneNumber Status.success
      (txt.personalized phoneNumber) (txt.details phoneNumber res)
  else
    addMessageLog (txt.timestamp phoneNumber) r phoneNumber Status.error
      blastMessage (txt.details phoneNumber res)

/-- The retry loop of `RetryBlast.jsx`. -/
def retryLoop (txt : LogText) (blastMessage : JsString) (r : RunResult) :
    List (JsString × SendResult) → RunResult
  | [] => r
  | (phoneNumber, res) :: rest =>
      retryLoop txt blastMessage (retryStep txt blastMessage r phoneNumber res) rest

/-- The function `retryFailedBlast` of `RetryBlast.jsx` (lines 26-171). -/
def retryFailedBlast (txt : LogText) (lastBlastConfig : Option BlastConfig)
    (confirmed : Bool) (r : RunResult) (outcomes : List SendResult) : RunResult :=
  match lastBlastConfig with
  | none => r
  | some cfg =>
      if r.failedNumbers.length = 0 then r
      else if !confirmed then r
      else retryLoop txt cfg.blastMessage r (r.failedNumbers.zip outcomes)

end RetryBlast

/-! ## Recipient resolver, manual mode (`utils/helpers.js`) -/

/-- The argument of `parsePhoneNumbers`: a string, or any other JavaScript
value (`undefined`, `null`, a number, an object). -/
inductive JsValue where
  | str (s : JsString)
  | nonString
deriving DecidableEq, Repr

namespace Helpers

/-- The separator class `[\n,;]` of the split pattern. -/
def isSeparator (c : Char) : Bool :=
  c = Char.ofNat 10 || c = ',' || c = ';'

/-- Scanner of `split(/[\n,;]+/)`: `cur` is the piece being read (reversed) and
`inSep` tells that the previous character was a separator, so that a run of
separators splits once. -/
def splitGo : List Char → List Char → Bool → List JsString
  | [], cur, _ => [cur.reverse]
  | c :: cs, cur, inSep =>
      if isSeparator c then
        if inSep then splitGo cs [] true else cur.reverse :: splitGo cs [] true
      else splitGo cs (c :: cur) false

/-- The call `phoneNumbersText.split(/[\n,;]+/)`. -/
def splitSeparators (s : JsString) : List JsString :=
  splitGo s [] false

/-- White space and line terminators of ECMAScript: the characters removed by
`trim()` and matched by `\s`. -/
def isJsWhitespace (c : Char) : Bool :=
  let n := c.toNat
  n = 9 || n = 10 || n = 11 || n = 12 || n = 13 || n = 32 || n = 160 || n = 5760 ||
  (decide (8192 ≤ n) && decide (n ≤ 8202)) || n = 8232 || n = 8233 || n = 8239 ||
  n = 8287 || n = 12288 || n = 65279

/-- The method `String.prototype.trim`. -/
def trim (s : JsString) : JsString :=
  ((s.dropWhile isJsWhitespace).reverse.dropWhile isJsWhitespace).reverse

/-- The class `\d`: the ASCII digits. -/
def isDigit (c : Char) : Bool :=
  decide (48 ≤ c.toNat) && decide (c.toNat ≤ 57)

/-- The cleaning step
`phone.replace(/[\s\-\(\)]/g, "").replace(/[^\d]/g, "")` (line 16). -/
def cleanPhone (phone : JsString) : JsString :=
  (phone.filter (fun c => !(isJsWhitespace c || c = '-' || c = '(' || c = ')'))).filter isDigit

/-- The method `String.prototype.startsWith`. -/
def startsWith (s pre : JsString) : Bool :=
  pre.isPrefixOf s

/-- The conversion to international format (lines 19-25). -/
def toInternational (cleaned : JsString) : JsString :=
  if startsWith cleaned "0".toList then "62".toList ++ cleaned.drop 1
  else if startsWith cleaned "+62".toList then cleaned.drop 1
  else if !startsWith cleaned "62".toList then "62".toList ++ cleaned
  else cleaned

/-- The per-entry normalisation, the body of the `map` of lines 14-28. -/
def normalize (phone : JsString) : JsString :=
  toInternational (cleanPhone phone)

/-- The validity test `/^62\d{8,}$/.test(phone)` (line 29). -/
def isValidPhone (phone : JsString) : Bool :=
  startsWith phone "62".toList && (phone.drop 2).all isDigit &&
    decide (8 ≤ (phone.drop 2).length)

/-- The duplicate filter
`filter((phone, index, arr) => arr.indexOf(phone) === index)` (line 30). -/
def removeDuplicates {α : Type} [DecidableEq α] (arr : List α) : List α :=
  (arr.enum.filter (fun p => arr.indexOf p.2 == p.1)).map Prod.snd

/-- The entries of the input after splitting, trimming and dropping the empty
ones (lines 11-13). -/
def entries (s : JsString) : List JsString :=
  ((splitSeparators s).map trim).filter (fun phone => decide (phone.length > 0))

/-- The function `parsePhoneNumbers` (lines 7-31). -/
def parsePhoneNumbers : JsValue → List JsString
  | JsValue.nonString => []
  | JsValue.str s =>
      if s.isEmpty then []
      else removeDuplicates (((entries s).map normalize).filter isValidPhone)

end Helpers

/-! ## Template renderer (`context/AppContext.js`, `utils/template.js`) -/

/-- A contact record as the renderers read it: `category`, and `group` (read by
`utils/template.js` only) may be absent; an absent `groups` array is the empty
list. -/
structure Contact where
  name : JsString
  phone : JsString
  category : Option JsString
  groups : List JsString
  group : Option JsString
deriving DecidableEq, Repr

/-- The formatted dates and times that the renderers obtain from `new Date()`. -/
structure Clock where
  tanggal : JsString
  waktuShort : JsString
  hari : JsString
  dateUS : JsString
  waktu : JsString
  timeUS : JsString
  datetime : JsString
deriving DecidableEq, Repr

/-- The expression `value || fallback` on a string: the empty string is falsy. -/
def orElse (value fallback : JsString) : JsString :=
  if value.isEmpty then fallback else value

/-- The expression `value || fallback` on a property that may be absent. -/
def orElseOpt (value : Option JsString) (fallback : JsString) : JsString :=
  match value with
  | some v => orElse v fallback
  | none => fallback

/-- The call `contacts.find((c) => c.phone === phoneNumber)`. -/
def findContact (contacts : List Contact) (phoneNumber : JsString) : Option Contact :=
  contacts.find? (fun c => c.phone == phoneNumber)

namespace Regex

/-- Character comparison of the matcher: with the `i` flag both sides are
canonicalised by upper-casing.  The patterns of the renderers are ASCII, for
which ASCII upper-casing gives the same matches as the ECMAScript rule. -/
def charMatch (ignoreCase : Bool) (p c : Char) : Bool :=
  if ignoreCase then p.toUpper == c.toUpper else p == c

/-- Whether the literal pattern `pat` matches at the start of `s`. -/
def matchesAt (ignoreCase : Bool) : List Char → List Char → Bool
  | [], _ => true
  | _ :: _, [] => false
  | p :: ps, c :: cs => charMatch ignoreCase p c && matchesAt ignoreCase ps cs

/-- The abstract operation GetSubstitution of ECMAScript for a pattern without
capture groups: in the replacement text `$$` stands for `$`, `$&` for the
matched text, `$` followed by a backquote for the text before the match and `$`
followed by a quote for the text after it; any other `$` is literal. -/
def getSubstitution (matched before after : JsString) : JsString → JsString
  | [] => []
  | [c] => [c]
  | c :: d :: rest =>
      if c = '$' then
        if d = '$' then '$' :: getSubstitution matched before after rest
        else if d = '&' then matched ++ getSubstitution matched before after rest
        else if d = Char.ofNat 96 then before ++ getSubstitution matched before after rest
        else if d = Char.ofNat 39 then after ++ getSubstitution matched before after rest
        else c :: getSubstitution matched before after (d :: rest)
      else c :: getSubstitution matched before after (d :: rest)

/-- Scanner of `String.prototype.replace` with a global literal pattern:
`skip` counts the characters of the current match still to be passed over and
`before` is the part of the subject already read. -/
def replaceGo (ignoreCase : Bool) (pat repl : JsString) : Nat → JsString → JsString → JsString
  | _, _, [] => []
  | k + 1, before, c :: cs => replaceGo ignoreCase pat repl k (before ++ [c]) cs
  | 0, before, c :: cs =>
      if matchesAt ignoreCase pat (c :: cs) then
        getSubstitution ((c :: cs).take pat.length) before ((c :: cs).drop pat.length) repl
          ++ replaceGo ignoreCase pat repl (pat.length - 1) (before ++ [c]) cs
      else c :: replaceGo ignoreCase pat repl 0 (before ++ [c]) cs

/-- The pattern text of the regular expression `\{name\}`. -/
def placeholder (name : JsString) : JsString :=
  Char.ofNat 123 :: (name ++ [Char.ofNat 125])

/-- The call `s.replace(/\{name\}/g, repl)`, or with flags `gi` when
`ignoreCase` is set, for a `name` made of ordinary characters. -/
def replacePlaceholder (ignoreCase : Bool) (name : String) (repl : JsString)
    (s : JsString) : JsString :=
  replaceGo ignoreCase (placeholder name.toList) repl 0 [] s

end Regex

namespace AppContext

open Regex in
/-- The "common variables" replacements `{tanggal}`, `{waktu}`, `{hari}`
(lines 258-272 and 278-292). -/
def replaceCommon (clock : Clock) (s : JsString) : JsString :=
  replacePlaceholder false "hari" clock.hari
    (replacePlaceholder false "waktu" clock.waktuShort
      (replacePlaceholder false "tanggal" clock.tanggal s))

open Regex in
/-- The function `processTemplateForBlast` of `AppContext.js` (lines 213-302);
`contacts` is the `contacts` state it closes over. -/
def processTemplateForBlast (contacts : List Contact) (clock : Clock)
    (content : JsString) (phoneNumber : JsString) : JsString :=
  match findContact contacts phoneNumber with
  | some contact =>
      let s1 := replacePlaceholder false "nama" (orElse contact.name "Customer".toList) content
      let s2 := replacePlaceholder false "telepon" (orElse contact.phone phoneNumber) s1
      let s3 := replacePlaceholder false "kategori"
        (orElseOpt contact.category "Valued Customer".toList) s2
      let s4 :=
        match contact.groups with
        | g :: _ => replacePlaceholder false "grup" g (replacePlaceholder false "group" g s3)
        | [] =>
            replacePlaceholder false "grup" "General".toList
              (replacePlaceholder false "group" "General".toList s3)
      replaceCommon clock s4
  | none =>
      let s1 := replaceCommon clock content
      let s2 := replacePlaceholder false "nama" "Customer".toList s1
      let s3 := replacePlaceholder false "kategori" "Valued Customer".toList s2
      replacePlaceholder false "grup" "General".toList
        (replacePlaceholder false "group" "General".toList s3)

end AppContext

namespace Template

open Regex in
/-- The "common variables" replacements of `utils/template.js` (lines 33-38). -/
def replaceCommon (clock : Clock) (s : JsString) : JsString :=
  replacePlaceholder true "datetime" clock.datetime
    (replacePlaceholder true "time" clock.timeUS
      (replacePlaceholder true "waktu" clock.waktu
        (replacePlaceholder true "date" clock.dateUS
          (replacePlaceholder true "tanggal" clock.tanggal s))))

open Regex in
/-- The eight contact replacements of `processTemplate` (lines 12-30), with the
values chosen by the caller. -/
def replaceContact (nameV phoneV categoryV groupV : JsString) (s : JsString) : JsString :=
  replacePlaceholder true "grup" groupV
    (replacePlaceholder true "group" groupV
      (replacePlaceholder true "category" categoryV
        (replacePlaceholder true "kategori" categoryV
          (replacePlaceholder true "phone" phoneV
            (replacePlaceholder true "telepon" phoneV
              (replacePlaceholder true "name" nameV
                (replacePlaceholder true "nama" nameV s)))))))

/-- The function `processTemplate` of `utils/template.js` (lines 2-41). -/
def processTemplate (clock : Clock) (template : JsString) (phoneNumber : JsString)
    (contacts : List Contact) : JsString :=
  if template.isEmpty then template
  else
    let processed :=
      match findContact contacts phoneNumber with
      | some contact =>
          replaceContact (orElse contact.name phoneNumber) (orElse contact.phone phoneNumber)
            (orElseOpt contact.category []) (orElseOpt contact.group []) template
      | none => replaceContact phoneNumber phoneNumber [] [] template
    replaceCommon clock processed

/-- The literal reading of the `variables.forEach` loop of
`processCustomBlastTemplate` (lines 58-62): each variable `v`, in order, is
replaced by `rowData[v] || ''`, the text `{v}` being looked for as it stands, up
to ASCII letter case.  The loop itself, with the pattern that `new RegExp` makes
from the variable, is `RegExp.replaceVariables`; the two agree for variables of
ordinary characters (`RegExp.replaceVariables_ordinary`). -/
def replaceVariablesLiteral (rowData : JsString → JsString) :
    List JsString → JsString → JsString
  | [], processed => processed
  | v :: rest, processed =>
      replaceVariablesLiteral rowData rest
        (Regex.replaceGo true (Regex.placeholder v) (rowData v) 0 [] processed)

/-- The literal reading of `processCustomBlastTemplate` of `utils/template.js`:
the function with `replaceVariablesLiteral` for its loop.  It is the text that
`Template.processCustomBlastTemplate` gives for headers of ordinary characters
(`RegExp.renderers_ordinary`). -/
def processCustomBlastTemplateLiteral (clock : Clock) (template : JsString)
    (phoneNumber : JsString) (dataMapping : JsString → Option (JsString → JsString))
    (vars : List JsString) (contacts : List Contact) : JsString :=
  if template.isEmpty then template
  else
    let processed :=
      match dataMapping phoneNumber with
      | some rowData => replaceVariablesLiteral rowData vars template
      | none => template
    processTemplate clock processed phoneNumber contacts

end Template

/-- Display text used in examples: every field is the empty string. -/
def noText : LogText :=
  { timestamp := fun _ => [], personalized := fun _ => [], details := fun _ _ => [] }

/-- A stored configuration of a plain text blast with an empty body. -/
def textConfig : BlastConfig :=
  { blastType := "text".toList, blastMessage := [], blastDelay := 0, isCustomBlast := false }

/-- A clock for examples. -/
def sampleClock : Clock :=
  { tanggal := "6/11/2026".toList, waktuShort := "10.30".toList, hari := "Jumat".toList,
    dateUS := "11/6/2026".toList, waktu := "10.30.00".toList,
    timeUS := "10:30:00 AM".toList, datetime := "6/11/2026, 10.30.00".toList }

/-- The contact Ana of category VIP. -/
def ana : Contact :=
  { name := "Ana".toList, phone := "628111222333".toList, category := some "VIP".toList,
    groups := [], group := none }

/-- Whether a send resolved, which is what the dispatch loop counts as a
success. -/
def SendResult.isResolved : SendResult → Bool
  | SendResult.resolved _ _ => true
  | SendResult.rejected _ => false

/-- The status of the most recent log entry of a recipient, if it has one. -/
def lastStatus (logs : List LogEntry) (id : JsString) : Option Status :=
  (logs.reverse.find? (fun e => e.phoneNumber == id)).map (fun e => e.status)

/-- The results reachable from the empty result, or from the reset made at a run
start, by `addMessageLog` calls with status success or error; on the retry path
of `BlastResults.js` the call is preceded by the extra update of the success
branch, queued in the same step. -/
inductive Reachable : RunResult → Prop where
  | empty : Reachable emptyResults
  | start (n : Nat) : Reachable (resetResults n)
  | log (r : RunResult) (ts phone : JsString) (status : Status) (msg details : JsString) :
      Reachable r → status ≠ Status.other →
      Reachable (addMessageLog ts r phone status msg details)
  | retrySuccess (r : RunResult) (ts phone msg details : JsString) :
      Reachable r →
      Reachable (addMessageLog ts (BlastResults.retrySuccessUpdate r phone) phone
        Status.success msg details)

/-- The elements of `l` that are not in `seen` and did not occur earlier in `l`,
in order: what the duplicate filter keeps, written as a recursion. -/
def Helpers.keepUnseen {α : Type} [DecidableEq α] : List α → List α → List α
  | _, [] => []
  | seen, x :: xs =>
      if x ∈ seen then Helpers.keepUnseen seen xs
      else x :: Helpers.keepUnseen (seen ++ [x]) xs

/-- The position of the first occurrence of `x` in `l` (the length of `l` when
there is none). -/
def firstIndex {α : Type} [DecidableEq α] (l : List α) (x : α) : Nat :=
  l.indexOf x

/-- The shape of a recipient id: the text `62` followed by at least 8 decimal
digits and nothing else. -/
def IsRecipientId (x : JsString) : Prop :=
  ∃ ds : JsString, x = "62".toList ++ ds ∧ 8 ≤ ds.length ∧ ∀ c ∈ ds, c ∈ "0123456789".toList

/-- The opening brace. -/
def lbrace : Char := Char.ofNat 123

/-- The closing brace. -/
def rbrace : Char := Char.ofNat 125

/-- A piece of a template: literal text, or a placeholder `{name}`. -/
inductive Seg where
  | text (t : JsString)
  | hole (name : JsString)
deriving DecidableEq, Repr

/-- The characters of a piece. -/
def Seg.chars : Seg → JsString
  | Seg.text t => t
  | Seg.hole name => Regex.placeholder name

/-- The template made of a list of pieces. -/
def renderSegs : List Seg → JsString
  | [] => []
  | seg :: rest => seg.chars ++ renderSegs rest

/-- A piece is plain when its text has no opening brace, or its placeholder name
has no brace at all. -/
def Seg.Plain : Seg → Prop
  | Seg.text t => lbrace ∉ t
  | Seg.hole name => lbrace ∉ name ∧ rbrace ∉ name

/-- Whether the placeholder name `nm` found in a template is the name `name` of
the pattern, up to letter case when `ignoreCase` is set. -/
def NameMatch (ignoreCase : Bool) (name nm : JsString) : Prop :=
  if ignoreCase then name.map Char.toUpper = nm.map Char.toUpper else name = nm

instance (ignoreCase : Bool) (name nm : JsString) : Decidable (NameMatch ignoreCase name nm) := by
  unfold NameMatch
  exact inferInstance

/-- Replacement of the placeholder `name` by the text `repl` in one piece. -/
def Seg.subst (ignoreCase : Bool) (name repl : JsString) : Seg → Seg
  | Seg.text t => Seg.text t
  | Seg.hole nm => if NameMatch ignoreCase name nm then Seg.text repl else Seg.hole nm

/-- Whether some placeholder of the pieces has the name of the pattern. -/
def hasMatch (ignoreCase : Bool) (name : JsString) : List Seg → Bool
  | [] => false
  | Seg.text _ :: rest => hasMatch ignoreCase name rest
  | Seg.hole nm :: rest => decide (NameMatch ignoreCase name nm) || hasMatch ignoreCase name rest

/-- The placeholder names that `AppContext.processTemplateForBlast` replaces. -/
def AppContext.knownNames : List String :=
  ["nama", "telepon", "kategori", "group", "grup", "tanggal", "waktu", "hari"]

/-- The placeholder names that `processTemplate` of `utils/template.js`
replaces. -/
def Template.knownNames : List String :=
  ["nama", "name", "telepon", "phone", "kategori", "category", "group", "grup",
    "tanggal", "date", "waktu", "time", "datetime"]

/-- The text `pat` occurs in `s`, up to letter case when `ignoreCase` is set. -/
def Occurs (ignoreCase : Bool) (pat s : JsString) : Prop :=
  if ignoreCase then pat.map Char.toUpper <:+: s.map Char.toUpper else pat <:+: s

instance (ignoreCase : Bool) (pat s : JsString) : Decidable (Occurs ignoreCase pat s) := by
  unfold Occurs
  exact inferInstance

/-- Recipient A of the examples. -/
def phoneA : JsString := "6281111111111".toList

/-- Recipient B of the examples. -/
def phoneB : JsString := "6282222222222".toList

/-! ## The renderers as replacement tables -/

/-- A sequence of global replacements `s.replace(/\{name\}/g, value)`, with flags
`gi` when `ignoreCase` is set, done in the order of the table. -/
def Regex.replaceTable (ignoreCase : Bool) (table : List (JsString × JsString))
    (s : JsString) : JsString :=
  table.foldl (fun acc e => Regex.replaceGo ignoreCase (Regex.placeholder e.1) e.2 0 [] acc) s

/-- A piece after a table of replacements that do not interfere: a placeholder
becomes the value of the first entry that has its name. -/
def Seg.fill (ignoreCase : Bool) (table : List (JsString × JsString)) : Seg → Seg
  | Seg.text t => Seg.text t
  | Seg.hole nm =>
      match table.find? (fun e => decide (NameMatch ignoreCase e.1 nm)) with
      | some e => Seg.text e.2
      | none => Seg.hole nm

/-- The replacements of `AppContext.processTemplateForBlast`, in the order of
the code, for the contact found for the recipient, if any. -/
def AppContext.tableFor (contact : Option Contact) (clock : Clock) (phoneNumber : JsString) :
    List (JsString × JsString) :=
  match contact with
  | some c =>
      [("nama".toList, orElse c.name "Customer".toList),
       ("telepon".toList, orElse c.phone phoneNumber),
       ("kategori".toList, orElseOpt c.category "Valued Customer".toList),
       ("group".toList, c.groups.headD "General".toList),
       ("grup".toList, c.groups.headD "General".toList),
       ("tanggal".toList, clock.tanggal),
       ("waktu".toList, clock.waktuShort),
       ("hari".toList, clock.hari)]
  | none =>
      [("tanggal".toList, clock.tanggal),
       ("waktu".toList, clock.waktuShort),
       ("hari".toList, clock.hari),
       ("nama".toList, "Customer".toList),
       ("kategori".toList, "Valued Customer".toList),
       ("group".toList, "General".toList),
       ("grup".toList, "General".toList)]

/-- The replacements of `processTemplate` of `utils/template.js`, in the order of
the code. -/
def Template.tableFor (contact : Option Contact) (clock : Clock) (phoneNumber : JsString) :
    List (JsString × JsString) :=
  (match contact with
    | some c =>
        [("nama".toList, orElse c.name phoneNumber),
         ("name".toList, orElse c.name phoneNumber),
         ("telepon".toList, orElse c.phone phoneNumber),
         ("phone".toList, orElse c.phone phoneNumber),
         ("kategori".toList, orElseOpt c.category []),
         ("category".toList, orElseOpt c.category []),
         ("group".toList, orElseOpt c.group []),
         ("grup".toList, orElseOpt c.group [])]
    | none =>
        [("nama".toList, phoneNumber),
         ("name".toList, phoneNumber),
         ("telepon".toList, phoneNumber),
         ("phone".toList, phoneNumber),
         ("kategori".toList, []),
         ("category".toList, []),
         ("group".toList, []),
         ("grup".toList, [])]) ++
  [("tanggal".toList, clock.tanggal),
   ("date".toList, clock.dateUS),
   ("waktu".toList, clock.waktu),
   ("time".toList, clock.timeUS),
   ("datetime".toList, clock.datetime)]

/-- The replacements of the spreadsheet variables in
`processCustomBlastTemplate` of `utils/template.js`, in the order of the
variable list; there is none when the mapping has no row for the number. -/
def Template.variableTable (rowData : Option (JsString → JsString)) (vars : List JsString) :
    List (JsString × JsString) :=
  match rowData with
  | some row => vars.map (fun v => (v, row v))
  | none => []

/-- A table of replacements is tame when no name has a closing brace and no
value has a `$` or an opening brace. -/
def TameTable (table : List (JsString × JsString)) : Prop :=
  ∀ e ∈ table, rbrace ∉ e.1 ∧ '$' ∉ e.2 ∧ lbrace ∉ e.2

/-- The contact whose name is the text of the category placeholder. -/
def trickyContact : Contact :=
  { name := "{kategori}".toList, phone := "628111222333".toList, category := some "VIP".toList,
    groups := [], group := none }

instance (table : List (JsString × JsString)) : Decidable (TameTable table) := by
  unfold TameTable
  exact inferInstance

instance (seg : Seg) : Decidable seg.Plain :=
  match seg with
  | Seg.text t => inferInstanceAs (Decidable (lbrace ∉ t))
  | Seg.hole name => inferInstanceAs (Decidable (lbrace ∉ name ∧ rbrace ∉ name))

/-- The pieces of the template `Halo {nama}, {kategori}`. -/
def haloSegs : List Seg :=
  [Seg.text "Halo ".toList, Seg.hole "nama".toList, Seg.text ", ".toList,
    Seg.hole "kategori".toList]

/-- The contact whose name is the text of the name placeholder. -/
def selfContact : Contact :=
  { name := "{nama}".toList, phone := "628111222333".toList, category := some "VIP".toList,
    groups := [], group := none }

/-- A spreadsheet mapping in which every cell of every row is the text `{nama}`. -/
def trickyMapping : JsString → Option (JsString → JsString) :=
  fun _ => some (fun _ => "{nama}".toList)

/-! ## Transport (`services/api.js`, `components/RetryBlast.jsx`) -/

/-- The `data` object of a gateway response, as far as `api.js` reads it:
`success` (when it is a boolean), `error`, `message` and `timeout`. -/
structure ResponseData where
  success : Option Bool
  error : Option JsString
  message : Option JsString
  timeout : Bool
deriving DecidableEq, Repr

/-- What `api.post` settles with before the response interceptor: a response, or
an error with its `code`, the `url` of its `config` and its message. -/
inductive AxiosResult where
  | fulfilled (status : Nat) (data : ResponseData)
  | failed (code : JsString) (configUrl : Option JsString) (message : JsString)
deriving DecidableEq, Repr

namespace Api

/-- The method `String.prototype.includes`. -/
def includes (s sub : JsString) : Bool :=
  decide (sub <:+: s)

/-- Truthiness of a property that holds a string or is absent. -/
def truthy (v : Option JsString) : Bool :=
  match v with
  | some s => !s.isEmpty
  | none => false

/-- The response interceptor (lines 12-37): a time-out (`ECONNABORTED`) of a
request whose URL contains `/send` is turned into a response with status 200
and `timeout: true`; everything else is passed on. -/
def responseInterceptor : AxiosResult → AxiosResult
  | AxiosResult.fulfilled status data => AxiosResult.fulfilled status data
  | AxiosResult.failed code configUrl message =>
      if code = "ECONNABORTED".toList ∧
          (match configUrl with
            | some url => includes url "/send".toList
            | none => false) = true then
        AxiosResult.fulfilled 200
          { success := some true, error := none,
            message := some "Request timeout but message may have been sent".toList,
            timeout := true }
      else AxiosResult.failed code configUrl message

/-- The body shared by `messageAPI.sendText`, `sendImage` and `sendDocument`
(lines 56-161) applied to what `api.post` gave after the interceptor; `fallback`
is the last-resort error text of the method. -/
def sendResult (fallback : JsString) : AxiosResult → SendResult
  | AxiosResult.fulfilled status data =>
      let isSuccess :=
        decide (200 ≤ status) && decide (status < 300) && decide (data.success ≠ some false) &&
          !truthy data.error
      if isSuccess || data.timeout then SendResult.resolved status data.timeout
      else SendResult.rejected (orElseOpt data.message (orElseOpt data.error fallback))
  | AxiosResult.failed _ _ message => SendResult.rejected message

/-- The method `messageAPI.sendText` on a raw result of the request. -/
def sendText (raw : AxiosResult) : SendResult :=
  sendResult "Failed to send text message".toList (responseInterceptor raw)

/-- The method `messageAPI.sendImage` on a raw result of the request. -/
def sendImage (raw : AxiosResult) : SendResult :=
  sendResult "Failed to send image message".toList (responseInterceptor raw)

/-- The method `messageAPI.sendDocument` on a raw result of the request. -/
def sendDocument (raw : AxiosResult) : SendResult :=
  sendResult "Failed to send document message".toList (responseInterceptor raw)

end Api

/-- What `createTimeoutRequest` of `RetryBlast.jsx` (lines 16-24) settles with:
a response of `fetch`, an abort by the 30 s timer, or another failure of
`fetch`. -/
inductive FetchResult where
  | response (status : Nat) (body : JsString)
  | aborted
  | failed (message : JsString)
deriving DecidableEq, Repr

/-- The awaited request of `RetryBlast.jsx` (lines 105-117) as a send result: a
response resolves, an abort or failure of `fetch` rejects. -/
def RetryBlast.fetchSend : FetchResult → SendResult
  | FetchResult.response status _ => SendResult.resolved status false
  | FetchResult.aborted => SendResult.rejected "The operation was aborted.".toList
  | FetchResult.failed message => SendResult.rejected message

/-! ## Application state, effects and event handlers -/

/-- The part of the `AppProvider` state that the blast handlers read and write. -/
structure AppState where
  blastInProgress : Bool
  customBlastInProgress : Bool
  isRetryBlast : Bool
  blastResults : RunResult
  lastBlastConfig : Option BlastConfig
deriving DecidableEq, Repr

/-- An observable action of a handler: a send request (endpoint, destination and
text of the payload) or a wait of the given number of milliseconds. -/
inductive Effect where
  | send (endpoint phoneNumber text : JsString)
  | sleep (ms : Nat)
deriving DecidableEq, Repr

/-- What the handlers close over: the session name and the renderers of the
context (`processTemplateForBlast`, `processCustomBlastTemplate`), and the
renderer `processCustomBlastTemplate` of `utils/template.js` applied to the
spreadsheet state; each takes the template and the recipient. -/
structure Context where
  sessionName : JsString
  processTemplateForBlast : JsString → JsString → JsString
  processCustomBlastTemplate : JsString → JsString → JsString
  customTemplate : JsString → JsString → JsString

/-- The shape shared by the three dispatch loops: for the recipient of index
`i`, the send attempt `attempt`, the update `step` of the results, and then a
wait of `delayMs` when `notLast i` holds. -/
def dispatchLoop (attempt : JsString → List Effect)
    (step : RunResult → JsString → SendResult → RunResult) (delayMs : Nat)
    (notLast : Nat → Bool) : Nat → RunResult → List (JsString × SendResult) →
    RunResult × List Effect
  | _, r, [] => (r, [])
  | i, r, (phoneNumber, res) :: rest =>
      ((dispatchLoop attempt step delayMs notLast (i + 1) (step r phoneNumber res) rest).1,
        attempt phoneNumber ++ (if notLast i then [Effect.sleep delayMs] else []) ++
          (dispatchLoop attempt step delayMs notLast (i + 1) (step r phoneNumber res) rest).2)

/-- The call `checkSessionBeforeSend` of `utils/helpers.js`: it fails exactly
when the session name is empty. -/
def checkSessionBeforeSend (sessionName : JsString) : Bool :=
  !sessionName.isEmpty

namespace RegularBlast

/-- The form state of `RegularBlast` read by `handleSubmit`; `blastFile` is the
name of the selected file. -/
structure Form where
  phoneNumbers : JsString
  blastMessage : JsString
  blastType : JsString
  blastDelay : Nat
  blastFile : Option JsString
deriving DecidableEq, Repr

/-- The method chosen by `messageAPI[...]` (lines 449-455), by its endpoint. -/
def endpointOf (blastType : JsString) : JsString :=
  if blastType = "text".toList then "/message/send-text".toList
  else if blastType = "image".toList then "/message/send-image".toList
  else "/message/send-document".toList

/-- The checks of `handleSubmit` before any state change (lines 328-362): the
recipient list when all pass, nothing when one of them returns. -/
def validate (ctx : Context) (s : AppState) (form : Form) : Option (List JsString) :=
  if s.blastInProgress then none
  else if form.phoneNumbers.isEmpty then none
  else if form.blastMessage.isEmpty ∧ form.blastType = "text".toList then none
  else if (form.blastType = "image".toList ∨ form.blastType = "document".toList) ∧
      form.blastFile = none then none
  else if (Helpers.parsePhoneNumbers (JsValue.str form.phoneNumbers)).length = 0 then none
  else if !checkSessionBeforeSend ctx.sessionName then none
  else some (Helpers.parsePhoneNumbers (JsValue.str form.phoneNumbers))

/-- The start of a run (lines 365-374): the flag is raised and the results are
reset. -/
def beginRun (s : AppState) (n : Nat) : AppState :=
  { s with blastInProgress := true, blastResults := resetResults n }

/-- The configuration stored for a retry (lines 397-406). -/
def configOf (form : Form) : BlastConfig :=
  { blastType := form.blastType, blastMessage := form.blastMessage,
    blastDelay := form.blastDelay, isCustomBlast := false }

/-- The call `setLastBlastConfig` of a run. -/
def storeConfig (s : AppState) (form : Form) : AppState :=
  { s with lastBlastConfig := some (configOf form) }

/-- The `finally` block (lines 499-502): the flag is lowered. -/
def endRun (s : AppState) : AppState :=
  { s with blastInProgress := false }

/-- The log text of a run: the personalised message is the output of the
context's renderer on the form's message. -/
def logText (txt : LogText) (ctx : Context) (form : Form) : LogText :=
  { txt with personalized := fun p => ctx.processTemplateForBlast form.blastMessage p }

/-- The loop of `handleSubmit` (lines 418-489) with its send requests and
waits. -/
def runLoop (txt : LogText) (ctx : Context) (form : Form) (r : RunResult)
    (phoneNumbersList : List JsString) (outcomes : List SendResult) :
    RunResult × List Effect :=
  dispatchLoop
    (fun p => [Effect.send (endpointOf form.blastType) p
      (ctx.processTemplateForBlast form.blastMessage p)])
    (sendStep (logText txt ctx form) form.blastMessage)
    (form.blastDelay * 1000)
    (fun i => decide (i + 1 < phoneNumbersList.length))
    0 r (phoneNumbersList.zip outcomes)

/-- The handler `handleSubmit` (lines 325-503) on the application state, with
the effects it performs; `uploadFails` tells that the upload of the selected
file throws, and `outcomes` are the results of the successive sends. -/
def handleSubmitEvent (txt : LogText) (ctx : Context) (uploadFails : Bool) (s : AppState)
    (form : Form) (outcomes : List SendResult) : AppState × List Effect :=
  match validate ctx s form with
  | none => (s, [])
  | some phoneNumbersList =>
      if form.blastFile ≠ none ∧ uploadFails = true then
        (endRun (beginRun s phoneNumbersList.length), [])
      else
        (endRun
          { storeConfig (beginRun s phoneNumbersList.length) form with
            blastResults :=
              (runLoop txt ctx form (resetResults phoneNumbersList.length) phoneNumbersList
                outcomes).1 },
         (runLoop txt ctx form (resetResults phoneNumbersList.length) phoneNumbersList
            outcomes).2)

end RegularBlast

namespace CustomBlast

/-- The state of `CustomBlast` read by `handleSubmit`; `phoneMappingKeys` is
`Object.keys(customBlastPhoneMapping)` and `customBlastFile` the name of the
selected file. -/
structure Form where
  phoneMappingKeys : List JsString
  customBlastMessage : JsString
  customBlastType : JsString
  customBlastDelay : Nat
  customBlastFile : Option JsString
deriving DecidableEq, Repr

/-- The method called for a kind (lines 623-632), by its endpoint; no method is
called for another kind. -/
def endpointOf (customBlastType : JsString) : Option JsString :=
  if customBlastType = "text".toList then some "/message/send-text".toList
  else if customBlastType = "image".toList then some "/message/send-image".toList
  else if customBlastType = "document".toList then some "/message/send-document".toList
  else none

/-- The checks of `handleSubmit` before any state change (lines 503-548). -/
def validate (ctx : Context) (s : AppState) (form : Form) : Option (List JsString) :=
  if s.customBlastInProgress then none
  else if form.phoneMappingKeys.length = 0 then none
  else if form.customBlastMessage.isEmpty ∧ form.customBlastType = "text".toList then none
  else if (form.customBlastType = "image".toList ∨ form.customBlastType = "document".toList) ∧
      form.customBlastFile = none then none
  else if form.phoneMappingKeys.length = 0 then none
  else if !checkSessionBeforeSend ctx.sessionName then none
  else some form.phoneMappingKeys

/-- The start of a run (lines 550-559). -/
def beginRun (s : AppState) (n : Nat) : AppState :=
  { s with customBlastInProgress := true, blastResults := resetResults n }

/-- The configuration stored for a retry (lines 581-590). -/
def configOf (form : Form) : BlastConfig :=
  { blastType := form.customBlastType, blastMessage := form.customBlastMessage,
    blastDelay := form.customBlastDelay, isCustomBlast := true }

/-- The call `setLastBlastConfig` of a run. -/
def storeConfig (s : AppState) (form : Form) : AppState :=
  { s with lastBlastConfig := some (configOf form) }

/-- The `finally` block (lines 675-678). -/
def endRun (s : AppState) : AppState :=
  { s with customBlastInProgress := false }

/-- The log text of a run: the personalised message is the output of
`processCustomBlastTemplate` of `utils/template.js`. -/
def logText (txt : LogText) (ctx : Context) (form : Form) : LogText :=
  { txt with personalized := fun p => ctx.customTemplate form.customBlastMessage p }

/-- The update of the results in one iteration (lines 602-658): as in the plain
loop when a method is called; for another kind nothing is awaited and the
success branch runs. -/
def sendStep (txt : LogText) (form : Form) (r : RunResult) (phoneNumber : JsString)
    (res : SendResult) : RunResult :=
  match endpointOf form.customBlastType with
  | some _ => RegularBlast.sendStep txt form.customBlastMessage r phoneNumber res
  | none =>
      addMessageLog (txt.timestamp phoneNumber) r phoneNumber Status.success
        (txt.personalized phoneNumber) (txt.details phoneNumber res)

/-- The send request of one iteration, if any. -/
def attempt (ctx : Context) (form : Form) (phoneNumber : JsString) : List Effect :=
  match endpointOf form.customBlastType with
  | some endpoint =>
      [Effect.send endpoint phoneNumber (ctx.customTemplate form.customBlastMessage phoneNumber)]
  | none => []

/-- The loop of `handleSubmit` (lines 596-665) with its send requests and
waits. -/
def runLoop (txt : LogText) (ctx : Context) (form : Form) (r : RunResult)
    (phoneNumbersList : List JsString) (outcomes : List SendResult) :
    RunResult × List Effect :=
  dispatchLoop (attempt ctx form) (sendStep (logText txt ctx form) form)
    (form.customBlastDelay * 1000)
    (fun i => decide (i + 1 < phoneNumbersList.length))
    0 r (phoneNumbersList.zip outcomes)

/-- The handler `handleSubmit` of `CustomBlast.js` (lines 500-679). -/
def handleSubmitEvent (txt : LogText) (ctx : Context) (uploadFails : Bool) (s : AppState)
    (form : Form) (outcomes : List SendResult) : AppState × List Effect :=
  match validate ctx s form with
  | none => (s, [])
  | some phoneNumbersList =>
      if form.customBlastFile ≠ none ∧ uploadFails = true then
        (endRun (beginRun s phoneNumbersList.length), [])
      else
        (endRun
          { storeConfig (beginRun s phoneNumbersList.length) form with
            blastResults :=
              (runLoop txt ctx form (resetResults phoneNumbersList.length) phoneNumbersList
                outcomes).1 },
         (runLoop txt ctx form (resetResults phoneNumbersList.length) phoneNumbersList
            outcomes).2)

end CustomBlast

/-- The personalised message of a retry (lines 137-149 of `BlastResults.js`,
72-84 of `RetryBlast.jsx`): the stored message through the context's renderer
for the stored kind of run. -/
def personalizedMessage (ctx : Context) (cfg : BlastConfig) (phoneNumber : JsString) :
    JsString :=
  if cfg.isCustomBlast then ctx.processCustomBlastTemplate cfg.blastMessage phoneNumber
  else ctx.processTemplateForBlast cfg.blastMessage phoneNumber

/-- The log text of a retry. -/
def retryLogText (txt : LogText) (ctx : Context) (cfg : BlastConfig) : LogText :=
  { txt with personalized := personalizedMessage ctx cfg }

namespace BlastResults

/-- The method called for the stored kind (lines 158-168), by its endpoint; no
method is called for another kind, and `response` stays undefined. -/
def endpointOf (blastType : JsString) : Option JsString :=
  if blastType = "text".toList then some "/message/send-text".toList
  else if blastType = "image".toList then some "/message/send-image".toList
  else if blastType = "document".toList then some "/message/send-document".toList
  else none

/-- The send request of one iteration of the retry, if any. -/
def attempt (ctx : Context) (cfg : BlastConfig) (phoneNumber : JsString) : List Effect :=
  match endpointOf cfg.blastType with
  | some endpoint => [Effect.send endpoint phoneNumber (personalizedMessage ctx cfg phoneNumber)]
  | none => []

/-- The update of the results in one iteration of the retry: `retryStep` when a
method was called; otherwise `response` is undefined, the test of line 171 fails
and the `catch` block logs an error. -/
def retryStepFor (txt : LogText) (cfg : BlastConfig) (r : RunResult) (phoneNumber : JsString)
    (res : SendResult) : RunResult :=
  match endpointOf cfg.blastType with
  | some _ => retryStep txt cfg.blastMessage r phoneNumber res
  | none =>
      addMessageLog (txt.timestamp phoneNumber) r phoneNumber Status.error cfg.blastMessage
        (txt.details phoneNumber res)

/-- The loop of `retryFailedBlast` (lines 114-224) over the snapshot
`[...blastResults.failedNumbers]`, with its send requests and waits. -/
def retryRun (txt : LogText) (ctx : Context) (cfg : BlastConfig) (r : RunResult)
    (outcomes : List SendResult) : RunResult × List Effect :=
  dispatchLoop (attempt ctx cfg) (retryStepFor (retryLogText txt ctx cfg) cfg)
    (cfg.blastDelay * 1000)
    (fun i => decide (i < r.failedNumbers.length - 1))
    0 r (r.failedNumbers.zip outcomes)

/-- The function `retryFailedBlast` (lines 88-258) on the application state,
with the effects it performs; `confirmed` is the answer to the dialog. -/
def retryFailedBlastEvent (txt : LogText) (ctx : Context) (confirmed : Bool) (s : AppState)
    (outcomes : List SendResult) : AppState × List Effect :=
  match s.lastBlastConfig with
  | none => (s, [])
  | some cfg =>
      if s.blastResults.failedNumbers.length = 0 then (s, [])
      else if !confirmed then (s, [])
      else
        ({ s with
            isRetryBlast := false
            blastResults := (retryRun txt ctx cfg s.blastResults outcomes).1 },
         (retryRun txt ctx cfg s.blastResults outcomes).2)

/-- A click on the retry button (lines 427-432): the button is rendered only
with a failed number and while neither blast is in progress, and it is disabled
while a retry runs; otherwise the click calls `retryFailedBlast`. -/
def retryButtonClick (txt : LogText) (ctx : Context) (confirmed : Bool) (s : AppState)
    (outcomes : List SendResult) : AppState × List Effect :=
  if 0 < s.blastResults.failedNumbers.length ∧ s.blastInProgress = false ∧
      s.customBlastInProgress = false then
    if s.isRetryBlast then (s, [])
    else retryFailedBlastEvent txt ctx confirmed s outcomes
  else (s, [])

end BlastResults

namespace RetryBlast

/-- The endpoint of the request for the stored kind (lines 93-103); it is empty
for another kind. -/
def endpointOf (blastType : JsString) : JsString :=
  if blastType = "text".toList then "/message/send-text".toList
  else if blastType = "image".toList then "/message/send-image".toList
  else if blastType = "document".toList then "/message/send-document".toList
  else []

/-- The loop of `retryFailedBlast` of `RetryBlast.jsx` (lines 53-152), with its
requests and waits. -/
def retryRun (txt : LogText) (ctx : Context) (cfg : BlastConfig) (r : RunResult)
    (outcomes : List SendResult) : RunResult × List Effect :=
  dispatchLoop
    (fun p => [Effect.send (endpointOf cfg.blastType) p (personalizedMessage ctx cfg p)])
    (retryStep (retryLogText txt ctx cfg) cfg.blastMessage)
    (cfg.blastDelay * 1000)
    (fun i => decide (i < r.failedNumbers.length - 1))
    0 r (r.failedNumbers.zip outcomes)

/-- The function `retryFailedBlast` of `RetryBlast.jsx` (lines 26-171) on the
application state, with the effects it performs. -/
def retryFailedBlastEvent (txt : LogText) (ctx : Context) (confirmed : Bool) (s : AppState)
    (outcomes : List SendResult) : AppState × List Effect :=
  match s.lastBlastConfig with
  | none => (s, [])
  | some cfg =>
      if s.blastResults.failedNumbers.length = 0 then (s, [])
      else if !confirmed then (s, [])
      else
        ({ s with
            isRetryBlast := false
            blastResults := (retryRun txt ctx cfg s.blastResults outcomes).1 },
         (retryRun txt ctx cfg s.blastResults outcomes).2)

/-- A click on the button of `RetryBlast.jsx` (lines 173-191): the component
renders nothing without a failed number, and the button is disabled while a
retry runs. -/
def retryButtonClick (txt : LogText) (ctx : Context) (confirmed : Bool) (s : AppState)
    (outcomes : List SendResult) : AppState × List Effect :=
  if s.blastResults.failedNumbers.length = 0 then (s, [])
  else if s.isRetryBlast then (s, [])
  else retryFailedBlastEvent txt ctx confirmed s outcomes

end RetryBlast

/-- An update of the results inside the application state: a queued
`setBlastResults` updater. -/
def AppState.mapResults (s : AppState) (f : RunResult → RunResult) : AppState :=
  { s with blastResults := f s.blastResults }

/-- The destination of a send request. -/
def Effect.target : Effect → Option JsString
  | Effect.send _ phoneNumber _ => some phoneNumber
  | Effect.sleep _ => none

/-- Whether an effect is a wait. -/
def Effect.isSleep : Effect → Bool
  | Effect.send _ _ _ => false
  | Effect.sleep _ => true

/-- The state before any blast. -/
def idleState : AppState :=
  { blastInProgress := false, customBlastInProgress := false, isRetryBlast := false,
    blastResults := emptyResults, lastBlastConfig := none }

/-- A context for examples: session `mysession`, renderers that return the
template. -/
def plainContext : Context :=
  { sessionName := "mysession".toList, processTemplateForBlast := fun t _ => t,
    processCustomBlastTemplate := fun t _ => t, customTemplate := fun t _ => t }

/-- A plain text blast to A and B with the message `Halo` and a delay of 2 s. -/
def formAB : RegularBlast.Form :=
  { phoneNumbers := "6281111111111\n6282222222222".toList, blastMessage := "Halo".toList,
    blastType := "text".toList, blastDelay := 2, blastFile := none }

/-- Recipient C of the examples. -/
def phoneC : JsString := "6283333333333".toList

/-- A custom text blast to C with the message `Promo` and a delay of 3 s. -/
def formC : CustomBlast.Form :=
  { phoneMappingKeys := [phoneC], customBlastMessage := "Promo".toList,
    customBlastType := "text".toList, customBlastDelay := 3, customBlastFile := none }

/-- A state in which A has failed and a retry configuration is stored, with the
given in-progress flags. -/
def failedState (blastInProgress customBlastInProgress isRetryBlast : Bool) : AppState :=
  { blastInProgress := blastInProgress, customBlastInProgress := customBlastInProgress,
    isRetryBlast := isRetryBlast,
    blastResults :=
      { total := 1, success := 0, failed := 1,
        logs := [⟨[], phoneA, Status.error, [], []⟩], failedNumbers := [phoneA] },
    lastBlastConfig := some textConfig }

/-- A raw result of a send request that timed out in axios. -/
def axiosTimeout : AxiosResult :=
  AxiosResult.failed "ECONNABORTED".toList (some "/message/send-text".toList)
    "timeout of 30000ms exceeded".toList

/-- A plain blast over A and B in flight: started with the form `formAB`, the
send to A resolved, the send to B still to come. -/
def inFlightState : AppState :=
  (RegularBlast.storeConfig (RegularBlast.beginRun idleState 2) formAB).mapResults
    (fun r => RegularBlast.sendStep (RegularBlast.logText noText plainContext formAB)
      formAB.blastMessage r phoneA (SendResult.resolved 200 false))

/-! ## Completion notifier (`BlastResults.js`, `RegularBlast.js`, `CustomBlast.js`) -/

/-- The text of an integer count inside a template literal: its decimal digits,
after a minus sign when it is negative. -/
def numberToString : Int → JsString
  | Int.ofNat n => Nat.toDigits 10 n
  | Int.negSucc n => '-' :: Nat.toDigits 10 (n + 1)

/-- The template literal `${total}-${blastResults.success}-${blastResults.failed}`
that the notifiers call `blastId`. -/
def blastId (blastResults : RunResult) : JsString :=
  numberToString blastResults.total ++ '-' :: numberToString blastResults.success
    ++ '-' :: numberToString blastResults.failed

/-- The terminal signature of a result: total, success count and failed count. -/
def RunResult.signature (r : RunResult) : Int × Int × Int :=
  (r.total, r.success, r.failed)

/-- A result is terminal when its total is positive and every recipient has been
counted as a success or as a failure. -/
def RunResult.Terminal (r : RunResult) : Prop :=
  0 < r.total ∧ r.success + r.failed = r.total

instance (r : RunResult) : Decidable r.Terminal := by
  unfold RunResult.Terminal
  exact inferInstance

/-- What one run of a notifier's effect reads from the application context. -/
structure Observation where
  blastResults : RunResult
  blastInProgress : Bool
  customBlastInProgress : Bool
deriving DecidableEq, Repr

/-- The three components that carry a completion notifier, each with its own
`lastCompletedBlast` state. -/
inductive Notifier where
  | blastResults
  | regularBlast
  | customBlast
deriving DecidableEq, Repr

/-- The in-progress flags that the condition of a notifier reads:
`BlastResults.js` (lines 43-48) reads `blastInProgress` and
`customBlastInProgress`, `RegularBlast.js` (line 67) reads `blastInProgress`
only and `CustomBlast.js` (line 75) reads `customBlastInProgress` only. -/
def Notifier.inProgress : Notifier → Observation → Bool
  | Notifier.blastResults, o => o.blastInProgress || o.customBlastInProgress
  | Notifier.regularBlast, o => o.blastInProgress
  | Notifier.customBlast, o => o.customBlastInProgress

/-- One run of the effect of a notifier: the next value of `lastCompletedBlast`
(initially `null`, here `none`) and whether the completion event was raised, that
is whether `showStatus` and `addDebugInfo` were called with the completion
message. -/
def Notifier.observe (k : Notifier) (lastCompletedBlast : Option JsString) (o : Observation) :
    Option JsString × Bool :=
  let totalProcessed := o.blastResults.success + o.blastResults.failed
  let total := o.blastResults.total
  if total > 0 ∧ totalProcessed = total ∧ k.inProgress o = false then
    if lastCompletedBlast ≠ some (blastId o.blastResults) then
      (some (blastId o.blastResults), true)
    else (lastCompletedBlast, false)
  else (lastCompletedBlast, false)

/-- The observations of a sequence at which the completion event is raised, in
order, for a notifier that starts with the given `lastCompletedBlast`. -/
def Notifier.events (k : Notifier) : Option JsString → List Observation → List Observation
  | _, [] => []
  | last, o :: rest =>
      if (k.observe last o).2 then o :: Notifier.events k (k.observe last o).1 rest
      else Notifier.events k (k.observe last o).1 rest

/-- The value of `lastCompletedBlast` after a sequence of observations. -/
def Notifier.lastAfter (k : Notifier) : Option JsString → List Observation → Option JsString
  | last, [] => last
  | last, o :: rest => Notifier.lastAfter k (k.observe last o).1 rest

/-- An observation of the given counters while no blast is in progress. -/
def idleObs (total success failed : Int) : Observation :=
  { blastResults := ⟨total, success, failed, [], []⟩,
    blastInProgress := false, customBlastInProgress := false }

/-- An observation of the given counters while a plain blast is in progress. -/
def runningObs (total success failed : Int) : Observation :=
  { blastResults := ⟨total, success, failed, [], []⟩,
    blastInProgress := true, customBlastInProgress := false }

/-- Three plain runs seen by a notifier: two recipients, both delivered; then
three recipients, all delivered; then two recipients again, both delivered. -/
def threeRuns : List Observation :=
  [runningObs 2 0 0, runningObs 2 1 0, runningObs 2 2 0, idleObs 2 2 0, idleObs 2 2 0,
   runningObs 3 0 0, runningObs 3 1 0, runningObs 3 2 0, runningObs 3 3 0, idleObs 3 3 0,
   runningObs 2 0 0, runningObs 2 1 0, runningObs 2 2 0, idleObs 2 2 0, idleObs 2 2 0]

/-! ## Retry policy (`utils/helpers.js`) -/

/-- The properties of an error that `shouldRetryMessage` reads: `code` and
`status`, each of which may be absent. -/
structure RetryError where
  code : Option JsString
  status : Option Int
deriving DecidableEq, Repr

/-- The comparison `error.status >= n`, false for an absent status. -/
def RetryError.statusGe (error : RetryError) (n : Int) : Bool :=
  match error.status with
  | some st => decide (st ≥ n)
  | none => false

/-- The comparison `error.status < n`, false for an absent status. -/
def RetryError.statusLt (error : RetryError) (n : Int) : Bool :=
  match error.status with
  | some st => decide (st < n)
  | none => false

/-- The comparison `error.status !== n`. -/
def RetryError.statusNe (error : RetryError) (n : Int) : Bool :=
  decide (error.status ≠ some n)

/-- The test `!error.status`: the status is absent or zero. -/
def RetryError.statusFalsy (error : RetryError) : Bool :=
  match error.status with
  | some st => decide (st = 0)
  | none => true

/-- The function `shouldRetryMessage` of `utils/helpers.js` (lines 133-157). -/
def Helpers.shouldRetryMessage (error : RetryError) (attempt maxAttempts : Int) : Bool :=
  if attempt ≥ maxAttempts then false
  else if error.code = some "ECONNABORTED".toList ∨ error.code = some "ERR_NETWORK".toList then
    true
  else if error.statusGe 500 && error.statusLt 600 then true
  else if error.statusGe 400 && error.statusLt 500 && error.statusNe 429 then false
  else if error.statusFalsy then true
  else false

/-! ## Literal reading of the renderer of the retry (`context/AppContext.js`) -/

/-- The literal reading of the `customBlastVariables.forEach` loop of
`processCustomBlastTemplate` in `AppContext.js` (lines 313-317): each variable
`v`, in order, is replaced by `excelData[v] || ""`, the text `{v}` being looked
for exactly as it stands.  The loop itself, with the pattern that `new RegExp`
makes from the variable, is `RegExp.replaceVariables`; the two agree for
variables of ordinary characters (`RegExp.replaceVariables_ordinary`). -/
def AppContext.replaceVariablesLiteral (excelData : JsString → JsString) :
    List JsString → JsString → JsString
  | [], processedContent => processedContent
  | v :: rest, processedContent =>
      AppContext.replaceVariablesLiteral excelData rest
        (Regex.replaceGo false (Regex.placeholder v) (excelData v) 0 [] processedContent)

/-- The literal reading of `processCustomBlastTemplate` of `AppContext.js`: the
function with `AppContext.replaceVariablesLiteral` for its loop.  It is the text
that `AppContext.processCustomBlastTemplate` gives for headers of ordinary
characters (`RegExp.renderers_ordinary`). -/
def AppContext.processCustomBlastTemplateLiteral (contacts : List Contact) (clock : Clock)
    (customBlastDataMapping : JsString → Option (JsString → JsString))
    (customBlastVariables : List JsString) (content : JsString) (phoneNumber : JsString) :
    JsString :=
  match customBlastDataMapping phoneNumber with
  | some excelData =>
      AppContext.replaceCommon clock
        (AppContext.replaceVariablesLiteral excelData customBlastVariables content)
  | none => AppContext.processTemplateForBlast contacts clock content phoneNumber

/-- The spreadsheet row of recipient A: `Telepon` is the number of A and `Nama`
is `Budi`; a header that the row does not have gives the empty text. -/
def budiRow : JsString → JsString :=
  fun v =>
    if v = "Telepon".toList then phoneA
    else if v = "Nama".toList then "Budi".toList
    else []

/-- A spreadsheet mapping with the single row `budiRow` for recipient A. -/
def budiMapping : JsString → Option (JsString → JsString) :=
  fun p => if p = phoneA then some budiRow else none

/-- The contact of recipient A, named Ana. -/
def anaA : Contact :=
  { name := "Ana".toList, phone := phoneA, category := some "VIP".toList, groups := [],
    group := none }

/-- A contact whose name is `US$$ Store`. -/
def dollarContact : Contact :=
  { name := "US$$ Store".toList, phone := phoneA, category := some "$&".toList,
    groups := ["Rp$1".toList], group := some "Rp$1".toList }

/-- A spreadsheet mapping in which every cell of every row is the text `$&`. -/
def ampMapping : JsString → Option (JsString → JsString) :=
  fun _ => some (fun _ => "$&".toList)

/-- The pieces of the template `Halo {nama} ({kategori}, {group}/{grup})`. -/
def defaultsSegs : List Seg :=
  [Seg.text "Halo ".toList, Seg.hole "nama".toList, Seg.text " (".toList,
    Seg.hole "kategori".toList, Seg.text ", ".toList, Seg.hole "group".toList,
    Seg.text "/".toList, Seg.hole "grup".toList, Seg.text ")".toList]

/-! ## Recipient resolver, spreadsheet mode (`components/Blast/CustomBlast.js`) -/

/-- The key `__proto__`, which an assignment does not store as a property. -/
def protoKey : JsString := "__proto__".toList

/-- An object literal `{}` filled by assignments `o[key] = value`: its own
properties, in the order in which they were created. -/
abbrev JsObject (α : Type) := List (JsString × α)

/-- The own property keys in the order of their creation. -/
def JsObject.ownKeys {α : Type} (o : JsObject α) : List JsString :=
  o.map Prod.fst

/-- The own property `o[key]`, if there is one. -/
def JsObject.get? {α : Type} (o : JsObject α) (key : JsString) : Option α :=
  (o.find? (fun e => decide (e.1 = key))).map Prod.snd

/-- The assignment `o[key] = value`: an existing property keeps its place, a new
one is added last; the key `__proto__` creates no property. -/
def JsObject.set {α : Type} (o : JsObject α) (key : JsString) (value : α) : JsObject α :=
  if key = protoKey then o
  else if key ∈ o.ownKeys then o.map (fun e => if e.1 = key then (key, value) else e)
  else o ++ [(key, value)]

/-- The number written by a text of decimal digits. -/
def digitsValue (key : JsString) : Nat :=
  key.foldl (fun acc c => 10 * acc + (c.toNat - 48)) 0

/-- Whether a key is an array index: the canonical decimal text of an integer
below 4294967295. -/
def isArrayIndex (key : JsString) : Bool :=
  !key.isEmpty && key.all Helpers.isDigit &&
    (decide (key = "0".toList) || decide (key.head? ≠ some '0')) &&
    decide (digitsValue key < 4294967295)

/-- The call `Object.keys(o)`: the array-index keys in ascending numeric order,
then the other keys in the order of their creation. -/
def JsObject.keys {α : Type} (o : JsObject α) : List JsString :=
  List.insertionSort (fun a b => digitsValue a ≤ digitsValue b) (o.ownKeys.filter isArrayIndex)
    ++ o.ownKeys.filter (fun key => !isArrayIndex key)

/-- The method `toLowerCase` on ASCII letters.  The patterns of the phone column
are ASCII; the only other characters that lower-case to an ASCII letter give
`i` and `k`, which occur in none of them. -/
def toLowerCase (s : JsString) : JsString :=
  s.map Char.toLower

/-- What `processExcelFile` resolves with: the first row of the sheet and the
other rows, every cell as the text that `toString()` gives. -/
structure ExcelData where
  headers : List JsString
  rows : List (List JsString)
deriving DecidableEq, Repr

/-- The three states that `processCustomBlastExcelData` sets. -/
structure ExcelState where
  customBlastVariables : List JsString
  customBlastPhoneMapping : JsObject Bool
  customBlastDataMapping : JsObject (JsObject JsString)
deriving DecidableEq, Repr

namespace CustomBlast

/-- The array `phonePatterns` (lines 196-204). -/
def phonePatterns : List JsString :=
  ["telepon".toList, "phone".toList, "hp".toList, "wa".toList, "whatsapp".toList,
    "nomor".toList, "number".toList]

/-- The test of lines 207-210 on one header:
`phonePatterns.some((pattern) => headerLower.includes(pattern))`. -/
def isPhoneHeader (header : JsString) : Bool :=
  phonePatterns.any (fun pattern => Api.includes (toLowerCase header) pattern)

/-- The first `headers.forEach` loop (lines 206-214) from the header of index
`index` on; `phoneColumnIndex` is `none` for -1. -/
def detectGo : List JsString → Nat → Option Nat → Option Nat
  | [], _, phoneColumnIndex => phoneColumnIndex
  | header :: rest, index, phoneColumnIndex =>
      detectGo rest (index + 1)
        (if phoneColumnIndex = none ∧ isPhoneHeader header = true then some index
         else phoneColumnIndex)

/-- The detected phone column (lines 195-214). -/
def detectPhoneColumn (headers : List JsString) : Option Nat :=
  detectGo headers 0 none

/-- The array `newVariables` (lines 220-225): the trimmed headers that are not
empty. -/
def variablesOf (headers : List JsString) : List JsString :=
  (headers.map Helpers.trim).filter (fun cleanHeader => !cleanHeader.isEmpty)

/-- The inner `headers.forEach` loop (lines 232-235) from the header of index
`index` on: `rowData[cleanHeader] = row[index]?.toString().trim() || ""`. -/
def rowDataGo (row : List JsString) : List JsString → Nat → JsObject JsString →
    JsObject JsString
  | [], _, rowData => rowData
  | header :: rest, index, rowData =>
      rowDataGo row rest (index + 1)
        (rowData.set (Helpers.trim header) (orElseOpt ((row.get? index).map Helpers.trim) []))

/-- The object `rowData` built for one row. -/
def rowDataOf (headers : List JsString) (row : List JsString) : JsObject JsString :=
  rowDataGo row headers 0 []

/-- The value of `row[phoneColumnIndex]?.toString().trim()` (line 229), the
empty text standing for `undefined`, which is falsy as well. -/
def phoneOf (phoneColumnIndex : Nat) (row : List JsString) : JsString :=
  orElseOpt ((row.get? phoneColumnIndex).map Helpers.trim) []

/-- The `rows.forEach` loop (lines 228-240) on the two mappings. -/
def processRows (headers : List JsString) (phoneColumnIndex : Nat) :
    List (List JsString) → JsObject Bool × JsObject (JsObject JsString) →
    JsObject Bool × JsObject (JsObject JsString)
  | [], maps => maps
  | row :: rest, maps =>
      processRows headers phoneColumnIndex rest
        (if (phoneOf phoneColumnIndex row).isEmpty then maps
         else (maps.1.set (phoneOf phoneColumnIndex row) true,
               maps.2.set (phoneOf phoneColumnIndex row) (rowDataOf headers row)))

/-- The function `processCustomBlastExcelData` (lines 189-258) for spreadsheet
data that is present. -/
def processCustomBlastExcelData (customBlastExcelData : ExcelData) : ExcelState :=
  match detectPhoneColumn customBlastExcelData.headers with
  | some phoneColumnIndex =>
      { customBlastVariables := variablesOf customBlastExcelData.headers,
        customBlastPhoneMapping :=
          (processRows customBlastExcelData.headers phoneColumnIndex
            customBlastExcelData.rows ([], [])).1,
        customBlastDataMapping :=
          (processRows customBlastExcelData.headers phoneColumnIndex
            customBlastExcelData.rows ([], [])).2 }
  | none =>
      { customBlastVariables := variablesOf customBlastExcelData.headers,
        customBlastPhoneMapping := [],
        customBlastDataMapping := [] }

/-- The list `phoneNumbersList = Object.keys(customBlastPhoneMapping)` of
`handleSubmit` (line 533). -/
def phoneNumbersList (st : ExcelState) : List JsString :=
  JsObject.keys st.customBlastPhoneMapping

end CustomBlast

/-- A header is a phone header when its lower-cased text contains one of the
seven patterns. -/
def IsPhoneHeader (header : JsString) : Prop :=
  ∃ pattern ∈ ["telepon".toList, "phone".toList, "hp".toList, "wa".toList,
      "whatsapp".toList, "nomor".toList, "number".toList],
    pattern <:+: toLowerCase header

instance (header : JsString) : Decidable (IsPhoneHeader header) := by
  unfold IsPhoneHeader
  exact inferInstance

/-- A sheet with the headers `Telepon`, `Nama` and one row for Budi whose phone
is written `0812-3456-7890`. -/
def budiSheet : ExcelData :=
  { headers := ["Telepon".toList, "Nama".toList],
    rows := [["0812-3456-7890".toList, "Budi".toList]] }

/-- A sheet without a phone column. -/
def noPhoneSheet : ExcelData :=
  { headers := ["Nama".toList, "Kota".toList],
    rows := [["Budi".toList, "Depok".toList]] }

/-- A sheet in which the number of A occurs in two rows, the row between them
has no phone, and the headers and cells carry blanks. -/
def repeatSheet : ExcelData :=
  { headers := [" Nama ".toList, "No HP".toList],
    rows := [["Budi".toList, " 6281111111111".toList], ["Tono".toList, "  ".toList],
      [" Ani ".toList, "6281111111111 ".toList], ["Cici".toList, "6282222222222".toList]] }

/-! ## Patterns made by `new RegExp` from a spreadsheet header

The renderers of variable-driven runs build `new RegExp("\\{" + variable + "\\}",
flags)` from the raw header, so that a header is read as pattern syntax.  The
model covers the patterns made of ordinary ASCII characters, identity escapes of
punctuation, `.`, `^`, `$`, `|`, capture groups and the greedy quantifiers `*`,
`+`, `?`; everything else is reported as outside the model. -/

/-- A pattern of the modelled subset. -/
inductive Re where
  | empty
  | chr (c : Char)
  | any
  | bol
  | eol
  | seq (a b : Re)
  | alt (a b : Re)
  | star (a : Re)
  | plus (a : Re)
  | opt (a : Re)
  | group (a : Re)
deriving DecidableEq, Repr

/-- The result of `new RegExp(source)`: a pattern, a `SyntaxError`, or a source
outside the modelled subset. -/
inductive Compiled where
  | ok (re : Re)
  | syntaxError
  | outside
deriving DecidableEq, Repr

/-- One nesting level of the reader of a pattern source: the alternatives
already closed by `|`, the terms of the current alternative (last first),
whether the last term may take a quantifier, and whether it has one. -/
structure Frame where
  alts : Option Re
  terms : List Re
  quantifiable : Bool
  quantified : Bool
deriving DecidableEq, Repr

/-- The sequence of a list of terms. -/
def Re.seqOf : List Re → Re
  | [] => Re.empty
  | [a] => a
  | a :: b :: rest => Re.seq a (Re.seqOf (b :: rest))

/-- Whether a pattern has a capture group. -/
def Re.hasGroup : Re → Bool
  | Re.group _ => true
  | Re.seq a b => a.hasGroup || b.hasGroup
  | Re.alt a b => a.hasGroup || b.hasGroup
  | Re.star a => a.hasGroup
  | Re.plus a => a.hasGroup
  | Re.opt a => a.hasGroup
  | _ => false

namespace RegExp

/-- The empty nesting level. -/
def emptyFrame : Frame :=
  { alts := none, terms := [], quantifiable := false, quantified := false }

/-- The disjunction read at a nesting level. -/
def finish (f : Frame) : Re :=
  match f.alts with
  | some a => Re.alt a (Re.seqOf f.terms.reverse)
  | none => Re.seqOf f.terms.reverse

/-- A nesting level after one more term. -/
def push (f : Frame) (term : Re) (quantifiable : Bool) : Frame :=
  { f with terms := term :: f.terms, quantifiable := quantifiable, quantified := false }

/-- Whether a character after a backslash is an identity escape: ASCII
punctuation or a blank.  Letters, digits and `_` after a backslash have meanings
of their own and are outside the model. -/
def isIdentityEscape (c : Char) : Bool :=
  decide (c.toNat < 128) && decide (32 ≤ c.toNat) && !c.isAlphanum && !(c == '_')

/-- The reader of a pattern source, character by character: `escaped` tells that
the previous character was a backslash, `opened` that it was `(`; `top` is the
current nesting level and `stack` the enclosing ones. -/
def parseGo : List Char → Bool → Bool → Frame → List Frame → Compiled
  | [], escaped, _, top, stack =>
      if escaped then Compiled.syntaxError
      else match stack with
        | [] => Compiled.ok (finish top)
        | _ :: _ => Compiled.syntaxError
  | c :: cs, escaped, opened, top, stack =>
      if escaped then
        if isIdentityEscape c then parseGo cs false false (push top (Re.chr c) true) stack
        else Compiled.outside
      else if c = Char.ofNat 92 then parseGo cs true false top stack
      else if c = '(' then parseGo cs false true emptyFrame (top :: stack)
      else if c = ')' then
        match stack with
        | [] => Compiled.syntaxError
        | parent :: rest => parseGo cs false false (push parent (Re.group (finish top)) true) rest
      else if c = '|' then
        parseGo cs false false
          { alts := some (finish top), terms := [], quantifiable := false, quantified := false }
          stack
      else if c = '?' ∧ (opened = true ∨ top.quantified = true) then Compiled.outside
      else if c = '*' ∨ c = '+' ∨ c = '?' then
        match top.terms with
        | [] => Compiled.syntaxError
        | t :: ts =>
            if top.quantifiable then
              parseGo cs false false
                { top with
                  terms :=
                    (if c = '*' then Re.star t else if c = '+' then Re.plus t else Re.opt t) :: ts,
                  quantifiable := false, quantified := true }
                stack
            else Compiled.syntaxError
      else if c = '.' then parseGo cs false false (push top Re.any true) stack
      else if c = '^' then parseGo cs false false (push top Re.bol false) stack
      else if c = '$' then parseGo cs false false (push top Re.eol false) stack
      else if c = '[' ∨ c = Char.ofNat 123 ∨ 128 ≤ c.toNat then Compiled.outside
      else parseGo cs false false (push top (Re.chr c) true) stack

/-- The constructor `new RegExp(source, flags)` on the source text. -/
def compile (source : JsString) : Compiled :=
  parseGo source false false emptyFrame []

/-- The source text of the template literal `\\{${variable}\\}`: a backslash and
an opening brace, the variable, a backslash and a closing brace. -/
def sourceOf (v : JsString) : JsString :=
  Char.ofNat 92 :: Char.ofNat 123 :: (v ++ [Char.ofNat 92, Char.ofNat 125])

end RegExp

/-- The outcome of a match attempt at one position: the end of the match, a
failure, or an exhausted step bound. -/
inductive Exec where
  | found (endPos : Nat)
  | fail
  | outOfFuel
deriving DecidableEq, Repr

/-- The next choice is tried only after a failure. -/
def Exec.orElse : Exec → (Unit → Exec) → Exec
  | Exec.found e, _ => Exec.found e
  | Exec.outOfFuel, _ => Exec.outOfFuel
  | Exec.fail, f => f ()

/-- Whether a character is a line terminator, which `.` does not match. -/
def isLineTerminator (c : Char) : Bool :=
  c.toNat == 10 || c.toNat == 13 || c.toNat == 8232 || c.toNat == 8233

/-- The backtracking matcher of ECMAScript on the modelled subset: the pattern
is matched at position `pos`, where `rest` is the subject from there on, and
`k` is what remains to be matched after it.  A quantifier is greedy and drops an
iteration that matched the empty text; the first argument bounds the depth. -/
def Re.run (ic : Bool) : Nat → Re → Nat → JsString → (Nat → JsString → Exec) → Exec
  | 0, _, _, _, _ => Exec.outOfFuel
  | n + 1, re, pos, rest, k =>
      match re with
      | Re.empty => k pos rest
      | Re.chr c =>
          match rest with
          | x :: xs => if Regex.charMatch ic c x then k (pos + 1) xs else Exec.fail
          | [] => Exec.fail
      | Re.any =>
          match rest with
          | x :: xs => if isLineTerminator x then Exec.fail else k (pos + 1) xs
          | [] => Exec.fail
      | Re.bol => if pos = 0 then k pos rest else Exec.fail
      | Re.eol => if rest.isEmpty then k pos rest else Exec.fail
      | Re.seq a b => Re.run ic n a pos rest (fun p r => Re.run ic n b p r k)
      | Re.alt a b => (Re.run ic n a pos rest k).orElse (fun _ => Re.run ic n b pos rest k)
      | Re.group a => Re.run ic n a pos rest k
      | Re.star a =>
          (Re.run ic n a pos rest
            (fun p r => if p = pos then Exec.fail else Re.run ic n (Re.star a) p r k)).orElse
            (fun _ => k pos rest)
      | Re.plus a => Re.run ic n a pos rest (fun p r => Re.run ic n (Re.star a) p r k)
      | Re.opt a =>
          (Re.run ic n a pos rest (fun p r => if p = pos then Exec.fail else k p r)).orElse
            (fun _ => k pos rest)

/-- The result of rendering with a pattern made from a header: the text, a
thrown `SyntaxError`, or an input outside the model. -/
inductive Rendered where
  | text (s : JsString)
  | threw
  | outside
deriving DecidableEq, Repr

namespace RegExp

/-- Scanner of `String.prototype.replace` with a global pattern: a match attempt
at every position that is not inside the previous match, the end of the subject
included; after an empty match the next character is copied.  The result is
`none` when the step bound `fuel` of the matcher is exhausted. -/
def replaceGo (ic : Bool) (re : Re) (fuel : Nat) (repl : JsString) :
    Nat → JsString → JsString → Option JsString
  | 0, before, [] =>
      match Re.run ic fuel re before.length [] (fun p _ => Exec.found p) with
      | Exec.found _ => some (Regex.getSubstitution [] before [] repl)
      | Exec.fail => some []
      | Exec.outOfFuel => none
  | _ + 1, _, [] => some []
  | k + 1, before, c :: cs => replaceGo ic re fuel repl k (before ++ [c]) cs
  | 0, before, c :: cs =>
      match Re.run ic fuel re before.length (c :: cs) (fun p _ => Exec.found p) with
      | Exec.found e =>
          if e - before.length = 0 then
            (replaceGo ic re fuel repl 0 (before ++ [c]) cs).map
              (fun t => Regex.getSubstitution [] before (c :: cs) repl ++ c :: t)
          else
            (replaceGo ic re fuel repl (e - before.length - 1) (before ++ [c]) cs).map
              (fun t =>
                Regex.getSubstitution ((c :: cs).take (e - before.length)) before
                  ((c :: cs).drop (e - before.length)) repl ++ t)
      | Exec.fail => (replaceGo ic re fuel repl 0 (before ++ [c]) cs).map (fun t => c :: t)
      | Exec.outOfFuel => none

/-- The two statements `new RegExp("\\{" + v + "\\}", flags)` and
`s.replace(regex, value)`, with flags `g`, or `gi` when `ic` is set.  A value
with `$` next to a pattern with a capture group is outside the model. -/
def replaceVariable (ic : Bool) (v value s : JsString) : Rendered :=
  match compile (sourceOf v) with
  | Compiled.syntaxError => Rendered.threw
  | Compiled.outside => Rendered.outside
  | Compiled.ok re =>
      if re.hasGroup = true ∧ '$' ∈ value then Rendered.outside
      else
        match replaceGo ic re (((sourceOf v).length + 1) * (s.length + 2)) value 0 [] s with
        | some t => Rendered.text t
        | none => Rendered.outside

/-- The `forEach` loop over the variables (`utils/template.js` lines 58-62 with
flags `gi`, `AppContext.js` lines 313-317 with flag `g`): each variable `v`, in
order, is replaced by `rowData[v] || ''` through the pattern that `new RegExp`
makes from it; an exception ends the loop. -/
def replaceVariables (ic : Bool) (rowData : JsString → JsString) :
    List JsString → JsString → Rendered
  | [], processed => Rendered.text processed
  | v :: rest, processed =>
      match replaceVariable ic v (rowData v) processed with
      | Rendered.text t => replaceVariables ic rowData rest t
      | Rendered.threw => Rendered.threw
      | Rendered.outside => Rendered.outside

end RegExp

/-- The function `processCustomBlastTemplate` of `utils/template.js` (lines
48-69), the renderer of the first run of a variable-driven blast; the patterns
of the variables are made by `new RegExp` from the raw headers, and
`dataMapping phoneNumber` is `none` when the mapping has no row for the
number. -/
def Template.processCustomBlastTemplate (clock : Clock) (template : JsString)
    (phoneNumber : JsString) (dataMapping : JsString → Option (JsString → JsString))
    (vars : List JsString) (contacts : List Contact) : Rendered :=
  if template.isEmpty then Rendered.text template
  else
    match dataMapping phoneNumber with
    | some rowData =>
        match RegExp.replaceVariables true rowData vars template with
        | Rendered.text processed =>
            Rendered.text (Template.processTemplate clock processed phoneNumber contacts)
        | Rendered.threw => Rendered.threw
        | Rendered.outside => Rendered.outside
    | none => Rendered.text (Template.processTemplate clock template phoneNumber contacts)

/-- The function `processCustomBlastTemplate` of `AppContext.js` (lines
305-341), the renderer of the retry of a variable-driven blast; the patterns of
the variables are made by `new RegExp` from the raw headers, and
`customBlastDataMapping phoneNumber` is `none` when the mapping has no row for
the number. -/
def AppContext.processCustomBlastTemplate (contacts : List Contact) (clock : Clock)
    (customBlastDataMapping : JsString → Option (JsString → JsString))
    (customBlastVariables : List JsString) (content : JsString) (phoneNumber : JsString) :
    Rendered :=
  match customBlastDataMapping phoneNumber with
  | some excelData =>
      match RegExp.replaceVariables false excelData customBlastVariables content with
      | Rendered.text processedContent =>
          Rendered.text (AppContext.replaceCommon clock processedContent)
      | Rendered.threw => Rendered.threw
      | Rendered.outside => Rendered.outside
  | none =>
      Rendered.text (AppContext.processTemplateForBlast contacts clock content phoneNumber)

/-- A spreadsheet mapping in which every row has the cell `5000` under the
headers `Harga (Rp)`, `Harga (Rp` and `Harga`, and the empty text elsewhere. -/
def hargaMapping : JsString → Option (JsString → JsString) :=
  fun _ => some (fun v =>
    if v = "Harga (Rp)".toList ∨ v = "Harga (Rp".toList ∨ v = "Harga".toList then "5000".toList
    else [])

/-- An ordinary character of a header: an ASCII character that is not one of the
pattern characters `\ ( ) | * + ? . ^ $ [` and the opening brace. -/
def RegExp.isOrdinary (c : Char) : Bool :=
  decide (c.toNat < 128) &&
    !([Char.ofNat 92, '(', ')', '|', '*', '+', '?', '.', '^', '$', '[', Char.ofNat 123].contains c)

/-! ## Replacement of every occurrence, as the specification words it -/

/-- The pieces of a text put together with a separator between them. -/
def joinWith (sep : JsString) : List JsString → JsString
  | [] => []
  | [t] => t
  | t :: u :: rest => t ++ sep ++ joinWith sep (u :: rest)

/-- The text `out` is `s` with every occurrence of `pat` replaced by `repl`:
cutting `s` at occurrences of `pat` leaves pieces in which `pat` does not occur,
and `out` is these pieces with `repl` between them.  For the pattern of a
placeholder the pieces, and so `out`, are determined by `s`
(`ReplacedEvery.unique`). -/
def ReplacedEvery (pat repl s out : JsString) : Prop :=
  ∃ pieces : List JsString, pieces ≠ [] ∧ s = joinWith pat pieces ∧
    (∀ t ∈ pieces, ¬ pat <:+: t) ∧ out = joinWith repl pieces

/-- A contact with an empty name and the category `US$`. -/
def dollarCategoryContact : Contact :=
  { name := [], phone := phoneA, category := some "US$".toList, groups := [], group := none }

/-! ## Theorems: result aggregator, dispatch loop and retry -/

theorem addMessageLog_total (ts : JsString) (r : RunResult) (phone : JsString)
    (status : Status) (msg details : JsString) :
    (addMessageLog ts r phone status msg details).total = r.total := by
  cases status <;> rfl

theorem lastStatus_append (logs : List LogEntry) (e : LogEntry) (id : JsString) :
    lastStatus (logs ++ [e]) id =
      if e.phoneNumber = id then some e.status else lastStatus logs id := by
  unfold lastStatus
  rw [List.reverse_append, List.reverse_singleton, List.singleton_append, List.find?_cons]
  by_cases h : e.phoneNumber = id
  · simp [h]
  · have hb : (e.phoneNumber == id) = false := by simpa using h
    simp [hb, h]

/-- The loop invariant of the dispatch loop: from a state whose failed numbers
are disjoint from the distinct recipients still to be processed, the loop adds
the resolved sends to `success`, the rejected ones to `failed`, and appends the
rejected recipients to `failedNumbers` in order. -/
theorem RegularBlast.sendLoop_spec (txt : LogText) (blastMessage : JsString) :
    ∀ (l : List (JsString × SendResult)) (r : RunResult),
      (l.map Prod.fst).Nodup → (∀ p ∈ l.map Prod.fst, p ∉ r.failedNumbers) →
      (RegularBlast.sendLoop txt blastMessage r l).total = r.total ∧
      (RegularBlast.sendLoop txt blastMessage r l).success
        = r.success + ((l.filter (fun p => p.2.isResolved)).length : Int) ∧
      (RegularBlast.sendLoop txt blastMessage r l).failed
        = r.failed + ((l.filter (fun p => !p.2.isResolved)).length : Int) ∧
      (RegularBlast.sendLoop txt blastMessage r l).failedNumbers
        = r.failedNumbers ++ (l.filter (fun p => !p.2.isResolved)).map Prod.fst := by
  intro l
  induction l with
  | nil => intro r _ _; simp [RegularBlast.sendLoop]
  | cons hd tl ih =>
    intro r hnd hdis
    obtain ⟨phone, res⟩ := hd
    simp only [List.map_cons, List.nodup_cons] at hnd
    have hphone : phone ∉ r.failedNumbers :=
      hdis phone (by rw [List.map_cons]; exact List.mem_cons_self _ _)
    cases res with
    | resolved st tmo =>
      have hstep : RegularBlast.sendStep txt blastMessage r phone (SendResult.resolved st tmo)
          = { r with
              logs := r.logs ++ [{ timestamp := txt.timestamp phone, phoneNumber := phone,
                                   status := Status.success,
                                   message := truncateMessage (txt.personalized phone),
                                   details := txt.details phone (SendResult.resolved st tmo) }]
              success := r.success + 1
              failedNumbers := r.failedNumbers } := by
        simp only [RegularBlast.sendStep, addMessageLog]
        congr 1
        apply List.filter_eq_self.mpr
        intro a ha
        have : a ≠ phone := fun h => hphone (h ▸ ha)
        simpa using this
      have hdis2 : ∀ p ∈ tl.map Prod.fst,
          p ∉ (RegularBlast.sendStep txt blastMessage r phone
            (SendResult.resolved st tmo)).failedNumbers := by
        intro p hp
        rw [hstep]
        exact hdis p (by simp only [List.map_cons]; exact List.mem_cons_of_mem _ hp)
      have h := ih _ hnd.2 hdis2
      simp only [RegularBlast.sendLoop]
      rw [hstep] at h ⊢
      obtain ⟨h1, h2, h3, h4⟩ := h
      refine ⟨h1, ?_, ?_, ?_⟩
      · rw [h2]; simp [SendResult.isResolved]; ring
      · rw [h3]; simp [SendResult.isResolved]
      · rw [h4]; simp [SendResult.isResolved]
    | rejected m =>
      have hc : r.failedNumbers.contains phone = false := by
        simpa using hphone
      have hstep : RegularBlast.sendStep txt blastMessage r phone (SendResult.rejected m)
          = { r with
              logs := r.logs ++ [{ timestamp := txt.timestamp phone, phoneNumber := phone,
                                   status := Status.error,
                                   message := truncateMessage blastMessage,
                                   details := txt.details phone (SendResult.rejected m) }]
              failed := r.failed + 1
              failedNumbers := r.failedNumbers ++ [phone] } := by
        simp only [RegularBlast.sendStep, addMessageLog, hc]
        rfl
      have hdis2 : ∀ p ∈ tl.map Prod.fst,
          p ∉ (RegularBlast.sendStep txt blastMessage r phone
            (SendResult.rejected m)).failedNumbers := by
        intro p hp
        rw [hstep]
        simp only [List.mem_append, List.mem_singleton, not_or]
        refine ⟨hdis p (by simp only [List.map_cons]; exact List.mem_cons_of_mem _ hp), ?_⟩
        intro h
        exact hnd.1 (h ▸ hp)
      have h := ih _ hnd.2 hdis2
      simp only [RegularBlast.sendLoop]
      rw [hstep] at h ⊢
      obtain ⟨h1, h2, h3, h4⟩ := h
      refine ⟨h1, ?_, ?_, ?_⟩
      · rw [h2]; simp [SendResult.isResolved]
      · rw [h3]; simp [SendResult.isResolved]; ring
      · rw [h4]; simp [SendResult.isResolved]

/-- An accepted retry in `BlastResults.js` adds 2 to `success`, whatever the
state: once in the extra update and once in `addMessageLog`. -/
theorem BlastResults.retryStep_accepted (txt : LogText) (blastMessage : JsString)
    (r : RunResult) (phone : JsString) (res : SendResult)
    (h : BlastResults.retryAccepted res = true) :
    (BlastResults.retryStep txt blastMessage r phone res).success = r.success + 2 ∧
    (BlastResults.retryStep txt blastMessage r phone res).failed = max 0 (r.failed - 1) ∧
    (BlastResults.retryStep txt blastMessage r phone res).total = r.total := by
  simp only [BlastResults.retryStep, h, if_true, addMessageLog, BlastResults.retrySuccessUpdate]
  refine ⟨?_, trivial, trivial⟩
  ring

/-- A retry that is not accepted adds 1 to `failed`, whatever the state. -/
theorem BlastResults.retryStep_rejected (txt : LogText) (blastMessage : JsString)
    (r : RunResult) (phone : JsString) (res : SendResult)
    (h : BlastResults.retryAccepted res = false) :
    (BlastResults.retryStep txt blastMessage r phone res).success = r.success ∧
    (BlastResults.retryStep txt blastMessage r phone res).failed = r.failed + 1 ∧
    (BlastResults.retryStep txt blastMessage r phone res).total = r.total := by
  simp only [BlastResults.retryStep, h, Bool.false_eq_true, if_false, addMessageLog]
  exact ⟨trivial, trivial, trivial⟩

/-- The invariant of C4 is kept by a logged success, whatever removal of the
same recipient came before it. -/
theorem failedNumbers_after_success (fn : List JsString) (logs : List LogEntry)
    (e : LogEntry) (hs : e.status = Status.success)
    (ih : ∀ id, id ∈ fn ↔ lastStatus logs id = some Status.error) (id : JsString) :
    id ∈ fn.filter (fun num => num ≠ e.phoneNumber) ↔
      lastStatus (logs ++ [e]) id = some Status.error := by
  rw [lastStatus_append, List.mem_filter]
  by_cases h : e.phoneNumber = id
  · simp [h, hs]
  · have h2 : id ≠ e.phoneNumber := fun h3 => h h3.symm
    simp [h, h2, ih id]

/-- C1 (evaluation of the code): a plain run over A and B in which both sends
are rejected completes with total 2, success 0, failed 2 and failed numbers
A, B; the retry of `BlastResults.js` in which the send to A is accepted and the
send to B is rejected again ends with failed numbers B alone and total 2, but
with success 2, that is 2 larger than before the retry, not 1. -/
theorem C1_retry_counts_success_twice :
    RegularBlast.handleSubmit noText [] [phoneA, phoneB]
        [SendResult.rejected [], SendResult.rejected []]
      = { total := 2, success := 0, failed := 2,
          logs := [⟨[], phoneA, Status.error, [], []⟩, ⟨[], phoneB, Status.error, [], []⟩],
          failedNumbers := [phoneA, phoneB] } ∧
    (BlastResults.retryFailedBlast noText (some textConfig) true
        (RegularBlast.handleSubmit noText [] [phoneA, phoneB]
          [SendResult.rejected [], SendResult.rejected []])
        [SendResult.resolved 200 false, SendResult.rejected []]).failedNumbers = [phoneB] ∧
    (BlastResults.retryFailedBlast noText (some textConfig) true
        (RegularBlast.handleSubmit noText [] [phoneA, phoneB]
          [SendResult.rejected [], SendResult.rejected []])
        [SendResult.resolved 200 false, SendResult.rejected []]).total = 2 ∧
    (BlastResults.retryFailedBlast noText (some textConfig) true
        (RegularBlast.handleSubmit noText [] [phoneA, phoneB]
          [SendResult.rejected [], SendResult.rejected []])
        [SendResult.resolved 200 false, SendResult.rejected []]).success = 0 + 2 := by
  decide

/-- C2 (evaluation of the code): after a run over the single recipient A whose
send is rejected (total 1, success 0, failed 1), a retry breaks
`success + failed <= total` on every path: in `BlastResults.js` a retry that is
rejected again gives failed 2, and a retry that is accepted gives success 2; in
`RetryBlast.jsx` a retry that is accepted gives success 1 and failed 1. -/
theorem C2_retry_exceeds_total :
    (RegularBlast.handleSubmit noText [] [phoneA] [SendResult.rejected []]).success
      + (RegularBlast.handleSubmit noText [] [phoneA] [SendResult.rejected []]).failed
      = (RegularBlast.handleSubmit noText [] [phoneA] [SendResult.rejected []]).total ∧
    (BlastResults.retryFailedBlast noText (some textConfig) true
        (RegularBlast.handleSubmit noText [] [phoneA] [SendResult.rejected []])
        [SendResult.rejected []]).failed = 2 ∧
    (BlastResults.retryFailedBlast noText (some textConfig) true
        (RegularBlast.handleSubmit noText [] [phoneA] [SendResult.rejected []])
        [SendResult.rejected []]).total = 1 ∧
    (BlastResults.retryFailedBlast noText (some textConfig) true
        (RegularBlast.handleSubmit noText [] [phoneA] [SendResult.rejected []])
        [SendResult.resolved 200 false]).success = 2 ∧
    (BlastResults.retryFailedBlast noText (some textConfig) true
        (RegularBlast.handleSubmit noText [] [phoneA] [SendResult.rejected []])
        [SendResult.resolved 200 false]).total = 1 ∧
    ¬ ((RetryBlast.retryFailedBlast noText (some textConfig) true
        (RegularBlast.handleSubmit noText [] [phoneA] [SendResult.rejected []])
        [SendResult.resolved 200 false]).success
      + (RetryBlast.retryFailedBlast noText (some textConfig) true
        (RegularBlast.handleSubmit noText [] [phoneA] [SendResult.rejected []])
        [SendResult.resolved 200 false]).failed
      ≤ (RetryBlast.retryFailedBlast noText (some textConfig) true
        (RegularBlast.handleSubmit noText [] [phoneA] [SendResult.rejected []])
        [SendResult.resolved 200 false]).total) := by
  decide

/-- C3: for distinct recipients and as many send outcomes, the run of
`handleSubmit` ends with `total` the number of recipients, `success` the number
of resolved sends, `failed` the number of rejected sends, their sum equal to
`total`, and `failedNumbers` the recipients whose send was rejected, in order. -/
theorem C3_handleSubmit_result (txt : LogText) (blastMessage : JsString)
    (phones : List JsString) (outcomes : List SendResult)
    (hnd : phones.Nodup) (hlen : outcomes.length = phones.length) :
    (RegularBlast.handleSubmit txt blastMessage phones outcomes).total = phones.length ∧
    (RegularBlast.handleSubmit txt blastMessage phones outcomes).success
      = (outcomes.filter (fun o => o.isResolved)).length ∧
    (RegularBlast.handleSubmit txt blastMessage phones outcomes).failed
      = (outcomes.filter (fun o => !o.isResolved)).length ∧
    (RegularBlast.handleSubmit txt blastMessage phones outcomes).success
      + (RegularBlast.handleSubmit txt blastMessage phones outcomes).failed
      = (RegularBlast.handleSubmit txt blastMessage phones outcomes).total ∧
    (RegularBlast.handleSubmit txt blastMessage phones outcomes).failedNumbers
      = ((phones.zip outcomes).filter (fun p => !p.2.isResolved)).map Prod.fst := by
  have hfst : (phones.zip outcomes).map Prod.fst = phones :=
    List.map_fst_zip _ _ (le_of_eq hlen.symm)
  have hsnd : (phones.zip outcomes).map Prod.snd = outcomes :=
    List.map_snd_zip _ _ (le_of_eq hlen)
  have hspec := RegularBlast.sendLoop_spec txt blastMessage (phones.zip outcomes)
    (resetResults phones.length) (by rw [hfst]; exact hnd)
    (by intro p _; simp [resetResults])
  have hcount : ∀ f : SendResult → Bool,
      ((phones.zip outcomes).filter (fun p => f p.2)).length = (outcomes.filter f).length := by
    intro f
    have h1 : (outcomes.filter f) = ((phones.zip outcomes).filter (f ∘ Prod.snd)).map Prod.snd := by
      rw [← List.filter_map, hsnd]
    rw [h1, List.length_map]
    rfl
  obtain ⟨h1, h2, h3, h4⟩ := hspec
  have e2 := hcount (fun o => o.isResolved)
  have e3 := hcount (fun o => !o.isResolved)
  have hsum : (outcomes.filter (fun o => o.isResolved)).length
      + (outcomes.filter (fun o => !o.isResolved)).length = phones.length := by
    rw [← hlen, ← List.countP_eq_length_filter, ← List.countP_eq_length_filter]
    have := List.length_eq_countP_add_countP (fun o : SendResult => o.isResolved) outcomes
    simpa using this.symm
  unfold RegularBlast.handleSubmit
  refine ⟨?_, ?_, ?_, ?_, ?_⟩
  · rw [h1]; rfl
  · rw [h2, e2]; simp [resetResults]
  · rw [h3, e3]; simp [resetResults]
  · rw [h1, h2, h3, e2, e3]
    simp only [resetResults]
    have : ((outcomes.filter (fun o => o.isResolved)).length : Int)
        + ((outcomes.filter (fun o => !o.isResolved)).length : Int) = (phones.length : Int) := by
      exact_mod_cast hsum
    linarith
  · rw [h4]; simp [resetResults]

/-- C3, the example of the specification: recipients 6281111111111 and
6282222222222 with a resolved and then a rejected send give total 2, success 1,
failed 1 and failed numbers 6282222222222. -/
theorem C3_handleSubmit_result_witness :
    (RegularBlast.handleSubmit noText [] [phoneA, phoneB]
        [SendResult.resolved 200 false, SendResult.rejected []]).total = 2 ∧
    (RegularBlast.handleSubmit noText [] [phoneA, phoneB]
        [SendResult.resolved 200 false, SendResult.rejected []]).success = 1 ∧
    (RegularBlast.handleSubmit noText [] [phoneA, phoneB]
        [SendResult.resolved 200 false, SendResult.rejected []]).failed = 1 ∧
    (RegularBlast.handleSubmit noText [] [phoneA, phoneB]
        [SendResult.resolved 200 false, SendResult.rejected []]).success
      + (RegularBlast.handleSubmit noText [] [phoneA, phoneB]
        [SendResult.resolved 200 false, SendResult.rejected []]).failed
      = (RegularBlast.handleSubmit noText [] [phoneA, phoneB]
        [SendResult.resolved 200 false, SendResult.rejected []]).total ∧
    (RegularBlast.handleSubmit noText [] [phoneA, phoneB]
        [SendResult.resolved 200 false, SendResult.rejected []]).failedNumbers = [phoneB] :=
  C3_handleSubmit_result noText [] [phoneA, phoneB]
    [SendResult.resolved 200 false, SendResult.rejected []] (by decide) rfl

/-- C4: in every reachable result a recipient is in `failedNumbers` exactly when
its most recent log entry has status error, and `failedNumbers` has no
duplicate. -/
theorem C4_failedNumbers_latest_error (r : RunResult) (h : Reachable r) :
    (∀ id, id ∈ r.failedNumbers ↔ lastStatus r.logs id = some Status.error) ∧
    r.failedNumbers.Nodup := by
  induction h with
  | empty => simp [emptyResults, lastStatus]
  | start n => simp [resetResults, lastStatus]
  | log r ts phone status msg details _ hst ih =>
    obtain ⟨ih1, ih2⟩ := ih
    cases status with
    | other => exact absurd rfl hst
    | success =>
      refine ⟨?_, ?_⟩
      · intro id
        exact failedNumbers_after_success r.failedNumbers r.logs
          ⟨ts, phone, Status.success, truncateMessage msg, details⟩ rfl ih1 id
      · exact ih2.filter _
    | error =>
      refine ⟨?_, ?_⟩
      · intro id
        show id ∈ (if r.failedNumbers.contains phone then r.failedNumbers
            else r.failedNumbers ++ [phone]) ↔
          lastStatus (r.logs ++ [⟨ts, phone, Status.error, truncateMessage msg, details⟩]) id
            = some Status.error
        rw [lastStatus_append]
        by_cases hc : phone ∈ r.failedNumbers
        · have hcb : r.failedNumbers.contains phone = true := by simpa using hc
          by_cases hp : phone = id
          · subst hp; simp [hcb, hc]
          · simp [hc, hp, ih1 id]
        · have hcb : r.failedNumbers.contains phone = false := by simpa using hc
          by_cases hp : phone = id
          · subst hp; simp [hc]
          · have hp2 : id ≠ phone := fun h3 => hp h3.symm
            simp [hc, hp, hp2, ih1 id]
      · show (if r.failedNumbers.contains phone then r.failedNumbers
            else r.failedNumbers ++ [phone]).Nodup
        by_cases hc : phone ∈ r.failedNumbers
        · have hcb : r.failedNumbers.contains phone = true := by simpa using hc
          simpa [hc] using ih2
        · have hcb : r.failedNumbers.contains phone = false := by simpa using hc
          rw [hcb]
          exact List.Nodup.append ih2 (List.nodup_singleton _)
            (by
              intro a ha hb
              rw [List.mem_singleton] at hb
              exact hc (hb ▸ ha))
  | retrySuccess r ts phone msg details _ ih =>
    obtain ⟨ih1, ih2⟩ := ih
    refine ⟨?_, ?_⟩
    · intro id
      have hmid : ∀ id, id ∈ r.failedNumbers.filter (fun num => num ≠ phone) →
          id ∈ r.failedNumbers := fun id hid => (List.mem_filter.mp hid).1
      have := failedNumbers_after_success r.failedNumbers r.logs
          ⟨ts, phone, Status.success, truncateMessage msg, details⟩ rfl ih1 id
      show id ∈ (r.failedNumbers.filter (fun num => num ≠ phone)).filter
          (fun num => num ≠ phone) ↔ _
      rw [List.filter_filter]
      simpa using this
    · exact (ih2.filter _).filter _

/-- C4 at a reachable result: after one logged error for A. -/
theorem C4_failedNumbers_latest_error_witness :
    (∀ id, id ∈ (addMessageLog [] emptyResults phoneA Status.error [] []).failedNumbers ↔
      lastStatus (addMessageLog [] emptyResults phoneA Status.error [] []).logs id
        = some Status.error) ∧
    (addMessageLog [] emptyResults phoneA Status.error [] []).failedNumbers.Nodup :=
  C4_failedNumbers_latest_error _
    (Reachable.log emptyResults [] phoneA Status.error [] [] Reachable.empty (by decide))

/-! ## Theorems: recipient resolver -/

theorem str_zero : "0".toList = [ '0'] := rfl

theorem str_plus62 : "+62".toList = [ '+', '6', '2'] := rfl

theorem str_62 : "62".toList = [ '6', '2'] := rfl

/-- A string of digits is left as it is by the cleaning step. -/
theorem Helpers.cleanPhone_of_digits (s : JsString) (h : ∀ c ∈ s, Helpers.isDigit c = true) :
    Helpers.cleanPhone s = s := by
  unfold Helpers.cleanPhone
  rw [List.filter_filter]
  apply List.filter_eq_self.mpr
  intro c hc
  have hd := h c hc
  have hn : 48 ≤ c.toNat ∧ c.toNat ≤ 57 := by
    simpa [Helpers.isDigit] using hd
  have hw : Helpers.isJsWhitespace c = false := by
    simp only [Helpers.isJsWhitespace]
    have h1 := hn.1
    have h2 := hn.2
    simp only [Bool.or_eq_false_iff, Bool.and_eq_false_iff, decide_eq_false_iff_not]
    omega
  have h1 : c ≠ '-' := by
    intro e; rw [e] at hn; revert hn; decide
  have h2 : c ≠ '(' := by
    intro e; rw [e] at hn; revert hn; decide
  have h3 : c ≠ ')' := by
    intro e; rw [e] at hn; revert hn; decide
  simp [hd, hw, h1, h2, h3]

/-- The cleaning step leaves digits only. -/
theorem Helpers.cleanPhone_digits (s : JsString) :
    ∀ c ∈ Helpers.cleanPhone s, Helpers.isDigit c = true := by
  intro c hc
  unfold Helpers.cleanPhone at hc
  exact (List.mem_filter.mp hc).2

/-- The conversion to international format turns a string of digits into `62`
followed by digits. -/
theorem Helpers.toInternational_shape (d : JsString) (h : ∀ c ∈ d, Helpers.isDigit c = true) :
    ∃ rest, Helpers.toInternational d = '6' :: '2' :: rest ∧
      ∀ c ∈ rest, Helpers.isDigit c = true := by
  unfold Helpers.toInternational Helpers.startsWith
  rw [str_zero, str_plus62, str_62]
  split_ifs with h0 h1 h2
  · refine ⟨d.drop 1, rfl, ?_⟩
    intro c hc
    exact h c (List.mem_of_mem_drop hc)
  · obtain ⟨t, rfl⟩ := List.isPrefixOf_iff_prefix.mp h1
    refine ⟨t, rfl, ?_⟩
    intro c hc
    exact h c (by simp [hc])
  · exact ⟨d, rfl, h⟩
  · have h2' : List.isPrefixOf [ '6', '2'] d = true := by simpa using h2
    obtain ⟨t, rfl⟩ := List.isPrefixOf_iff_prefix.mp h2'
    refine ⟨t, rfl, ?_⟩
    intro c hc
    exact h c (by simp [hc])

/-- The normalisation leaves `62` followed by digits as it is. -/
theorem Helpers.normalize_of_shape (rest : JsString)
    (h : ∀ c ∈ rest, Helpers.isDigit c = true) :
    Helpers.normalize ('6' :: '2' :: rest) = '6' :: '2' :: rest := by
  have hall : ∀ c ∈ '6' :: '2' :: rest, Helpers.isDigit c = true := by
    intro c hc
    rcases List.mem_cons.mp hc with rfl | hc
    · decide
    · rcases List.mem_cons.mp hc with rfl | hc
      · decide
      · exact h c hc
  unfold Helpers.normalize
  rw [Helpers.cleanPhone_of_digits _ hall]
  unfold Helpers.toInternational Helpers.startsWith
  rw [str_zero, str_plus62, str_62]
  simp [List.isPrefixOf]

/-- C5 (counterexample): the three entries of the claim, joined by newlines or
by commas, do not resolve to exactly one recipient id. -/
theorem C5_three_entries_not_one :
    ¬ ((Helpers.parsePhoneNumbers
          (JsValue.str "628111222333\n0811222333\n+628111222333".toList)).length = 1) ∧
    ¬ ((Helpers.parsePhoneNumbers
          (JsValue.str "628111222333,0811222333,+628111222333".toList)).length = 1) := by
  decide

/-- C5 (amended): the three entries of the claim, joined by newlines or by
commas, resolve to exactly two recipient ids, 628111222333 (first and third
entry) and 62811222333 (the entry 0811222333, one digit shorter); the three
spellings 628111222333, 08111222333 and +628111222333 of one number resolve to
exactly one recipient id. -/
theorem C5_three_entries_resolved :
    Helpers.parsePhoneNumbers
        (JsValue.str "628111222333\n0811222333\n+628111222333".toList)
      = ["628111222333".toList, "62811222333".toList] ∧
    Helpers.parsePhoneNumbers
        (JsValue.str "628111222333,0811222333,+628111222333".toList)
      = ["628111222333".toList, "62811222333".toList] ∧
    Helpers.parsePhoneNumbers
        (JsValue.str "628111222333\n08111222333\n+628111222333".toList)
      = ["628111222333".toList] ∧
    Helpers.parsePhoneNumbers
        (JsValue.str "628111222333,08111222333,+628111222333".toList)
      = ["628111222333".toList] := by
  decide

/-- C6: the per-entry normalisation of `parsePhoneNumbers` is idempotent. -/
theorem C6_normalize_idempotent (x : JsString) :
    Helpers.normalize (Helpers.normalize x) = Helpers.normalize x := by
  obtain ⟨rest, hrest, hd⟩ :=
    Helpers.toInternational_shape (Helpers.cleanPhone x) (Helpers.cleanPhone_digits x)
  have hx : Helpers.normalize x = '6' :: '2' :: rest := hrest
  rw [hx]
  exact Helpers.normalize_of_shape rest hd

theorem Helpers.removeDuplicates_aux {α : Type} [DecidableEq α] :
    ∀ (l pre seen : List α), (∀ z, z ∈ seen ↔ z ∈ pre) →
      ((l.enumFrom pre.length).filter (fun p => (pre ++ l).indexOf p.2 == p.1)).map Prod.snd
        = Helpers.keepUnseen seen l := by
  intro l
  induction l with
  | nil => intro pre seen _; simp [Helpers.keepUnseen]
  | cons x xs ih =>
    intro pre seen hseen
    have htail : ∀ seen2 : List α, (∀ z, z ∈ seen2 ↔ z ∈ pre ++ [x]) →
        ((xs.enumFrom (pre.length + 1)).filter
          (fun p => (pre ++ x :: xs).indexOf p.2 == p.1)).map Prod.snd
        = Helpers.keepUnseen seen2 xs := by
      intro seen2 h2
      have := ih (pre ++ [x]) seen2 h2
      simpa [List.append_assoc] using this
    rw [List.enumFrom_cons, List.filter_cons]
    by_cases hx : x ∈ pre
    · have hxs : x ∈ seen := (hseen x).mpr hx
      have hlt : (pre ++ x :: xs).indexOf x < pre.length := by
        rw [List.indexOf_append_of_mem hx]
        exact List.indexOf_lt_length.mpr hx
      have hne : ((pre ++ x :: xs).indexOf x == pre.length) = false := by
        simpa using Nat.ne_of_lt hlt
      simp only [hne, Helpers.keepUnseen, hxs, if_true]
      apply htail seen
      intro z
      rw [hseen z, List.mem_append, List.mem_singleton]
      constructor
      · exact Or.inl
      · rintro (h | h)
        · exact h
        · exact h ▸ hx
    · have hxs : x ∉ seen := fun h => hx ((hseen x).mp h)
      have heq : (pre ++ x :: xs).indexOf x = pre.length := by
        rw [List.indexOf_append_of_not_mem hx, List.indexOf_cons_self]
        rfl
      have hb : ((pre ++ x :: xs).indexOf x == pre.length) = true := by
        simp [heq]
      simp only [hb, Helpers.keepUnseen, hxs, if_true, if_false, List.map_cons]
      rw [htail (seen ++ [x])]
      intro z
      rw [List.mem_append, List.mem_append, hseen z]

/-- The duplicate filter keeps the first occurrence of every element. -/
theorem Helpers.removeDuplicates_eq {α : Type} [DecidableEq α] (arr : List α) :
    Helpers.removeDuplicates arr = Helpers.keepUnseen [] arr := by
  have := Helpers.removeDuplicates_aux arr [] [] (fun _ => Iff.rfl)
  simpa [Helpers.removeDuplicates, List.enum] using this

theorem Helpers.mem_keepUnseen {α : Type} [DecidableEq α] :
    ∀ (l seen : List α) (y : α), y ∈ Helpers.keepUnseen seen l ↔ y ∈ l ∧ y ∉ seen := by
  intro l
  induction l with
  | nil => intro seen y; simp [Helpers.keepUnseen]
  | cons x xs ih =>
    intro seen y
    unfold Helpers.keepUnseen
    by_cases hx : x ∈ seen
    · simp only [hx, if_true, ih, List.mem_cons]
      constructor
      · rintro ⟨h1, h2⟩; exact ⟨Or.inr h1, h2⟩
      · rintro ⟨h1 | h1, h2⟩
        · exact absurd (h1 ▸ hx) h2
        · exact ⟨h1, h2⟩
    · rw [if_neg hx, List.mem_cons, ih, List.mem_cons, List.mem_append, List.mem_singleton,
        not_or]
      constructor
      · rintro (h1 | ⟨h1, h2, _⟩)
        · exact ⟨Or.inl h1, h1 ▸ hx⟩
        · exact ⟨Or.inr h1, h2⟩
      · rintro ⟨h1 | h1, h2⟩
        · exact Or.inl h1
        · by_cases hyx : y = x
          · exact Or.inl hyx
          · exact Or.inr ⟨h1, h2, hyx⟩

theorem Helpers.nodup_keepUnseen {α : Type} [DecidableEq α] :
    ∀ (l seen : List α), (Helpers.keepUnseen seen l).Nodup := by
  intro l
  induction l with
  | nil => intro seen; simp [Helpers.keepUnseen]
  | cons x xs ih =>
    intro seen
    unfold Helpers.keepUnseen
    by_cases hx : x ∈ seen
    · simp only [hx, if_true]; exact ih seen
    · simp only [hx, if_false, List.nodup_cons]
      refine ⟨?_, ih _⟩
      intro hmem
      have := (Helpers.mem_keepUnseen xs (seen ++ [x]) x).mp hmem
      exact this.2 (by simp)

/-- Order of the kept elements: with `seen` the elements of `pre` that satisfy
`p`, the elements kept from the `p`-filtered `l` are listed by increasing first
position in `pre ++ l`. -/
theorem Helpers.keepUnseen_filter_pairwise {α : Type} [DecidableEq α] (p : α → Bool) :
    ∀ (l pre seen : List α), (∀ z, z ∈ seen ↔ (z ∈ pre ∧ p z = true)) →
      List.Pairwise (fun a b => (pre ++ l).indexOf a < (pre ++ l).indexOf b)
        (Helpers.keepUnseen seen (l.filter p)) := by
  intro l
  induction l with
  | nil => intro pre seen _; simp [Helpers.keepUnseen]
  | cons x xs ih =>
    intro pre seen hseen
    have happ : pre ++ x :: xs = (pre ++ [x]) ++ xs := by simp
    by_cases hp : p x = true
    · rw [List.filter_cons_of_pos hp]
      unfold Helpers.keepUnseen
      by_cases hx : x ∈ seen
      · simp only [hx, if_true]
        rw [happ]
        apply ih (pre ++ [x]) seen
        intro z
        constructor
        · intro hz
          exact ⟨List.mem_append_left _ ((hseen z).mp hz).1, ((hseen z).mp hz).2⟩
        · rintro ⟨hz, hpz⟩
          rcases List.mem_append.mp hz with hz | hz
          · exact (hseen z).mpr ⟨hz, hpz⟩
          · rw [List.mem_singleton] at hz; exact hz ▸ hx
      · simp only [hx, if_false, List.pairwise_cons]
        have hxpre : x ∉ pre := fun h => hx ((hseen x).mpr ⟨h, hp⟩)
        refine ⟨?_, ?_⟩
        · intro b hb
          have hb2 := (Helpers.mem_keepUnseen _ _ b).mp hb
          have hpb : p b = true := (List.mem_filter.mp hb2.1).2
          have hbx : b ≠ x := fun h => hb2.2 (by simp [h])
          have hbpre : b ∉ pre := fun h => hb2.2 (List.mem_append_left _ ((hseen b).mpr ⟨h, hpb⟩))
          rw [List.indexOf_append_of_not_mem hxpre, List.indexOf_append_of_not_mem hbpre,
            List.indexOf_cons_self, List.indexOf_cons_ne _ (Ne.symm hbx)]
          omega
        · rw [happ]
          apply ih (pre ++ [x]) (seen ++ [x])
          intro z
          constructor
          · intro hz
            rcases List.mem_append.mp hz with hz | hz
            · exact ⟨List.mem_append_left _ ((hseen z).mp hz).1, ((hseen z).mp hz).2⟩
            · rw [List.mem_singleton] at hz
              subst hz
              exact ⟨by simp, hp⟩
          · rintro ⟨hz, hpz⟩
            rcases List.mem_append.mp hz with hz | hz
            · exact List.mem_append_left _ ((hseen z).mpr ⟨hz, hpz⟩)
            · exact List.mem_append_right _ hz
    · rw [List.filter_cons_of_neg hp]
      rw [happ]
      apply ih (pre ++ [x]) seen
      intro z
      constructor
      · intro hz
        exact ⟨List.mem_append_left _ ((hseen z).mp hz).1, ((hseen z).mp hz).2⟩
      · rintro ⟨hz, hpz⟩
        rcases List.mem_append.mp hz with hz | hz
        · exact (hseen z).mpr ⟨hz, hpz⟩
        · rw [List.mem_singleton] at hz
          subst hz
          exact absurd hpz hp

/-- The class `\d` is the ten decimal digits. -/
theorem Helpers.isDigit_iff (c : Char) :
    Helpers.isDigit c = true ↔ c ∈ "0123456789".toList := by
  constructor
  · intro h
    have hn : 48 ≤ c.toNat ∧ c.toNat ≤ 57 := by simpa [Helpers.isDigit] using h
    have hc : c = Char.ofNat c.toNat := (Char.ofNat_toNat c).symm
    obtain ⟨h1, h2⟩ := hn
    rw [hc]
    generalize c.toNat = n at h1 h2
    interval_cases n <;> decide
  · intro h
    have h2 : c ∈ [ '0', '1', '2', '3', '4', '5', '6', '7', '8', '9'] := h
    simp only [List.mem_cons, List.mem_singleton, List.not_mem_nil, or_false] at h2
    rcases h2 with rfl | rfl | rfl | rfl | rfl | rfl | rfl | rfl | rfl | rfl <;> decide

/-- The validity test accepts exactly `62` followed by at least 8 digits. -/
theorem Helpers.isValidPhone_iff (x : JsString) :
    Helpers.isValidPhone x = true ↔ IsRecipientId x := by
  unfold Helpers.isValidPhone Helpers.startsWith IsRecipientId
  rw [str_62]
  constructor
  · intro h
    simp only [Bool.and_eq_true, decide_eq_true_eq, List.all_eq_true] at h
    obtain ⟨⟨hp, hall⟩, hlen⟩ := h
    obtain ⟨t, rfl⟩ := List.isPrefixOf_iff_prefix.mp hp
    refine ⟨t, rfl, by simpa using hlen, ?_⟩
    intro c hc
    exact (Helpers.isDigit_iff c).mp (hall c (by simpa using hc))
  · rintro ⟨ds, rfl, hlen, hall⟩
    simp only [Bool.and_eq_true, decide_eq_true_eq, List.all_eq_true]
    refine ⟨⟨?_, ?_⟩, ?_⟩
    · exact List.isPrefixOf_iff_prefix.mpr ⟨ds, rfl⟩
    · intro c hc
      exact (Helpers.isDigit_iff c).mpr (hall c (by simpa using hc))
    · simpa using hlen

/-- The result of `parsePhoneNumbers` on a string, with the duplicate filter
written as a recursion. -/
theorem Helpers.parsePhoneNumbers_str (s : JsString) :
    Helpers.parsePhoneNumbers (JsValue.str s)
      = Helpers.keepUnseen []
          (((Helpers.entries s).map Helpers.normalize).filter Helpers.isValidPhone) := by
  by_cases hs : s = []
  · subst hs
    decide
  · have : s.isEmpty = false := by
      cases s with
      | nil => exact absurd rfl hs
      | cons _ _ => rfl
    simp only [Helpers.parsePhoneNumbers, this, Bool.false_eq_true, if_false]
    exact Helpers.removeDuplicates_eq _

/-- C7: every element of `parsePhoneNumbers(input)` is `62` followed by at least
8 decimal digits and nothing else; no element occurs twice; the elements are
exactly the normalised entries of that shape, the other entries being dropped;
they are listed in the order in which they first occur among the normalised
entries; and a non-string or empty input gives the empty list. -/
theorem C7_parsePhoneNumbers_result (s : JsString) :
    (∀ x ∈ Helpers.parsePhoneNumbers (JsValue.str s), IsRecipientId x) ∧
    (Helpers.parsePhoneNumbers (JsValue.str s)).Nodup ∧
    (∀ x, x ∈ Helpers.parsePhoneNumbers (JsValue.str s) ↔
      (x ∈ (Helpers.entries s).map Helpers.normalize ∧ IsRecipientId x)) ∧
    List.Pairwise
      (fun a b => firstIndex ((Helpers.entries s).map Helpers.normalize) a
        < firstIndex ((Helpers.entries s).map Helpers.normalize) b)
      (Helpers.parsePhoneNumbers (JsValue.str s)) ∧
    Helpers.parsePhoneNumbers JsValue.nonString = [] ∧
    Helpers.parsePhoneNumbers (JsValue.str []) = [] := by
  have hmem : ∀ x, x ∈ Helpers.parsePhoneNumbers (JsValue.str s) ↔
      (x ∈ (Helpers.entries s).map Helpers.normalize ∧ IsRecipientId x) := by
    intro x
    rw [Helpers.parsePhoneNumbers_str, Helpers.mem_keepUnseen, List.mem_filter,
      Helpers.isValidPhone_iff]
    simp
  refine ⟨fun x hx => ((hmem x).mp hx).2, ?_, hmem, ?_, rfl, rfl⟩
  · rw [Helpers.parsePhoneNumbers_str]
    exact Helpers.nodup_keepUnseen _ _
  · rw [Helpers.parsePhoneNumbers_str]
    have := Helpers.keepUnseen_filter_pairwise Helpers.isValidPhone
      ((Helpers.entries s).map Helpers.normalize) [] [] (by simp)
    simpa [firstIndex] using this

/-! ## Theorems: template renderer -/

/-- Upper-casing maps no other character to a character above the letters. -/
theorem toUpper_eq_iff (c b : Char) (hb : 122 < b.toNat) : c.toUpper = b ↔ c = b := by
  unfold Char.toUpper
  simp only
  split_ifs with h
  · constructor
    · intro e
      exfalso
      obtain ⟨h1, h2⟩ := h
      generalize c.toNat = n at h1 h2 e
      subst e
      revert hb
      interval_cases n <;> decide
    · intro e
      subst e
      omega
  · exact Iff.rfl

theorem Regex.charMatch_brace (ic : Bool) (b c : Char) (hb : 122 < b.toNat) :
    Regex.charMatch ic b c = true ↔ c = b := by
  unfold Regex.charMatch
  have hbb : b.toUpper = b := by
    unfold Char.toUpper
    simp only
    rw [if_neg (by omega)]
  cases ic with
  | false =>
    simp only [Bool.false_eq_true, if_false, beq_iff_eq]
    exact eq_comm
  | true =>
    simp only [if_true, beq_iff_eq, hbb]
    rw [eq_comm, toUpper_eq_iff c b hb]

theorem Regex.charMatch_brace_left (ic : Bool) (b c : Char) (hb : 122 < b.toNat) :
    Regex.charMatch ic c b = true ↔ c = b := by
  unfold Regex.charMatch
  have hbb : b.toUpper = b := by
    unfold Char.toUpper
    simp only
    rw [if_neg (by omega)]
  cases ic with
  | false =>
    simp only [Bool.false_eq_true, if_false, beq_iff_eq]
  | true =>
    simp only [if_true, beq_iff_eq, hbb]
    rw [toUpper_eq_iff c b hb]

/-- A replacement text without `$` is inserted as it is. -/
theorem Regex.getSubstitution_plain (matched before after : JsString) :
    ∀ repl : JsString, '$' ∉ repl →
      Regex.getSubstitution matched before after repl = repl := by
  intro repl
  induction repl with
  | nil => intro _; rfl
  | cons c rest ih =>
    intro h
    have hc : c ≠ '$' := fun e => h (by simp [e])
    have hrest : '$' ∉ rest := fun e => h (List.mem_cons_of_mem _ e)
    cases rest with
    | nil => rfl
    | cons d rest2 =>
      have := ih hrest
      simp only [Regex.getSubstitution, hc, if_false, this]

/-- Text without an opening brace is copied by the scanner. -/
theorem Regex.replaceGo_text (ic : Bool) (name repl : JsString) :
    ∀ (a before b : JsString), lbrace ∉ a →
      Regex.replaceGo ic (Regex.placeholder name) repl 0 before (a ++ b)
        = a ++ Regex.replaceGo ic (Regex.placeholder name) repl 0 (before ++ a) b := by
  intro a
  induction a with
  | nil => intro before b _; simp
  | cons x xs ih =>
    intro before b h
    have hx : x ≠ lbrace := fun e => h (by simp [e])
    have hxs : lbrace ∉ xs := fun e => h (List.mem_cons_of_mem _ e)
    have hm : Regex.matchesAt ic (Regex.placeholder name) (x :: (xs ++ b)) = false := by
      have hcm : Regex.charMatch ic lbrace x = false := by
        rw [Bool.eq_false_iff]
        intro e
        exact hx ((Regex.charMatch_brace ic lbrace x (by decide)).mp e)
      show (Regex.charMatch ic lbrace x && _) = false
      rw [hcm]
      rfl
    rw [List.cons_append, Regex.replaceGo, if_neg (by simp [hm]), ih _ _ hxs]
    simp

/-- The scanner passes over the characters of a match. -/
theorem Regex.replaceGo_skip (ic : Bool) (pat repl : JsString) :
    ∀ (m before rest : JsString),
      Regex.replaceGo ic pat repl m.length before (m ++ rest)
        = Regex.replaceGo ic pat repl 0 (before ++ m) rest := by
  intro m
  induction m with
  | nil => intro before rest; simp
  | cons x xs ih =>
    intro before rest
    rw [List.cons_append, List.length_cons, Regex.replaceGo, ih]
    simp

theorem NameMatch.length_eq {ic : Bool} {name nm : JsString} (h : NameMatch ic name nm) :
    name.length = nm.length := by
  unfold NameMatch at h
  cases ic with
  | false => simp only [Bool.false_eq_true, if_false] at h; rw [h]
  | true =>
    simp only [if_true] at h
    have := congrArg List.length h
    simpa using this

/-- Inside a placeholder the pattern matches exactly when the names agree. -/
theorem Regex.matchesAt_name (ic : Bool) (rest : JsString) :
    ∀ (name nm : JsString), rbrace ∉ name → rbrace ∉ nm →
      (Regex.matchesAt ic (name ++ [rbrace]) (nm ++ rbrace :: rest) = true ↔
        NameMatch ic name nm) := by
  intro name
  induction name with
  | nil =>
    intro nm _ hnm
    cases nm with
    | nil =>
      have h1 : Regex.charMatch ic rbrace rbrace = true :=
        (Regex.charMatch_brace ic rbrace rbrace (by decide)).mpr rfl
      simp [Regex.matchesAt, h1, NameMatch]
    | cons x xs =>
      have hx : x ≠ rbrace := fun e => hnm (by simp [e])
      have h1 : Regex.charMatch ic rbrace x = false := by
        rw [Bool.eq_false_iff]
        intro e
        exact hx ((Regex.charMatch_brace ic rbrace x (by decide)).mp e)
      simp [Regex.matchesAt, h1, NameMatch]
  | cons a as ih =>
    intro nm hname hnm
    have ha : a ≠ rbrace := fun e => hname (by simp [e])
    have has : rbrace ∉ as := fun e => hname (List.mem_cons_of_mem _ e)
    cases nm with
    | nil =>
      have h1 : Regex.charMatch ic a rbrace = false := by
        rw [Bool.eq_false_iff]
        intro e
        exact ha ((Regex.charMatch_brace_left ic rbrace a (by decide)).mp e)
      simp [Regex.matchesAt, h1, NameMatch]
    | cons x xs =>
      have hxs : rbrace ∉ xs := fun e => hnm (List.mem_cons_of_mem _ e)
      have := ih xs has hxs
      simp only [List.cons_append, Regex.matchesAt, Bool.and_eq_true, this]
      unfold NameMatch Regex.charMatch
      cases ic with
      | false =>
        simp only [Bool.false_eq_true, if_false, beq_iff_eq, List.cons.injEq]
        unfold NameMatch at this
        simp only [Bool.false_eq_true, if_false] at this
        exact and_congr_right (fun _ => this)
      | true =>
        simp only [if_true, beq_iff_eq, List.map_cons, List.cons.injEq]
        unfold NameMatch at this
        simp only [if_true] at this
        exact and_congr_right (fun _ => this)

/-- At a placeholder of the template the pattern matches exactly when the names
agree. -/
theorem Regex.matchesAt_placeholder (ic : Bool) (name nm rest : JsString)
    (hname : rbrace ∉ name) (hnm : rbrace ∉ nm) :
    (Regex.matchesAt ic (Regex.placeholder name) (lbrace :: (nm ++ rbrace :: rest)) = true ↔
      NameMatch ic name nm) := by
  have h1 : Regex.charMatch ic lbrace lbrace = true :=
    (Regex.charMatch_brace ic lbrace lbrace (by decide)).mpr rfl
  show (Regex.charMatch ic lbrace lbrace && Regex.matchesAt ic (name ++ [rbrace])
      (nm ++ rbrace :: rest)) = true ↔ _
  rw [h1, Bool.true_and]
  exact Regex.matchesAt_name ic rest name nm hname hnm

theorem renderSegs_hole (nm : JsString) (rest : List Seg) :
    renderSegs (Seg.hole nm :: rest) = lbrace :: (nm ++ rbrace :: renderSegs rest) := by
  simp [renderSegs, Seg.chars, Regex.placeholder, lbrace, rbrace]

/-- The effect of one global replacement on a template given by plain pieces:
every placeholder whose name agrees with the pattern becomes the replacement
text, and everything else is kept.  The replacement text must be free of `$`
only if it is used. -/
theorem Regex.replaceGo_segs (ic : Bool) (name repl : JsString) (hname : rbrace ∉ name) :
    ∀ (segs : List Seg) (before : JsString), (∀ seg ∈ segs, seg.Plain) →
      (hasMatch ic name segs = true → '$' ∉ repl) →
      Regex.replaceGo ic (Regex.placeholder name) repl 0 before (renderSegs segs)
        = renderSegs (segs.map (Seg.subst ic name repl)) := by
  intro segs
  induction segs with
  | nil => intro before _ _; rfl
  | cons seg rest ih =>
    intro before hplain hrepl
    have hrest : ∀ seg ∈ rest, seg.Plain := fun sg h => hplain sg (List.mem_cons_of_mem _ h)
    have hseg : seg.Plain := hplain seg (List.mem_cons_self _ _)
    cases seg with
    | text t =>
      show Regex.replaceGo ic _ repl 0 before (t ++ renderSegs rest) = t ++ _
      rw [Regex.replaceGo_text ic name repl t before _ hseg, ih _ hrest hrepl]
    | hole nm =>
      obtain ⟨hl, hr⟩ := hseg
      have hrepl2 : hasMatch ic name rest = true → '$' ∉ repl := by
        intro h
        apply hrepl
        simp [hasMatch, h]
      rw [renderSegs_hole]
      by_cases hm : NameMatch ic name nm
      · have hd : '$' ∉ repl := by
          apply hrepl
          simp [hasMatch, hm]
        have hmat := (Regex.matchesAt_placeholder ic name nm (renderSegs rest) hname hr).mpr hm
        have hlen : (Regex.placeholder name).length - 1 = (nm ++ [rbrace]).length := by
          simp [Regex.placeholder, hm.length_eq]
        rw [Regex.replaceGo, if_pos hmat, Regex.getSubstitution_plain _ _ _ _ hd, hlen]
        have happ : nm ++ rbrace :: renderSegs rest = (nm ++ [rbrace]) ++ renderSegs rest := by
          simp
        rw [happ, Regex.replaceGo_skip, ih _ hrest hrepl2]
        simp [Seg.subst, hm, renderSegs, Seg.chars]
      · have hmat : ¬ Regex.matchesAt ic (Regex.placeholder name)
            (lbrace :: (nm ++ rbrace :: renderSegs rest)) = true := fun e =>
          hm ((Regex.matchesAt_placeholder ic name nm (renderSegs rest) hname hr).mp e)
        have happ : nm ++ rbrace :: renderSegs rest = (nm ++ [rbrace]) ++ renderSegs rest := by
          simp
        have hl2 : lbrace ∉ nm ++ [rbrace] := by
          intro e
          rcases List.mem_append.mp e with e | e
          · exact hl e
          · rw [List.mem_singleton] at e
            revert e
            decide
        rw [Regex.replaceGo, if_neg hmat, happ, Regex.replaceGo_text ic name repl _ _ _ hl2,
          ih _ hrest hrepl2]
        simp [Seg.subst, hm, renderSegs, Seg.chars, Regex.placeholder, lbrace, rbrace]

/-- One replacement call on a template given by plain pieces. -/
theorem Regex.replacePlaceholder_segs (ic : Bool) (name : String) (repl : JsString)
    (segs : List Seg) (hname : rbrace ∉ name.toList) (hplain : ∀ seg ∈ segs, seg.Plain)
    (hrepl : hasMatch ic name.toList segs = true → '$' ∉ repl) :
    Regex.replacePlaceholder ic name repl (renderSegs segs)
      = renderSegs (segs.map (Seg.subst ic name.toList repl)) :=
  Regex.replaceGo_segs ic name.toList repl hname segs [] hplain hrepl

/-- A text without an opening brace is left unchanged by a replacement call. -/
theorem Regex.replacePlaceholder_of_no_brace (ic : Bool) (name : String) (repl s : JsString)
    (h : lbrace ∉ s) : Regex.replacePlaceholder ic name repl s = s := by
  have := Regex.replaceGo_text ic name.toList repl s [] [] h
  simpa [Regex.replacePlaceholder, Regex.replaceGo] using this

theorem orElse_of_ne (v d : JsString) (h : v ≠ []) : orElse v d = v := by
  cases v with
  | nil => exact absurd rfl h
  | cons _ _ => rfl

/-- The pieces of the template `Halo {nama}, {kategori}` once both placeholders
have been replaced. -/
theorem halo_plain (n c : JsString) (hnb : lbrace ∉ n) (hcb : lbrace ∉ c) :
    lbrace ∉ "Halo ".toList ++ n ++ ", ".toList ++ c := by
  intro e
  simp only [List.mem_append] at e
  rcases e with ((e | e) | e) | e
  · revert e; decide
  · exact hnb e
  · revert e; decide
  · exact hcb e

/-- C8: for a recipient whose matched contact has the non-empty name `n` and the
non-empty category `c`, neither containing `$` or an opening brace, the template
`Halo {nama}, {kategori}` is rendered as `Halo n, c`, by
`AppContext.processTemplateForBlast` and by `processTemplate` of
`utils/template.js`. -/
theorem C8_render_name_and_category (contacts : List Contact) (clock : Clock)
    (phone : JsString) (contact : Contact) (n c : JsString)
    (hfind : findContact contacts phone = some contact)
    (hname : contact.name = n) (hcat : contact.category = some c)
    (hn : n ≠ []) (hc : c ≠ [])
    (hnd : '$' ∉ n) (hnb : lbrace ∉ n) (hcd : '$' ∉ c) (hcb : lbrace ∉ c) :
    AppContext.processTemplateForBlast contacts clock "Halo {nama}, {kategori}".toList phone
      = "Halo ".toList ++ n ++ ", ".toList ++ c ∧
    Template.processTemplate clock "Halo {nama}, {kategori}".toList phone contacts
      = "Halo ".toList ++ n ++ ", ".toList ++ c := by
  have e0 : "Halo {nama}, {kategori}".toList
      = renderSegs [Seg.text "Halo ".toList, Seg.hole "nama".toList, Seg.text ", ".toList,
          Seg.hole "kategori".toList] := rfl
  have plain0 : ∀ seg ∈ [Seg.text "Halo ".toList, Seg.hole "nama".toList,
      Seg.text ", ".toList, Seg.hole "kategori".toList], seg.Plain := by
    intro seg hseg
    simp only [List.mem_cons, List.mem_singleton, List.not_mem_nil, or_false] at hseg
    rcases hseg with rfl | rfl | rfl | rfl <;> simp only [Seg.Plain] <;> decide
  have plain1 : ∀ seg ∈ [Seg.text "Halo ".toList, Seg.text n, Seg.text ", ".toList,
      Seg.hole "kategori".toList], seg.Plain := by
    intro seg hseg
    simp only [List.mem_cons, List.mem_singleton, List.not_mem_nil, or_false] at hseg
    rcases hseg with rfl | rfl | rfl | rfl
    · simp only [Seg.Plain]; decide
    · exact hnb
    · simp only [Seg.Plain]; decide
    · simp only [Seg.Plain]; decide
  have e1 : ∀ ic : Bool, Regex.replacePlaceholder ic "nama" n
      (renderSegs [Seg.text "Halo ".toList, Seg.hole "nama".toList, Seg.text ", ".toList,
          Seg.hole "kategori".toList])
      = renderSegs [Seg.text "Halo ".toList, Seg.text n, Seg.text ", ".toList,
          Seg.hole "kategori".toList] := by
    intro ic
    rw [Regex.replacePlaceholder_segs ic "nama" n _ (by decide) plain0 (fun _ => hnd)]
    cases ic <;> rfl
  have e2 : ∀ (ic : Bool) (name : String) (v : JsString), rbrace ∉ name.toList →
      hasMatch ic name.toList [Seg.text "Halo ".toList, Seg.text n, Seg.text ", ".toList,
          Seg.hole "kategori".toList] = false →
      Regex.replacePlaceholder ic name v
        (renderSegs [Seg.text "Halo ".toList, Seg.text n, Seg.text ", ".toList,
          Seg.hole "kategori".toList])
      = renderSegs [Seg.text "Halo ".toList, Seg.text n, Seg.text ", ".toList,
          Seg.hole "kategori".toList] := by
    intro ic name v hnm hno
    rw [Regex.replacePlaceholder_segs ic name v _ hnm plain1
      (fun h => absurd (hno ▸ h) Bool.false_ne_true)]
    have hk : ¬ NameMatch ic name.toList "kategori".toList := by
      simpa only [hasMatch, Bool.or_false, decide_eq_false_iff_not] using hno
    simp only [List.map, Seg.subst, if_neg hk]
  have e3 : ∀ ic : Bool, Regex.replacePlaceholder ic "kategori" c
      (renderSegs [Seg.text "Halo ".toList, Seg.text n, Seg.text ", ".toList,
          Seg.hole "kategori".toList])
      = "Halo ".toList ++ n ++ ", ".toList ++ c := by
    intro ic
    rw [Regex.replacePlaceholder_segs ic "kategori" c _ (by decide) plain1 (fun _ => hcd)]
    cases ic <;> simp [Seg.subst, NameMatch, renderSegs, Seg.chars]
  have hfin := halo_plain n c hnb hcb
  have hno : ∀ (ic : Bool) (name : String) (v : JsString),
      Regex.replacePlaceholder ic name v ("Halo ".toList ++ n ++ ", ".toList ++ c)
        = "Halo ".toList ++ n ++ ", ".toList ++ c :=
    fun ic name v => Regex.replacePlaceholder_of_no_brace ic name v _ hfin
  constructor
  · unfold AppContext.processTemplateForBlast
    rw [hfind]
    simp only [hname, hcat, orElse_of_ne n _ hn, orElseOpt, orElse_of_ne c _ hc]
    rw [e0, e1, e2 false "telepon" _ (by decide) rfl, e3]
    cases contact.groups with
    | nil => simp only [hno, AppContext.replaceCommon]
    | cons g gs => simp only [hno, AppContext.replaceCommon]
  · unfold Template.processTemplate
    have hne : ("Halo {nama}, {kategori}".toList).isEmpty = false := rfl
    rw [hne, hfind]
    simp only [Bool.false_eq_true, if_false, Template.replaceContact, hname, hcat,
      orElse_of_ne n _ hn, orElseOpt, orElse_of_ne c _ hc]
    rw [e0, e1, e2 true "name" _ (by decide) rfl, e2 true "telepon" _ (by decide) rfl,
      e2 true "phone" _ (by decide) rfl, e3]
    simp only [hno, Template.replaceCommon]

/-- C8, the example of the specification: with the contact Ana of category VIP
the template renders as `Halo Ana, VIP`. -/
theorem C8_render_name_and_category_witness :
    AppContext.processTemplateForBlast [ana] sampleClock "Halo {nama}, {kategori}".toList
        "628111222333".toList
      = "Halo ".toList ++ "Ana".toList ++ ", ".toList ++ "VIP".toList ∧
    Template.processTemplate sampleClock "Halo {nama}, {kategori}".toList
        "628111222333".toList [ana]
      = "Halo ".toList ++ "Ana".toList ++ ", ".toList ++ "VIP".toList :=
  C8_render_name_and_category [ana] sampleClock "628111222333".toList ana "Ana".toList
    "VIP".toList rfl rfl rfl (by decide) (by decide) (by decide) (by decide) (by decide)
    (by decide)

/-- Where the pattern matches, it occurs. -/
theorem Regex.matchesAt_occurs (ic : Bool) :
    ∀ (pat t : JsString), Regex.matchesAt ic pat t = true →
      ∃ m rest, t = m ++ rest ∧
        (if ic then pat.map Char.toUpper = m.map Char.toUpper else pat = m) := by
  intro pat
  induction pat with
  | nil =>
    intro t _
    refine ⟨[], t, rfl, ?_⟩
    cases ic <;> simp
  | cons p ps ih =>
    intro t h
    cases t with
    | nil => simp [Regex.matchesAt] at h
    | cons c cs =>
      simp only [Regex.matchesAt, Bool.and_eq_true] at h
      obtain ⟨m, rest, hcs, hm⟩ := ih cs h.2
      refine ⟨c :: m, rest, by rw [hcs]; rfl, ?_⟩
      have h1 := h.1
      unfold Regex.charMatch at h1
      cases ic with
      | false =>
        simp only [Bool.false_eq_true, if_false, beq_iff_eq] at h1 hm ⊢
        rw [h1, hm]
      | true =>
        simp only [if_true, beq_iff_eq] at h1 hm ⊢
        rw [List.map_cons, List.map_cons, h1, hm]

/-- A pattern that occurs nowhere in the subject leaves it unchanged. -/
theorem Regex.replaceGo_of_not_occurs (ic : Bool) (pat repl : JsString) :
    ∀ (s before : JsString), (∀ t, t <:+ s → Regex.matchesAt ic pat t = false) →
      Regex.replaceGo ic pat repl 0 before s = s := by
  intro s
  induction s with
  | nil => intro before _; rfl
  | cons c cs ih =>
    intro before h
    have h0 := h (c :: cs) (List.suffix_refl _)
    rw [Regex.replaceGo, if_neg (by simp [h0])]
    rw [ih _ (fun t ht => h t (ht.trans (List.suffix_cons c cs)))]

theorem Regex.replacePlaceholder_of_not_occurs (ic : Bool) (name : String)
    (repl s : JsString) (h : ¬ Occurs ic (Regex.placeholder name.toList) s) :
    Regex.replacePlaceholder ic name repl s = s := by
  apply Regex.replaceGo_of_not_occurs
  intro t ht
  rw [Bool.eq_false_iff]
  intro hm
  apply h
  obtain ⟨m, rest, hmr, hpat⟩ := Regex.matchesAt_occurs ic _ t hm
  obtain ⟨pre, hpre⟩ := ht
  unfold Occurs
  cases ic with
  | false =>
    simp only [Bool.false_eq_true, if_false] at hpat ⊢
    refine ⟨pre, rest, ?_⟩
    rw [← hpre, hmr, hpat]
    simp
  | true =>
    simp only [if_true] at hpat ⊢
    refine ⟨pre.map Char.toUpper, rest.map Char.toUpper, ?_⟩
    rw [← hpre, hmr, hpat]
    simp

/-- C9: a template in which none of the placeholders known to a renderer occurs
is returned unchanged, for every recipient and contact list, by
`AppContext.processTemplateForBlast` (exact names) and by `processTemplate` of
`utils/template.js` (names up to letter case). -/
theorem C9_unknown_left_verbatim (contacts : List Contact) (clock : Clock)
    (template phone : JsString) :
    ((∀ name ∈ AppContext.knownNames,
        ¬ Occurs false (Regex.placeholder name.toList) template) →
      AppContext.processTemplateForBlast contacts clock template phone = template) ∧
    ((∀ name ∈ Template.knownNames,
        ¬ Occurs true (Regex.placeholder name.toList) template) →
      Template.processTemplate clock template phone contacts = template) := by
  constructor
  · intro h
    have hk : ∀ (name : String) (v : JsString), name ∈ AppContext.knownNames →
        Regex.replacePlaceholder false name v template = template :=
      fun name v hn => Regex.replacePlaceholder_of_not_occurs false name v template (h name hn)
    have h1 := fun v => hk "nama" v (by decide)
    have h2 := fun v => hk "telepon" v (by decide)
    have h3 := fun v => hk "kategori" v (by decide)
    have h4 := fun v => hk "group" v (by decide)
    have h5 := fun v => hk "grup" v (by decide)
    have h6 := fun v => hk "tanggal" v (by decide)
    have h7 := fun v => hk "waktu" v (by decide)
    have h8 := fun v => hk "hari" v (by decide)
    unfold AppContext.processTemplateForBlast
    cases findContact contacts phone with
    | none => simp only [AppContext.replaceCommon, h1, h3, h4, h5, h6, h7, h8]
    | some contact =>
      simp only [h1, h2, h3]
      cases contact.groups with
      | nil => simp only [AppContext.replaceCommon, h4, h5, h6, h7, h8]
      | cons g gs => simp only [AppContext.replaceCommon, h4, h5, h6, h7, h8]
  · intro h
    have hk : ∀ (name : String) (v : JsString), name ∈ Template.knownNames →
        Regex.replacePlaceholder true name v template = template :=
      fun name v hn => Regex.replacePlaceholder_of_not_occurs true name v template (h name hn)
    have h1 := fun v => hk "nama" v (by decide)
    have h2 := fun v => hk "name" v (by decide)
    have h3 := fun v => hk "telepon" v (by decide)
    have h4 := fun v => hk "phone" v (by decide)
    have h5 := fun v => hk "kategori" v (by decide)
    have h6 := fun v => hk "category" v (by decide)
    have h7 := fun v => hk "group" v (by decide)
    have h8 := fun v => hk "grup" v (by decide)
    have h9 := fun v => hk "tanggal" v (by decide)
    have h10 := fun v => hk "date" v (by decide)
    have h11 := fun v => hk "waktu" v (by decide)
    have h12 := fun v => hk "time" v (by decide)
    have h13 := fun v => hk "datetime" v (by decide)
    unfold Template.processTemplate
    split_ifs with he
    · rfl
    · cases findContact contacts phone with
      | none =>
        simp only [Template.replaceContact, Template.replaceCommon, h1, h2, h3, h4, h5, h6, h7,
          h8, h9, h10, h11, h12, h13]
      | some contact =>
        simp only [Template.replaceContact, Template.replaceCommon, h1, h2, h3, h4, h5, h6, h7,
          h8, h9, h10, h11, h12, h13]

/-- C9, the example of the specification: `Hi {unknown}` without any contact is
rendered as `Hi {unknown}`. -/
theorem C9_unknown_left_verbatim_witness :
    AppContext.processTemplateForBlast [] sampleClock "Hi {unknown}".toList phoneA
      = "Hi {unknown}".toList ∧
    Template.processTemplate sampleClock "Hi {unknown}".toList phoneA []
      = "Hi {unknown}".toList :=
  ⟨(C9_unknown_left_verbatim [] sampleClock "Hi {unknown}".toList phoneA).1 (by decide),
   (C9_unknown_left_verbatim [] sampleClock "Hi {unknown}".toList phoneA).2 (by decide)⟩

/-- C10 (evaluation of the code): for the recipient matched to the contact Ana,
`AppContext.processTemplateForBlast`, the renderer of plain runs, replaces
`{nama}` but leaves `{NAMA}` and `{Nama}` in the output, so the letter case of a
placeholder changes what it renders; `processCustomBlastTemplate` of
`utils/template.js`, the renderer of variable-driven runs, renders the three
spellings alike. -/
theorem C10_plain_renderer_case_sensitive :
    AppContext.processTemplateForBlast [ana] sampleClock "Halo {nama}".toList
        "628111222333".toList = "Halo Ana".toList ∧
    AppContext.processTemplateForBlast [ana] sampleClock "Halo {NAMA}".toList
        "628111222333".toList = "Halo {NAMA}".toList ∧
    AppContext.processTemplateForBlast [ana] sampleClock "Halo {Nama}".toList
        "628111222333".toList = "Halo {Nama}".toList ∧
    Template.processCustomBlastTemplate sampleClock "Halo {nama}".toList
        "628111222333".toList (fun _ => none) [] [ana] = Rendered.text "Halo Ana".toList ∧
    Template.processCustomBlastTemplate sampleClock "Halo {NAMA}".toList
        "628111222333".toList (fun _ => none) [] [ana] = Rendered.text "Halo Ana".toList ∧
    Template.processCustomBlastTemplate sampleClock "Halo {Nama}".toList
        "628111222333".toList (fun _ => none) [] [ana] = Rendered.text "Halo Ana".toList := by
  decide

/-! ## Theorems: the renderers as replacement tables -/

theorem AppContext.processTemplateForBlast_eq_table (contacts : List Contact) (clock : Clock)
    (content phone : JsString) :
    AppContext.processTemplateForBlast contacts clock content phone
      = Regex.replaceTable false (AppContext.tableFor (findContact contacts phone) clock phone)
          content := by
  unfold AppContext.processTemplateForBlast
  cases findContact contacts phone with
  | none => rfl
  | some c =>
    simp only [AppContext.tableFor]
    cases c.groups with
    | nil => rfl
    | cons g gs => rfl

theorem Regex.replaceTable_nil (ic : Bool) (table : List (JsString × JsString)) :
    Regex.replaceTable ic table [] = [] := by
  induction table with
  | nil => rfl
  | cons e rest ih =>
    unfold Regex.replaceTable at ih ⊢
    rw [List.foldl_cons]
    exact ih

theorem Template.processTemplate_eq_table (contacts : List Contact) (clock : Clock)
    (template phone : JsString) :
    Template.processTemplate clock template phone contacts
      = Regex.replaceTable true (Template.tableFor (findContact contacts phone) clock phone)
          template := by
  unfold Template.processTemplate
  cases template with
  | nil => rw [Regex.replaceTable_nil]; rfl
  | cons c cs =>
    simp only [List.isEmpty_cons, Bool.false_eq_true, if_false]
    cases findContact contacts phone with
    | none =>
      simp only [Template.tableFor, Regex.replaceTable, List.cons_append, List.nil_append,
        List.foldl_cons, List.foldl_nil, Template.replaceContact, Template.replaceCommon,
        Regex.replacePlaceholder]
    | some c =>
      simp only [Template.tableFor, Regex.replaceTable, List.cons_append, List.nil_append,
        List.foldl_cons, List.foldl_nil, Template.replaceContact, Template.replaceCommon,
        Regex.replacePlaceholder]

theorem Seg.fill_nil (ic : Bool) (seg : Seg) : Seg.fill ic [] seg = seg := by
  cases seg <;> rfl

theorem Seg.fill_cons (ic : Bool) (e : JsString × JsString) (rest : List (JsString × JsString))
    (seg : Seg) : Seg.fill ic rest (Seg.subst ic e.1 e.2 seg) = Seg.fill ic (e :: rest) seg := by
  cases seg with
  | text t => rfl
  | hole nm =>
    by_cases h : NameMatch ic e.1 nm
    · simp [Seg.subst, Seg.fill, h, List.find?_cons]
    · simp [Seg.subst, Seg.fill, h, List.find?_cons]

theorem Seg.subst_plain (ic : Bool) (name repl : JsString) (hrepl : lbrace ∉ repl) (seg : Seg)
    (h : seg.Plain) : (Seg.subst ic name repl seg).Plain := by
  cases seg with
  | text t => exact h
  | hole nm =>
    by_cases hm : NameMatch ic name nm
    · simp only [Seg.subst, if_pos hm]
      exact hrepl
    · simp only [Seg.subst, if_neg hm]
      exact h

/-- The effect of a tame table of replacements on a template given by plain
pieces: every placeholder becomes the value of the first entry with its name,
inserted as it is, and everything else is kept. -/
theorem Regex.replaceTable_segs (ic : Bool) :
    ∀ (table : List (JsString × JsString)) (segs : List Seg), TameTable table →
      (∀ seg ∈ segs, seg.Plain) →
      Regex.replaceTable ic table (renderSegs segs)
        = renderSegs (segs.map (Seg.fill ic table)) := by
  intro table
  induction table with
  | nil =>
    intro segs _ _
    have : segs.map (Seg.fill ic []) = segs := by
      rw [List.map_congr_left (fun seg _ => Seg.fill_nil ic seg), List.map_id']
    rw [this]
    rfl
  | cons e rest ih =>
    intro segs htame hplain
    obtain ⟨hn, hd, hb⟩ := htame e (List.mem_cons_self _ _)
    have hrest : TameTable rest := fun e2 h2 => htame e2 (List.mem_cons_of_mem _ h2)
    have hstep := Regex.replaceGo_segs ic e.1 e.2 hn segs [] hplain (fun _ => hd)
    have hplain2 : ∀ seg ∈ segs.map (Seg.subst ic e.1 e.2), seg.Plain := by
      intro seg hseg
      obtain ⟨sg, hsg, rfl⟩ := List.mem_map.mp hseg
      exact Seg.subst_plain ic e.1 e.2 hb sg (hplain sg hsg)
    have hih := ih (segs.map (Seg.subst ic e.1 e.2)) hrest hplain2
    unfold Regex.replaceTable at hih ⊢
    rw [List.foldl_cons, hstep, hih, List.map_map]
    congr 1
    apply List.map_congr_left
    intro seg _
    exact Seg.fill_cons ic e rest seg

theorem Template.replaceVariablesLiteral_eq_table (rowData : JsString → JsString) :
    ∀ (vars : List JsString) (s : JsString),
      Template.replaceVariablesLiteral rowData vars s
        = Regex.replaceTable true (vars.map (fun v => (v, rowData v))) s := by
  intro vars
  induction vars with
  | nil => intro s; rfl
  | cons v rest ih =>
    intro s
    unfold Template.replaceVariablesLiteral
    rw [ih]
    rfl

theorem Template.processCustomBlastTemplateLiteral_eq_table (contacts : List Contact)
    (clock : Clock)
    (template phone : JsString) (dataMapping : JsString → Option (JsString → JsString))
    (vars : List JsString) :
    Template.processCustomBlastTemplateLiteral clock template phone dataMapping vars contacts
      = Regex.replaceTable true
          (Template.variableTable (dataMapping phone) vars
            ++ Template.tableFor (findContact contacts phone) clock phone) template := by
  unfold Template.processCustomBlastTemplateLiteral
  cases template with
  | nil => rw [Regex.replaceTable_nil]; rfl
  | cons c cs =>
    simp only [List.isEmpty_cons, Bool.false_eq_true, if_false]
    rw [Template.processTemplate_eq_table]
    cases dataMapping phone with
    | none => rfl
    | some row =>
      simp only [Template.variableTable]
      rw [Template.replaceVariablesLiteral_eq_table]
      unfold Regex.replaceTable
      rw [List.foldl_append]

/-! ## Theorems: dispatch loops, guards and retry -/

/-- The results after a dispatch loop are the updates of its steps, in order. -/
theorem dispatchLoop_state (attempt : JsString → List Effect)
    (step : RunResult → JsString → SendResult → RunResult) (delayMs : Nat)
    (notLast : Nat → Bool) :
    ∀ (l : List (JsString × SendResult)) (i : Nat) (r : RunResult),
      (dispatchLoop attempt step delayMs notLast i r l).1
        = l.foldl (fun acc pr => step acc pr.1 pr.2) r := by
  intro l
  induction l with
  | nil => intro i r; rfl
  | cons x xs ih =>
    intro i r
    obtain ⟨p, res⟩ := x
    simp only [dispatchLoop, List.foldl_cons]
    exact ih (i + 1) (step r p res)

/-- The effects of a dispatch loop whose attempts are single send requests: the
requests in the order of the recipients, with one wait between two consecutive
requests. -/
theorem dispatchLoop_effects (send : JsString → Effect)
    (step : RunResult → JsString → SendResult → RunResult) (delayMs n : Nat)
    (notLast : Nat → Bool) (hnl : ∀ k, notLast k = decide (k + 1 < n)) :
    ∀ (l : List (JsString × SendResult)) (i : Nat) (r : RunResult), i + l.length = n →
      (dispatchLoop (fun p => [send p]) step delayMs notLast i r l).2
        = (l.map (fun pr => send pr.1)).intersperse (Effect.sleep delayMs) := by
  intro l
  induction l with
  | nil => intro i r _; rfl
  | cons x xs ih =>
    intro i r hlen
    obtain ⟨p, res⟩ := x
    cases xs with
    | nil =>
      have hk : notLast i = false := by
        rw [hnl]
        simp only [List.length_cons, List.length_nil] at hlen
        simp only [decide_eq_false_iff_not]
        omega
      simp [dispatchLoop, hk]
    | cons y ys =>
      have hk : notLast i = true := by
        rw [hnl]
        simp only [List.length_cons] at hlen
        simp only [decide_eq_true_eq]
        omega
      have hrec := ih (i + 1) (step r p res) (by simp only [List.length_cons] at hlen ⊢; omega)
      simp only [dispatchLoop] at hrec ⊢
      simp only [hk, if_true, List.map_cons, List.intersperse_cons₂]
      rw [hrec]
      simp

theorem dispatchLoop_cons (attempt : JsString → List Effect)
    (step : RunResult → JsString → SendResult → RunResult) (delayMs : Nat)
    (notLast : Nat → Bool) (i : Nat) (r : RunResult) (p : JsString) (res : SendResult)
    (rest : List (JsString × SendResult)) :
    (dispatchLoop attempt step delayMs notLast i r ((p, res) :: rest)).2
      = attempt p ++ (if notLast i then [Effect.sleep delayMs] else []) ++
          (dispatchLoop attempt step delayMs notLast (i + 1) (step r p res) rest).2 :=
  rfl

/-- The waits of a dispatch loop over `n` recipients: `n - 1` waits of the
configured delay, whatever the attempts and the outcomes. -/
theorem dispatchLoop_sleeps (attempt : JsString → List Effect)
    (hatt : ∀ p, (attempt p).filter Effect.isSleep = [])
    (step : RunResult → JsString → SendResult → RunResult) (delayMs n : Nat)
    (notLast : Nat → Bool) (hnl : ∀ k, notLast k = decide (k + 1 < n)) :
    ∀ (l : List (JsString × SendResult)) (i : Nat) (r : RunResult), i + l.length = n →
      ((dispatchLoop attempt step delayMs notLast i r l).2).filter Effect.isSleep
        = List.replicate (l.length - 1) (Effect.sleep delayMs) := by
  intro l
  induction l with
  | nil => intro i r _; rfl
  | cons x xs ih =>
    intro i r hlen
    obtain ⟨p, res⟩ := x
    cases xs with
    | nil =>
      have hk : notLast i = false := by
        rw [hnl]
        simp only [List.length_cons, List.length_nil] at hlen
        simp only [decide_eq_false_iff_not]
        omega
      simp [dispatchLoop, hk, hatt]
    | cons y ys =>
      have hk : notLast i = true := by
        rw [hnl]
        simp only [List.length_cons] at hlen
        simp only [decide_eq_true_eq]
        omega
      have hrec := ih (i + 1) (step r p res) (by simp only [List.length_cons] at hlen ⊢; omega)
      rw [dispatchLoop_cons, List.filter_append, List.filter_append, hrec, hatt, hk]
      simp [List.filter, Effect.isSleep, List.replicate_succ]

theorem zip_fst_of_length {α β : Type} (xs : List α) (ys : List β) (h : ys.length = xs.length) :
    (xs.zip ys).map Prod.fst = xs :=
  List.map_fst_zip _ _ (le_of_eq h.symm)

theorem zip_length_of_length {α β : Type} (xs : List α) (ys : List β)
    (h : ys.length = xs.length) : (xs.zip ys).length = xs.length := by
  simp [List.length_zip, h]

theorem retry_notLast (n k : Nat) : decide (k < n - 1) = decide (k + 1 < n) := by
  by_cases h : k + 1 < n
  · have : k < n - 1 := by omega
    simp [h, this]
  · have : ¬ k < n - 1 := by omega
    simp [h, this]

/-- C12: `handleSubmit` invoked while the in-progress flag of its own slot is set
(`blastInProgress` for `RegularBlast`, `customBlastInProgress` for
`CustomBlast`) performs no send and no wait and returns the state as it was, so
`blastResults` and `lastBlastConfig` are unchanged. -/
theorem C12_submit_while_running (txt : LogText) (ctx : Context) (uploadFails : Bool)
    (s : AppState) (form : RegularBlast.Form) (customForm : CustomBlast.Form)
    (outcomes : List SendResult) :
    (s.blastInProgress = true →
      RegularBlast.handleSubmitEvent txt ctx uploadFails s form outcomes = (s, [])) ∧
    (s.customBlastInProgress = true →
      CustomBlast.handleSubmitEvent txt ctx uploadFails s customForm outcomes = (s, [])) := by
  constructor
  · intro h
    simp [RegularBlast.handleSubmitEvent, RegularBlast.validate, h]
  · intro h
    simp [CustomBlast.handleSubmitEvent, CustomBlast.validate, h]

/-- C12 at a state in which both blasts are in progress after a failure of A:
both handlers leave it as it is and send nothing. -/
theorem C12_submit_while_running_witness :
    RegularBlast.handleSubmitEvent noText plainContext false (failedState true true false)
        formAB [SendResult.resolved 200 false, SendResult.resolved 200 false]
      = (failedState true true false, []) ∧
    CustomBlast.handleSubmitEvent noText plainContext false (failedState true true false)
        formC [SendResult.resolved 200 false] = (failedState true true false, []) :=
  ⟨(C12_submit_while_running noText plainContext false (failedState true true false) formAB
      formC [SendResult.resolved 200 false, SendResult.resolved 200 false]).1 rfl,
   (C12_submit_while_running noText plainContext false (failedState true true false) formAB
      formC [SendResult.resolved 200 false]).2 rfl⟩

/-- C16: when the recipient input resolves to no valid recipient, or the kind is
text and the message is empty, or the kind is image or document and no file is
selected, `handleSubmit` performs no send and returns the state as it was
(`blastResults`, `lastBlastConfig` and the in-progress flags unchanged), in
`RegularBlast` and in `CustomBlast`. -/
theorem C16_precondition_failures (txt : LogText) (ctx : Context) (uploadFails : Bool)
    (s : AppState) (form : RegularBlast.Form) (customForm : CustomBlast.Form)
    (outcomes : List SendResult) :
    ((Helpers.parsePhoneNumbers (JsValue.str form.phoneNumbers) = [] ∨
        (form.blastType = "text".toList ∧ form.blastMessage = []) ∨
        ((form.blastType = "image".toList ∨ form.blastType = "document".toList) ∧
          form.blastFile = none)) →
      RegularBlast.handleSubmitEvent txt ctx uploadFails s form outcomes = (s, [])) ∧
    ((customForm.phoneMappingKeys = [] ∨
        (customForm.customBlastType = "text".toList ∧ customForm.customBlastMessage = []) ∨
        ((customForm.customBlastType = "image".toList ∨
            customForm.customBlastType = "document".toList) ∧
          customForm.customBlastFile = none)) →
      CustomBlast.handleSubmitEvent txt ctx uploadFails s customForm outcomes = (s, [])) := by
  constructor
  · intro h
    have hv : RegularBlast.validate ctx s form = none := by
      unfold RegularBlast.validate
      rcases h with h | ⟨h1, h2⟩ | ⟨h1, h2⟩
      · simp [h]
      · simp [h1, h2]
      · split_ifs <;> first | rfl | (exfalso; simp_all)
    simp [RegularBlast.handleSubmitEvent, hv]
  · intro h
    have hv : CustomBlast.validate ctx s customForm = none := by
      unfold CustomBlast.validate
      rcases h with h | ⟨h1, h2⟩ | ⟨h1, h2⟩
      · simp [h]
      · simp [h1, h2]
      · split_ifs <;> first | rfl | (exfalso; simp_all)
    simp [CustomBlast.handleSubmitEvent, hv]

/-- C16 at an idle state: a plain text blast whose only entry `abc` is no phone
number, and a custom image blast without a file, leave the state as it is and
send nothing. -/
theorem C16_precondition_failures_witness :
    RegularBlast.handleSubmitEvent noText plainContext false idleState
        { formAB with phoneNumbers := "abc".toList } [] = (idleState, []) ∧
    CustomBlast.handleSubmitEvent noText plainContext false idleState
        { formC with customBlastType := "image".toList } [] = (idleState, []) :=
  ⟨(C16_precondition_failures noText plainContext false idleState
      { formAB with phoneNumbers := "abc".toList }
      { formC with customBlastType := "image".toList } []).1 (Or.inl (by decide)),
   (C16_precondition_failures noText plainContext false idleState
      { formAB with phoneNumbers := "abc".toList }
      { formC with customBlastType := "image".toList } []).2
      (Or.inr (Or.inr ⟨Or.inl rfl, rfl⟩))⟩

/-- C18: without a stored configuration, or without a failed number,
`retryFailedBlast` performs no send and returns the state as it was, in
`BlastResults.js` and in `RetryBlast.jsx`. -/
theorem C18_retry_nothing_to_replay (txt : LogText) (ctx : Context) (confirmed : Bool)
    (s : AppState) (outcomes : List SendResult)
    (h : s.lastBlastConfig = none ∨ s.blastResults.failedNumbers = []) :
    BlastResults.retryFailedBlastEvent txt ctx confirmed s outcomes = (s, []) ∧
    RetryBlast.retryFailedBlastEvent txt ctx confirmed s outcomes = (s, []) := by
  rcases h with h | h
  · simp [BlastResults.retryFailedBlastEvent, RetryBlast.retryFailedBlastEvent, h]
  · constructor
    · unfold BlastResults.retryFailedBlastEvent
      cases s.lastBlastConfig with
      | none => rfl
      | some cfg => simp [h]
    · unfold RetryBlast.retryFailedBlastEvent
      cases s.lastBlastConfig with
      | none => rfl
      | some cfg => simp [h]

/-- C18 at the idle state, which has neither a configuration nor a failed
number. -/
theorem C18_retry_nothing_to_replay_witness :
    BlastResults.retryFailedBlastEvent noText plainContext true idleState
        [SendResult.resolved 200 false] = (idleState, []) ∧
    RetryBlast.retryFailedBlastEvent noText plainContext true idleState
        [SendResult.resolved 200 false] = (idleState, []) :=
  C18_retry_nothing_to_replay noText plainContext true idleState
    [SendResult.resolved 200 false] (Or.inl rfl)

/-- C19 (counterexample): `retryFailedBlast` called in a state where a dispatch
loop is Running (each of the three flags set in turn) and A has failed does send
to A and does change `blastResults`. -/
theorem C19_retry_function_has_no_running_guard :
    (BlastResults.retryFailedBlastEvent noText plainContext true (failedState true false false)
        [SendResult.resolved 200 false]).2
      = [Effect.send "/message/send-text".toList phoneA []] ∧
    (BlastResults.retryFailedBlastEvent noText plainContext true (failedState false true false)
        [SendResult.resolved 200 false]).2
      = [Effect.send "/message/send-text".toList phoneA []] ∧
    (BlastResults.retryFailedBlastEvent noText plainContext true (failedState false false true)
        [SendResult.resolved 200 false]).2
      = [Effect.send "/message/send-text".toList phoneA []] ∧
    (BlastResults.retryFailedBlastEvent noText plainContext true (failedState true false false)
        [SendResult.resolved 200 false]).1.blastResults
      ≠ (failedState true false false).blastResults ∧
    (RetryBlast.retryFailedBlastEvent noText plainContext true (failedState true false false)
        [SendResult.resolved 200 false]).2
      = [Effect.send "/message/send-text".toList phoneA []] := by
  decide

/-- C19 (amended): `retryFailedBlast` itself does not read the in-progress
flags: its effects are the same whatever they are.  The guard is the retry
button: in `BlastResults.js` a click while `blastInProgress`,
`customBlastInProgress` or `isRetryBlast` is set calls nothing, so no send is
made and the state is unchanged; in `RetryBlast.jsx` the same holds while
`isRetryBlast` is set. -/
theorem C19_retry_button_guard (txt : LogText) (ctx : Context) (confirmed : Bool)
    (s : AppState) (outcomes : List SendResult) :
    (∀ a b c : Bool,
      (BlastResults.retryFailedBlastEvent txt ctx confirmed
        { s with blastInProgress := a, customBlastInProgress := b, isRetryBlast := c }
        outcomes).2
        = (BlastResults.retryFailedBlastEvent txt ctx confirmed s outcomes).2) ∧
    ((s.blastInProgress = true ∨ s.customBlastInProgress = true ∨ s.isRetryBlast = true) →
      BlastResults.retryButtonClick txt ctx confirmed s outcomes = (s, [])) ∧
    (s.isRetryBlast = true →
      RetryBlast.retryButtonClick txt ctx confirmed s outcomes = (s, [])) := by
  refine ⟨?_, ?_, ?_⟩
  · intro a b c
    unfold BlastResults.retryFailedBlastEvent
    cases s.lastBlastConfig with
    | none => rfl
    | some cfg =>
      simp only
      split_ifs <;> rfl
  · intro h
    unfold BlastResults.retryButtonClick
    rcases h with h | h | h
    · simp [h]
    · simp [h]
    · simp [h]
  · intro h
    unfold RetryBlast.retryButtonClick
    simp [h]

/-- C19 at the state in which a plain blast is in progress after a failure of A:
a click on the retry button of `BlastResults.js` sends nothing and changes
nothing; so does a click in `RetryBlast.jsx` while a retry runs. -/
theorem C19_retry_button_guard_witness :
    BlastResults.retryButtonClick noText plainContext true (failedState true false false)
        [SendResult.resolved 200 false] = (failedState true false false, []) ∧
    RetryBlast.retryButtonClick noText plainContext true (failedState false false true)
        [SendResult.resolved 200 false] = (failedState false false true, []) :=
  ⟨(C19_retry_button_guard noText plainContext true (failedState true false false)
      [SendResult.resolved 200 false]).2.1 (Or.inl rfl),
   (C19_retry_button_guard noText plainContext true (failedState false false true)
      [SendResult.resolved 200 false]).2.2 rfl⟩

theorem CustomBlast.custom_attempt_of_endpoint (ctx : Context) (form : CustomBlast.Form)
    (e : JsString) (h : CustomBlast.endpointOf form.customBlastType = some e) :
    CustomBlast.attempt ctx form
      = fun p => [Effect.send e p (ctx.customTemplate form.customBlastMessage p)] := by
  funext p
  simp [CustomBlast.attempt, h]

theorem BlastResults.retry_attempt_of_endpoint (ctx : Context) (cfg : BlastConfig)
    (e : JsString) (h : BlastResults.endpointOf cfg.blastType = some e) :
    BlastResults.attempt ctx cfg
      = fun p => [Effect.send e p (personalizedMessage ctx cfg p)] := by
  funext p
  simp [BlastResults.attempt, h]

theorem CustomBlast.custom_attempt_no_sleep (ctx : Context) (form : CustomBlast.Form) (p : JsString) :
    (CustomBlast.attempt ctx form p).filter Effect.isSleep = [] := by
  unfold CustomBlast.attempt
  cases CustomBlast.endpointOf form.customBlastType <;> rfl

theorem BlastResults.retry_attempt_no_sleep (ctx : Context) (cfg : BlastConfig) (p : JsString) :
    (BlastResults.attempt ctx cfg p).filter Effect.isSleep = [] := by
  unfold BlastResults.attempt
  cases BlastResults.endpointOf cfg.blastType <;> rfl

/-- The effects of a dispatch loop over recipients paired with as many outcomes,
when each attempt is one send request. -/
theorem dispatchLoop_effects_zip (send : JsString → Effect)
    (step : RunResult → JsString → SendResult → RunResult) (delayMs : Nat)
    (notLast : Nat → Bool) (phones : List JsString) (outcomes : List SendResult)
    (hlen : outcomes.length = phones.length)
    (hnl : ∀ k, notLast k = decide (k + 1 < phones.length)) (r : RunResult) :
    (dispatchLoop (fun p => [send p]) step delayMs notLast 0 r (phones.zip outcomes)).2
      = (phones.map send).intersperse (Effect.sleep delayMs) := by
  rw [dispatchLoop_effects send step delayMs phones.length notLast hnl _ 0 r
    (by rw [zip_length_of_length phones outcomes hlen]; omega)]
  have : (phones.zip outcomes).map (fun pr => send pr.1) = phones.map send := by
    have h1 : (phones.zip outcomes).map (fun pr => send pr.1)
        = ((phones.zip outcomes).map Prod.fst).map send := by
      rw [List.map_map]
      rfl
    rw [h1, zip_fst_of_length phones outcomes hlen]
  rw [this]

/-- The waits of a dispatch loop over recipients paired with as many outcomes. -/
theorem dispatchLoop_sleeps_zip (attempt : JsString → List Effect)
    (hatt : ∀ p, (attempt p).filter Effect.isSleep = [])
    (step : RunResult → JsString → SendResult → RunResult) (delayMs : Nat)
    (notLast : Nat → Bool) (phones : List JsString) (outcomes : List SendResult)
    (hlen : outcomes.length = phones.length)
    (hnl : ∀ k, notLast k = decide (k + 1 < phones.length)) (r : RunResult) :
    ((dispatchLoop attempt step delayMs notLast 0 r (phones.zip outcomes)).2).filter
        Effect.isSleep
      = List.replicate (phones.length - 1) (Effect.sleep delayMs) := by
  rw [dispatchLoop_sleeps attempt hatt step delayMs phones.length notLast hnl _ 0 r
    (by rw [zip_length_of_length phones outcomes hlen]; omega),
    zip_length_of_length phones outcomes hlen]

/-- The effects of the plain dispatch loop. -/
theorem RegularBlast.runLoop_effects (txt : LogText) (ctx : Context)
    (form : RegularBlast.Form) (r : RunResult) (phones : List JsString)
    (outcomes : List SendResult) (hlen : outcomes.length = phones.length) :
    (RegularBlast.runLoop txt ctx form r phones outcomes).2
      = (phones.map (fun p => Effect.send (RegularBlast.endpointOf form.blastType) p
          (ctx.processTemplateForBlast form.blastMessage p))).intersperse
          (Effect.sleep (form.blastDelay * 1000)) :=
  dispatchLoop_effects_zip _ _ _ _ phones outcomes hlen (fun _ => rfl) r

/-- The effects of the retry loop of `BlastResults.js` for a stored kind that has
a send method. -/
theorem BlastResults.retryRun_effects (txt : LogText) (ctx : Context) (cfg : BlastConfig)
    (r : RunResult) (outcomes : List SendResult) (e : JsString)
    (he : BlastResults.endpointOf cfg.blastType = some e)
    (hlen : outcomes.length = r.failedNumbers.length) :
    (BlastResults.retryRun txt ctx cfg r outcomes).2
      = (r.failedNumbers.map (fun p => Effect.send e p (personalizedMessage ctx cfg p))).intersperse
          (Effect.sleep (cfg.blastDelay * 1000)) := by
  unfold BlastResults.retryRun
  rw [BlastResults.retry_attempt_of_endpoint ctx cfg e he]
  exact dispatchLoop_effects_zip _ _ _ _ r.failedNumbers outcomes hlen
    (fun k => retry_notLast r.failedNumbers.length k) r

/-- C14: in a plain run, a custom run and a retry over the recipients `phones`,
for every sequence of as many outcomes, the loop waits `blastDelay` seconds
exactly `phones.length - 1` times; when the kind has a send method the effects
are the send requests in order with one wait between two consecutive requests,
that is a wait after every recipient but the last, whatever the outcomes. -/
theorem C14_waits_between_sends (txt : LogText) (ctx : Context) (form : RegularBlast.Form)
    (customForm : CustomBlast.Form) (cfg : BlastConfig) (r : RunResult)
    (phones : List JsString) (outcomes : List SendResult)
    (hlen : outcomes.length = phones.length) (hr : r.failedNumbers = phones) :
    (RegularBlast.runLoop txt ctx form r phones outcomes).2
      = (phones.map (fun p => Effect.send (RegularBlast.endpointOf form.blastType) p
          (ctx.processTemplateForBlast form.blastMessage p))).intersperse
          (Effect.sleep (form.blastDelay * 1000)) ∧
    ((RegularBlast.runLoop txt ctx form r phones outcomes).2).filter Effect.isSleep
      = List.replicate (phones.length - 1) (Effect.sleep (form.blastDelay * 1000)) ∧
    ((CustomBlast.runLoop txt ctx customForm r phones outcomes).2).filter Effect.isSleep
      = List.replicate (phones.length - 1) (Effect.sleep (customForm.customBlastDelay * 1000)) ∧
    (∀ e, CustomBlast.endpointOf customForm.customBlastType = some e →
      (CustomBlast.runLoop txt ctx customForm r phones outcomes).2
        = (phones.map (fun p => Effect.send e p
            (ctx.customTemplate customForm.customBlastMessage p))).intersperse
            (Effect.sleep (customForm.customBlastDelay * 1000))) ∧
    ((BlastResults.retryRun txt ctx cfg r outcomes).2).filter Effect.isSleep
      = List.replicate (phones.length - 1) (Effect.sleep (cfg.blastDelay * 1000)) ∧
    (∀ e, BlastResults.endpointOf cfg.blastType = some e →
      (BlastResults.retryRun txt ctx cfg r outcomes).2
        = (phones.map (fun p => Effect.send e p (personalizedMessage ctx cfg p))).intersperse
            (Effect.sleep (cfg.blastDelay * 1000))) := by
  refine ⟨RegularBlast.runLoop_effects txt ctx form r phones outcomes hlen, ?_, ?_, ?_, ?_, ?_⟩
  · exact dispatchLoop_sleeps_zip
      (fun p => [Effect.send (RegularBlast.endpointOf form.blastType) p
        (ctx.processTemplateForBlast form.blastMessage p)])
      (fun _ => rfl) _ _ _ phones outcomes hlen (fun _ => rfl) r
  · exact dispatchLoop_sleeps_zip _ (CustomBlast.custom_attempt_no_sleep ctx customForm) _ _ _
      phones outcomes hlen (fun _ => rfl) r
  · intro e he
    unfold CustomBlast.runLoop
    rw [CustomBlast.custom_attempt_of_endpoint ctx customForm e he]
    exact dispatchLoop_effects_zip _ _ _ _ phones outcomes hlen (fun _ => rfl) r
  · unfold BlastResults.retryRun
    rw [hr]
    exact dispatchLoop_sleeps_zip _ (BlastResults.retry_attempt_no_sleep ctx cfg) _ _ _
      phones outcomes hlen (fun k => retry_notLast phones.length k) r
  · intro e he
    have := BlastResults.retryRun_effects txt ctx cfg r outcomes e he (by rw [hr]; exact hlen)
    rw [hr] at this
    exact this

/-- C14 for A and B, a resolved and a rejected send, delays of 2 s (plain run and
retry) and 3 s (custom run): one wait, between the two requests. -/
theorem C14_waits_between_sends_witness :
    (RegularBlast.runLoop noText plainContext formAB
        (RegularBlast.handleSubmit noText [] [phoneA, phoneB]
          [SendResult.rejected [], SendResult.rejected []])
        [phoneA, phoneB] [SendResult.resolved 200 false, SendResult.rejected []]).2
      = [Effect.send "/message/send-text".toList phoneA "Halo".toList, Effect.sleep 2000,
          Effect.send "/message/send-text".toList phoneB "Halo".toList] ∧
    ((CustomBlast.runLoop noText plainContext formC
        (RegularBlast.handleSubmit noText [] [phoneA, phoneB]
          [SendResult.rejected [], SendResult.rejected []])
        [phoneA, phoneB] [SendResult.resolved 200 false, SendResult.rejected []]).2).filter
        Effect.isSleep = [Effect.sleep 3000] ∧
    ((BlastResults.retryRun noText plainContext (RegularBlast.configOf formAB)
        (RegularBlast.handleSubmit noText [] [phoneA, phoneB]
          [SendResult.rejected [], SendResult.rejected []])
        [SendResult.resolved 200 false, SendResult.rejected []]).2).filter
        Effect.isSleep = [Effect.sleep 2000] :=
  ⟨(C14_waits_between_sends noText plainContext formAB formC (RegularBlast.configOf formAB)
      (RegularBlast.handleSubmit noText [] [phoneA, phoneB]
        [SendResult.rejected [], SendResult.rejected []])
      [phoneA, phoneB] [SendResult.resolved 200 false, SendResult.rejected []] rfl rfl).1,
   (C14_waits_between_sends noText plainContext formAB formC (RegularBlast.configOf formAB)
      (RegularBlast.handleSubmit noText [] [phoneA, phoneB]
        [SendResult.rejected [], SendResult.rejected []])
      [phoneA, phoneB] [SendResult.resolved 200 false, SendResult.rejected []] rfl rfl).2.2.1,
   (C14_waits_between_sends noText plainContext formAB formC (RegularBlast.configOf formAB)
      (RegularBlast.handleSubmit noText [] [phoneA, phoneB]
        [SendResult.rejected [], SendResult.rejected []])
      [phoneA, phoneB] [SendResult.resolved 200 false, SendResult.rejected []] rfl
      rfl).2.2.2.2.1⟩

theorem targets_of_sends (send : JsString → Effect) (hs : ∀ p, (send p).target = some p)
    (sep : Effect) (hsep : sep.target = none) :
    ∀ phones : List JsString,
      ((phones.map send).intersperse sep).filterMap Effect.target = phones := by
  intro phones
  induction phones with
  | nil => rfl
  | cons p ps ih =>
    cases ps with
    | nil => simp [hs]
    | cons q qs =>
      rw [List.map_cons, List.map_cons, List.intersperse_cons₂, List.filterMap_cons, hs,
        List.filterMap_cons, hsep]
      rw [List.map_cons] at ih
      simp only
      rw [ih]

/-- Every step of the plain loop appends one log entry, for its recipient. -/
theorem RegularBlast.plain_steps_log_ids (txt : LogText) (blastMessage : JsString) :
    ∀ (l : List (JsString × SendResult)) (r : RunResult),
      (l.foldl (fun acc pr => RegularBlast.sendStep txt blastMessage acc pr.1 pr.2) r).logs.map
          (fun e => e.phoneNumber)
        = r.logs.map (fun e => e.phoneNumber) ++ l.map Prod.fst := by
  intro l
  induction l with
  | nil => intro r; simp
  | cons x xs ih =>
    intro r
    obtain ⟨p, res⟩ := x
    rw [List.foldl_cons, ih]
    cases res <;> simp [RegularBlast.sendStep, addMessageLog]

/-- C15: for every recipient list accepted by the checks of `handleSubmit` and
every sequence of as many outcomes, failures included, the plain run sends to
every recipient once, in list order, and appends one log entry per recipient:
the recipients of the send requests and the recipient ids of the log are the
recipient list. -/
theorem C15_failure_never_aborts (txt : LogText) (ctx : Context) (s : AppState)
    (form : RegularBlast.Form) (phones : List JsString) (outcomes : List SendResult)
    (hv : RegularBlast.validate ctx s form = some phones)
    (hlen : outcomes.length = phones.length) :
    ((RegularBlast.handleSubmitEvent txt ctx false s form outcomes).2).filterMap Effect.target
      = phones ∧
    (RegularBlast.handleSubmitEvent txt ctx false s form outcomes).1.blastResults.logs.map
        (fun e => e.phoneNumber) = phones ∧
    (RegularBlast.handleSubmitEvent txt ctx false s form outcomes).1.blastResults.logs.length
      = phones.length := by
  have hev : RegularBlast.handleSubmitEvent txt ctx false s form outcomes
      = (RegularBlast.endRun
          { RegularBlast.storeConfig (RegularBlast.beginRun s phones.length) form with
            blastResults :=
              (RegularBlast.runLoop txt ctx form (resetResults phones.length) phones
                outcomes).1 },
         (RegularBlast.runLoop txt ctx form (resetResults phones.length) phones outcomes).2) := by
    simp [RegularBlast.handleSubmitEvent, hv]
  have hlogs : (RegularBlast.runLoop txt ctx form (resetResults phones.length) phones
      outcomes).1.logs.map (fun e => e.phoneNumber) = phones := by
    unfold RegularBlast.runLoop
    rw [dispatchLoop_state, RegularBlast.plain_steps_log_ids, zip_fst_of_length phones outcomes hlen]
    rfl
  rw [hev]
  refine ⟨?_, hlogs, ?_⟩
  · show ((RegularBlast.runLoop txt ctx form (resetResults phones.length) phones
      outcomes).2).filterMap Effect.target = phones
    rw [RegularBlast.runLoop_effects txt ctx form _ phones outcomes hlen]
    exact targets_of_sends
      (fun p => Effect.send (RegularBlast.endpointOf form.blastType) p
        (ctx.processTemplateForBlast form.blastMessage p))
      (fun _ => rfl) (Effect.sleep (form.blastDelay * 1000)) rfl phones
  · have := congrArg List.length hlogs
    simpa using this

/-- C15 for A and B with a rejected and then a resolved send: both are sent to,
in order, and both are logged. -/
theorem C15_failure_never_aborts_witness :
    ((RegularBlast.handleSubmitEvent noText plainContext false idleState formAB
        [SendResult.rejected [], SendResult.resolved 200 false]).2).filterMap Effect.target
      = [phoneA, phoneB] ∧
    (RegularBlast.handleSubmitEvent noText plainContext false idleState formAB
        [SendResult.rejected [], SendResult.resolved 200 false]).1.blastResults.logs.map
        (fun e => e.phoneNumber) = [phoneA, phoneB] ∧
    (RegularBlast.handleSubmitEvent noText plainContext false idleState formAB
        [SendResult.rejected [], SendResult.resolved 200 false]).1.blastResults.logs.length
      = 2 :=
  C15_failure_never_aborts noText plainContext idleState formAB [phoneA, phoneB]
    [SendResult.rejected [], SendResult.resolved 200 false] (by decide) rfl

/-- C20: a confirmed retry of `BlastResults.js`, for a stored kind that has a
send method and as many outcomes as failed numbers, sends exactly to the numbers
that were in `failedNumbers` when it was called, once each and in that order,
whatever fails meanwhile, with the method of the stored kind, the stored message
through the renderer, and waits of the stored delay between the requests. -/
theorem C20_retry_targets_snapshot (txt : LogText) (ctx : Context) (s : AppState)
    (cfg : BlastConfig) (outcomes : List SendResult) (e : JsString)
    (hcfg : s.lastBlastConfig = some cfg)
    (he : BlastResults.endpointOf cfg.blastType = some e)
    (hlen : outcomes.length = s.blastResults.failedNumbers.length) :
    (BlastResults.retryFailedBlastEvent txt ctx true s outcomes).2
      = (s.blastResults.failedNumbers.map
          (fun p => Effect.send e p (personalizedMessage ctx cfg p))).intersperse
          (Effect.sleep (cfg.blastDelay * 1000)) ∧
    ((BlastResults.retryFailedBlastEvent txt ctx true s outcomes).2).filterMap Effect.target
      = s.blastResults.failedNumbers := by
  have heff : (BlastResults.retryFailedBlastEvent txt ctx true s outcomes).2
      = (s.blastResults.failedNumbers.map
          (fun p => Effect.send e p (personalizedMessage ctx cfg p))).intersperse
          (Effect.sleep (cfg.blastDelay * 1000)) := by
    unfold BlastResults.retryFailedBlastEvent
    rw [hcfg]
    by_cases h0 : s.blastResults.failedNumbers.length = 0
    · have hnil : s.blastResults.failedNumbers = [] := List.length_eq_zero.mp h0
      simp [hnil]
    · simp only [h0, if_false, Bool.not_true, Bool.false_eq_true]
      exact BlastResults.retryRun_effects txt ctx cfg s.blastResults outcomes e he hlen
  refine ⟨heff, ?_⟩
  rw [heff]
  exact targets_of_sends (fun p => Effect.send e p (personalizedMessage ctx cfg p))
    (fun _ => rfl) (Effect.sleep (cfg.blastDelay * 1000)) rfl _

/-- C20 after a plain run over A and B in which both sends were rejected: the
retry sends to A, waits the stored 2 s, and sends to B, also when A fails
again. -/
theorem C20_retry_targets_snapshot_witness :
    (BlastResults.retryFailedBlastEvent noText plainContext true
        (RegularBlast.handleSubmitEvent noText plainContext false idleState formAB
          [SendResult.rejected [], SendResult.rejected []]).1
        [SendResult.rejected [], SendResult.resolved 200 false]).2
      = [Effect.send "/message/send-text".toList phoneA "Halo".toList, Effect.sleep 2000,
          Effect.send "/message/send-text".toList phoneB "Halo".toList] ∧
    ((BlastResults.retryFailedBlastEvent noText plainContext true
        (RegularBlast.handleSubmitEvent noText plainContext false idleState formAB
          [SendResult.rejected [], SendResult.rejected []]).1
        [SendResult.rejected [], SendResult.resolved 200 false]).2).filterMap Effect.target
      = [phoneA, phoneB] :=
  C20_retry_targets_snapshot noText plainContext
    (RegularBlast.handleSubmitEvent noText plainContext false idleState formAB
      [SendResult.rejected [], SendResult.rejected []]).1
    (RegularBlast.configOf formAB) [SendResult.rejected [], SendResult.resolved 200 false]
    "/message/send-text".toList (by decide) (by decide) (by decide)

/-- A time-out of a request to a send URL comes out of `messageAPI` as a
resolved response with `timeout` set. -/
theorem Api.timeout_resolves (fallback url message : JsString)
    (hurl : Api.includes url "/send".toList = true) :
    Api.sendResult fallback
        (Api.responseInterceptor (AxiosResult.failed "ECONNABORTED".toList (some url) message))
      = SendResult.resolved 200 true := by
  have h1 : Api.responseInterceptor
      (AxiosResult.failed "ECONNABORTED".toList (some url) message)
      = AxiosResult.fulfilled 200
          { success := some true, error := none,
            message := some "Request timeout but message may have been sent".toList,
            timeout := true } := by
    show (if _ then _ else _) = _
    rw [if_pos ⟨rfl, hurl⟩]
  rw [h1]
  rfl

/-- Any other failure of the request comes out of `messageAPI` as a rejection. -/
theorem Api.failure_rejects (fallback code message : JsString) (configUrl : Option JsString)
    (h : code ≠ "ECONNABORTED".toList ∨
      (match configUrl with
        | some url => Api.includes url "/send".toList
        | none => false) = false) :
    Api.sendResult fallback (Api.responseInterceptor (AxiosResult.failed code configUrl message))
      = SendResult.rejected message := by
  have h1 : Api.responseInterceptor (AxiosResult.failed code configUrl message)
      = AxiosResult.failed code configUrl message := by
    show (if _ then _ else _) = _
    rcases h with h | h
    · rw [if_neg (fun hc => h hc.1)]
    · rw [if_neg (fun hc => by rw [h] at hc; exact Bool.false_ne_true hc.2)]
  rw [h1]
  rfl

/-- C17 (evaluation of the code): a send request that times out in axios
(`ECONNABORTED` on `/message/send-text`) comes out of `messageAPI.sendText` as a
response with status 200 and `timeout` set; the plain loop logs it as a success
(success 1, no failed number) and the retry of `BlastResults.js` accepts it.  In
`RetryBlast.jsx` the request is made with `fetch` and a 30 s abort timer: a
request that times out is aborted, and the retry logs an error, adds 1 to
`failed` and keeps the recipient in `failedNumbers`. -/
theorem C17_timeout_fails_in_RetryBlast_jsx :
    Api.sendText axiosTimeout = SendResult.resolved 200 true ∧
    RegularBlast.sendStep noText [] (resetResults 1) phoneA (Api.sendText axiosTimeout)
      = { total := 1, success := 1, failed := 0,
          logs := [⟨[], phoneA, Status.success, [], []⟩], failedNumbers := [] } ∧
    BlastResults.retryStep noText [] (failedState false false false).blastResults phoneA
        (Api.sendText axiosTimeout)
      = { total := 1, success := 2, failed := 0,
          logs := [⟨[], phoneA, Status.error, [], []⟩, ⟨[], phoneA, Status.success, [], []⟩],
          failedNumbers := [] } ∧
    RetryBlast.retryStep noText [] (failedState false false false).blastResults phoneA
        (RetryBlast.fetchSend FetchResult.aborted)
      = { total := 1, success := 0, failed := 2,
          logs := [⟨[], phoneA, Status.error, [], []⟩, ⟨[], phoneA, Status.error, [], []⟩],
          failedNumbers := [phoneA] } := by
  decide

/-- Every step of the custom loop appends one log entry, for its recipient. -/
theorem CustomBlast.custom_steps_log_ids (txt : LogText) (form : CustomBlast.Form) :
    ∀ (l : List (JsString × SendResult)) (r : RunResult),
      (l.foldl (fun acc pr => CustomBlast.sendStep txt form acc pr.1 pr.2) r).logs.map
          (fun e => e.phoneNumber)
        = r.logs.map (fun e => e.phoneNumber) ++ l.map Prod.fst := by
  intro l
  induction l with
  | nil => intro r; simp
  | cons x xs ih =>
    intro r
    obtain ⟨p, res⟩ := x
    rw [List.foldl_cons, ih]
    unfold CustomBlast.sendStep
    cases CustomBlast.endpointOf form.customBlastType with
    | none => simp [addMessageLog]
    | some e => cases res <;> simp [RegularBlast.sendStep, addMessageLog]

/-- The steps of a loop that keep `total` leave it as it was. -/
theorem steps_total (step : RunResult → JsString → SendResult → RunResult)
    (hstep : ∀ r p res, (step r p res).total = r.total) :
    ∀ (l : List (JsString × SendResult)) (r : RunResult),
      (l.foldl (fun acc pr => step acc pr.1 pr.2) r).total = r.total := by
  intro l
  induction l with
  | nil => intro r; rfl
  | cons x xs ih =>
    intro r
    rw [List.foldl_cons, ih, hstep]

theorem RegularBlast.plain_sendStep_total (txt : LogText) (blastMessage : JsString) (r : RunResult)
    (p : JsString) (res : SendResult) :
    (RegularBlast.sendStep txt blastMessage r p res).total = r.total := by
  cases res <;> exact addMessageLog_total _ _ _ _ _ _

theorem CustomBlast.custom_sendStep_total (txt : LogText) (form : CustomBlast.Form) (r : RunResult)
    (p : JsString) (res : SendResult) :
    (CustomBlast.sendStep txt form r p res).total = r.total := by
  unfold CustomBlast.sendStep
  cases CustomBlast.endpointOf form.customBlastType with
  | none => exact addMessageLog_total _ _ _ _ _ _
  | some e => exact RegularBlast.plain_sendStep_total _ _ _ _ _

/-- C13 (counterexample): while the plain blast over A and B is in flight (A
sent, B to come), a custom blast to C is accepted; it replaces the shared
`blastResults` and `lastBlastConfig`, and after the plain run's send to B the
results are total 1, success 2, failed 0: the record is that of the custom run,
the send to B is counted in it, and success + failed is not its total 1. -/
theorem C13_custom_blast_replaces_shared_results :
    inFlightState.blastInProgress = true ∧
    inFlightState.blastResults.total = 2 ∧
    CustomBlast.validate plainContext inFlightState formC = some [phoneC] ∧
    (CustomBlast.handleSubmitEvent noText plainContext false inFlightState formC
        [SendResult.resolved 200 false]).1.blastResults ≠ inFlightState.blastResults ∧
    (CustomBlast.handleSubmitEvent noText plainContext false inFlightState formC
        [SendResult.resolved 200 false]).1.lastBlastConfig ≠ inFlightState.lastBlastConfig ∧
    (RegularBlast.endRun
        ((CustomBlast.handleSubmitEvent noText plainContext false inFlightState formC
            [SendResult.resolved 200 false]).1.mapResults
          (fun r => RegularBlast.sendStep (RegularBlast.logText noText plainContext formAB)
            formAB.blastMessage r phoneB (SendResult.resolved 200 false)))).blastResults
      = { total := 1, success := 2, failed := 0,
          logs := [⟨[], phoneC, Status.success, "Promo".toList, []⟩,
            ⟨[], phoneB, Status.success, "Halo".toList, []⟩],
          failedNumbers := [] } := by
  decide

/-- C13 (amended): the two job slots have separate in-progress flags but share
one `blastResults` and one `lastBlastConfig`.  The checks of a handler do not
read the flag of the other slot, so a custom blast started while a plain blast is
Running, or the reverse, is accepted; the accepted run leaves the flag of the
other slot as it was, replaces `lastBlastConfig` by its own configuration and
`blastResults` by its own record: when it ends, `total` is the number of its
recipients and the log holds its recipients only.  The later updates of the run
already in flight go to that record: after the custom blast to C started during
the plain blast over A and B, the send to B ends with total 1 and success 2. -/
theorem C13_slots_share_results (txt : LogText) (ctx : Context) (s : AppState)
    (form : RegularBlast.Form) (customForm : CustomBlast.Form) (phones : List JsString)
    (outcomes : List SendResult) (hlen : outcomes.length = phones.length) :
    (∀ b : Bool, CustomBlast.validate ctx { s with blastInProgress := b } customForm
      = CustomBlast.validate ctx s customForm) ∧
    (∀ b : Bool, RegularBlast.validate ctx { s with customBlastInProgress := b } form
      = RegularBlast.validate ctx s form) ∧
    (CustomBlast.validate ctx s customForm = some phones →
      (CustomBlast.handleSubmitEvent txt ctx false s customForm outcomes).1.blastInProgress
        = s.blastInProgress ∧
      (CustomBlast.handleSubmitEvent txt ctx false s customForm outcomes).1.lastBlastConfig
        = some (CustomBlast.configOf customForm) ∧
      (CustomBlast.handleSubmitEvent txt ctx false s customForm outcomes).1.blastResults.total
        = phones.length ∧
      (CustomBlast.handleSubmitEvent txt ctx false s customForm outcomes).1.blastResults.logs.map
        (fun e => e.phoneNumber) = phones) ∧
    (RegularBlast.validate ctx s form = some phones →
      (RegularBlast.handleSubmitEvent txt ctx false s form outcomes).1.customBlastInProgress
        = s.customBlastInProgress ∧
      (RegularBlast.handleSubmitEvent txt ctx false s form outcomes).1.lastBlastConfig
        = some (RegularBlast.configOf form) ∧
      (RegularBlast.handleSubmitEvent txt ctx false s form outcomes).1.blastResults.total
        = phones.length ∧
      (RegularBlast.handleSubmitEvent txt ctx false s form outcomes).1.blastResults.logs.map
        (fun e => e.phoneNumber) = phones) ∧
    (RegularBlast.endRun
        ((CustomBlast.handleSubmitEvent noText plainContext false inFlightState formC
            [SendResult.resolved 200 false]).1.mapResults
          (fun r => RegularBlast.sendStep (RegularBlast.logText noText plainContext formAB)
            formAB.blastMessage r phoneB (SendResult.resolved 200 false)))).blastResults
      = { total := 1, success := 2, failed := 0,
          logs := [⟨[], phoneC, Status.success, "Promo".toList, []⟩,
            ⟨[], phoneB, Status.success, "Halo".toList, []⟩],
          failedNumbers := [] } := by
  refine ⟨fun b => rfl, fun b => rfl, ?_, ?_, by decide⟩
  · intro hv
    have hev : CustomBlast.handleSubmitEvent txt ctx false s customForm outcomes
        = (CustomBlast.endRun
            { CustomBlast.storeConfig (CustomBlast.beginRun s phones.length) customForm with
              blastResults :=
                (CustomBlast.runLoop txt ctx customForm (resetResults phones.length) phones
                  outcomes).1 },
           (CustomBlast.runLoop txt ctx customForm (resetResults phones.length) phones
              outcomes).2) := by
      simp [CustomBlast.handleSubmitEvent, hv]
    rw [hev]
    refine ⟨rfl, rfl, ?_, ?_⟩
    · show (CustomBlast.runLoop txt ctx customForm (resetResults phones.length) phones
        outcomes).1.total = phones.length
      unfold CustomBlast.runLoop
      rw [dispatchLoop_state, steps_total _ (CustomBlast.custom_sendStep_total _ customForm)]
      rfl
    · show (CustomBlast.runLoop txt ctx customForm (resetResults phones.length) phones
        outcomes).1.logs.map (fun e => e.phoneNumber) = phones
      unfold CustomBlast.runLoop
      rw [dispatchLoop_state, CustomBlast.custom_steps_log_ids,
        zip_fst_of_length phones outcomes hlen]
      rfl
  · intro hv
    have hev : RegularBlast.handleSubmitEvent txt ctx false s form outcomes
        = (RegularBlast.endRun
            { RegularBlast.storeConfig (RegularBlast.beginRun s phones.length) form with
              blastResults :=
                (RegularBlast.runLoop txt ctx form (resetResults phones.length) phones
                  outcomes).1 },
           (RegularBlast.runLoop txt ctx form (resetResults phones.length) phones
              outcomes).2) := by
      simp [RegularBlast.handleSubmitEvent, hv]
    rw [hev]
    refine ⟨rfl, rfl, ?_, ?_⟩
    · show (RegularBlast.runLoop txt ctx form (resetResults phones.length) phones
        outcomes).1.total = phones.length
      unfold RegularBlast.runLoop
      rw [dispatchLoop_state, steps_total _ (RegularBlast.plain_sendStep_total _ form.blastMessage)]
      rfl
    · show (RegularBlast.runLoop txt ctx form (resetResults phones.length) phones
        outcomes).1.logs.map (fun e => e.phoneNumber) = phones
      unfold RegularBlast.runLoop
      rw [dispatchLoop_state, RegularBlast.plain_steps_log_ids,
        zip_fst_of_length phones outcomes hlen]
      rfl

/-- C13 at the plain blast in flight over A and B: the custom blast to C is
accepted, keeps `blastInProgress` set, stores its own configuration and leaves a
record of total 1 whose log holds C only; and a plain blast started while that
custom blast is Running does the same to it. -/
theorem C13_slots_share_results_witness :
    ((CustomBlast.handleSubmitEvent noText plainContext false inFlightState formC
        [SendResult.resolved 200 false]).1.blastInProgress = inFlightState.blastInProgress ∧
      (CustomBlast.handleSubmitEvent noText plainContext false inFlightState formC
        [SendResult.resolved 200 false]).1.lastBlastConfig = some (CustomBlast.configOf formC) ∧
      (CustomBlast.handleSubmitEvent noText plainContext false inFlightState formC
        [SendResult.resolved 200 false]).1.blastResults.total = ([phoneC].length : Int) ∧
      (CustomBlast.handleSubmitEvent noText plainContext false inFlightState formC
        [SendResult.resolved 200 false]).1.blastResults.logs.map (fun e => e.phoneNumber)
        = [phoneC]) ∧
    ((RegularBlast.handleSubmitEvent noText plainContext false
        (CustomBlast.beginRun idleState 1) formAB
        [SendResult.resolved 200 false, SendResult.resolved 200 false]).1.customBlastInProgress
        = true ∧
      (RegularBlast.handleSubmitEvent noText plainContext false
        (CustomBlast.beginRun idleState 1) formAB
        [SendResult.resolved 200 false, SendResult.resolved 200 false]).1.blastResults.total
        = 2) :=
  ⟨(C13_slots_share_results noText plainContext inFlightState formAB formC [phoneC]
      [SendResult.resolved 200 false] rfl).2.2.1 (by decide),
   ⟨((C13_slots_share_results noText plainContext (CustomBlast.beginRun idleState 1) formAB
      formC [phoneA, phoneB] [SendResult.resolved 200 false, SendResult.resolved 200 false]
      rfl).2.2.2.1 (by decide)).1,
    ((C13_slots_share_results noText plainContext (CustomBlast.beginRun idleState 1) formAB
      formC [phoneA, phoneB] [SendResult.resolved 200 false, SendResult.resolved 200 false]
      rfl).2.2.2.1 (by decide)).2.2.1⟩⟩

/-! ## Theorems: completion notifier -/

theorem Notifier.observe_raised (k : Notifier) (last : Option JsString) (o : Observation) :
    (k.observe last o).2 = true ↔
      (0 < o.blastResults.total ∧
        o.blastResults.success + o.blastResults.failed = o.blastResults.total ∧
        k.inProgress o = false) ∧ last ≠ some (blastId o.blastResults) := by
  unfold Notifier.observe
  by_cases h1 : o.blastResults.total > 0 ∧
      o.blastResults.success + o.blastResults.failed = o.blastResults.total ∧
      k.inProgress o = false
  · by_cases h2 : last = some (blastId o.blastResults)
    · simp [h1, h2]
    · simp [h1, h2]
  · have h1b : ¬ (0 < o.blastResults.total ∧
        o.blastResults.success + o.blastResults.failed = o.blastResults.total ∧
        k.inProgress o = false) := h1
    simp only [h1, if_false, h1b, false_and]
    simp

theorem Notifier.observe_last (k : Notifier) (last : Option JsString) (o : Observation) :
    (k.observe last o).1
      = if (k.observe last o).2 = true then some (blastId o.blastResults) else last := by
  unfold Notifier.observe
  by_cases h1 : o.blastResults.total > 0 ∧
      o.blastResults.success + o.blastResults.failed = o.blastResults.total ∧
      k.inProgress o = false
  · by_cases h2 : last = some (blastId o.blastResults)
    · simp [h1, h2]
    · simp [h1, h2]
  · simp only [h1, if_false]
    simp

theorem Notifier.events_cons (k : Notifier) (last : Option JsString) (o : Observation)
    (rest : List Observation) :
    Notifier.events k last (o :: rest)
      = if (k.observe last o).2 = true then o :: Notifier.events k (k.observe last o).1 rest
        else Notifier.events k (k.observe last o).1 rest := rfl

/-- The event is raised only at observations of the sequence that are terminal
and at which the flags read by the notifier are clear. -/
theorem Notifier.events_sound (k : Notifier) :
    ∀ (obs : List Observation) (last : Option JsString), ∀ o ∈ Notifier.events k last obs,
      o ∈ obs ∧ o.blastResults.Terminal ∧ k.inProgress o = false := by
  intro obs
  induction obs with
  | nil => intro last o h; simp [Notifier.events] at h
  | cons a rest ih =>
    intro last o h
    rw [Notifier.events_cons] at h
    by_cases hr : (k.observe last a).2 = true
    · rw [if_pos hr] at h
      rcases List.mem_cons.mp h with rfl | h
      · exact ⟨List.mem_cons_self _ _, ⟨((Notifier.observe_raised k last o).mp hr).1.1,
          ((Notifier.observe_raised k last o).mp hr).1.2.1⟩,
          ((Notifier.observe_raised k last o).mp hr).1.2.2⟩
      · exact ⟨List.mem_cons_of_mem _ (ih _ o h).1, (ih _ o h).2⟩
    · rw [if_neg hr] at h
      exact ⟨List.mem_cons_of_mem _ (ih _ o h).1, (ih _ o h).2⟩

/-- Two events raised in a row never carry the same signature string, and the
first event does not carry the remembered one. -/
theorem Notifier.events_chain (k : Notifier) :
    ∀ (obs : List Observation) (last : Option JsString),
      (∀ e ∈ (Notifier.events k last obs).head?, last ≠ some (blastId e.blastResults)) ∧
      List.Chain' (fun a b => blastId a.blastResults ≠ blastId b.blastResults)
        (Notifier.events k last obs) := by
  intro obs
  induction obs with
  | nil => intro last; simp [Notifier.events]
  | cons a rest ih =>
    intro last
    rw [Notifier.events_cons]
    by_cases hr : (k.observe last a).2 = true
    · rw [if_pos hr]
      have hl := Notifier.observe_last k last a
      rw [if_pos hr] at hl
      rw [hl]
      refine ⟨?_, ?_⟩
      · intro e he
        simp only [List.head?_cons, Option.mem_def, Option.some.injEq] at he
        subst he
        exact ((Notifier.observe_raised k last a).mp hr).2
      · rw [List.chain'_cons']
        refine ⟨?_, (ih _).2⟩
        intro e he heq
        exact (ih (some (blastId a.blastResults))).1 e he (by rw [heq])
    · rw [if_neg hr]
      have hl := Notifier.observe_last k last a
      rw [if_neg hr] at hl
      rw [hl]
      exact ih last

/-- Every terminal result observed while the notifier's flags are clear has its
signature string remembered or signalled. -/
theorem Notifier.events_complete (k : Notifier) :
    ∀ (obs : List Observation) (last : Option JsString), ∀ o ∈ obs,
      o.blastResults.Terminal → k.inProgress o = false →
      last = some (blastId o.blastResults) ∨
        ∃ e ∈ Notifier.events k last obs, blastId e.blastResults = blastId o.blastResults := by
  intro obs
  induction obs with
  | nil => intro last o h; simp at h
  | cons a rest ih =>
    intro last o ho hterm hidle
    rw [Notifier.events_cons]
    have hl := Notifier.observe_last k last a
    by_cases hr : (k.observe last a).2 = true
    · rw [if_pos hr] at hl ⊢
      rcases List.mem_cons.mp ho with rfl | ho
      · exact Or.inr ⟨o, List.mem_cons_self _ _, rfl⟩
      · rcases ih (k.observe last a).1 o ho hterm hidle with h | ⟨e, he, hid⟩
        · rw [hl] at h
          exact Or.inr ⟨a, List.mem_cons_self _ _, (Option.some.inj h)⟩
        · exact Or.inr ⟨e, List.mem_cons_of_mem _ he, hid⟩
    · rw [if_neg hr] at hl ⊢
      rcases List.mem_cons.mp ho with rfl | ho
      · by_cases hlast : last = some (blastId o.blastResults)
        · exact Or.inl hlast
        · exact absurd ((Notifier.observe_raised k last o).mpr
            ⟨⟨hterm.1, hterm.2, hidle⟩, hlast⟩) hr
      · rcases ih (k.observe last a).1 o ho hterm hidle with h | ⟨e, he, hid⟩
        · rw [hl] at h
          exact Or.inl h
        · exact Or.inr ⟨e, he, hid⟩

/-- Observations that are not terminal, or made while the notifier's flags are
set, raise nothing and leave `lastCompletedBlast` as it is. -/
theorem Notifier.events_quiet (k : Notifier) :
    ∀ (run rest : List Observation) (last : Option JsString),
      (∀ m ∈ run, k.inProgress m = true ∨ ¬ m.blastResults.Terminal) →
      Notifier.events k last (run ++ rest) = Notifier.events k last rest ∧
      Notifier.lastAfter k last run = last := by
  intro run
  induction run with
  | nil => intro rest last _; exact ⟨rfl, rfl⟩
  | cons a tl ih =>
    intro rest last h
    have hr : ¬ (k.observe last a).2 = true := by
      intro hr
      have := (Notifier.observe_raised k last a).mp hr
      rcases h a (List.mem_cons_self _ _) with h1 | h1
      · rw [this.1.2.2] at h1
        exact Bool.false_ne_true h1
      · exact h1 ⟨this.1.1, this.1.2.1⟩
    have hl := Notifier.observe_last k last a
    rw [if_neg hr] at hl
    rw [List.cons_append, Notifier.events_cons, if_neg hr, Notifier.lastAfter, hl]
    exact ih rest last (fun m hm => h m (List.mem_cons_of_mem _ hm))

theorem blastId_of_signature (r1 r2 : RunResult) (h : r1.signature = r2.signature) :
    blastId r1 = blastId r2 := by
  unfold RunResult.signature at h
  simp only [Prod.mk.injEq] at h
  unfold blastId
  rw [h.1, h.2.1, h.2.2]

/-- A terminal result observed any number of times in a row, the notifier's
flags being clear, is signalled once. -/
theorem Notifier.events_replicate (k : Notifier) (o : Observation)
    (hterm : o.blastResults.Terminal) (hidle : k.inProgress o = false) :
    ∀ n : Nat, Notifier.events k (some (blastId o.blastResults)) (List.replicate n o) = [] ∧
      Notifier.events k none (List.replicate (n + 1) o) = [o] := by
  have hq : (k.observe (some (blastId o.blastResults)) o).2 ≠ true := by
    intro hr
    exact ((Notifier.observe_raised k _ o).mp hr).2 rfl
  have h0 : ∀ n : Nat,
      Notifier.events k (some (blastId o.blastResults)) (List.replicate n o) = [] := by
    intro n
    induction n with
    | zero => rfl
    | succ n ih =>
      have hl := Notifier.observe_last k (some (blastId o.blastResults)) o
      rw [if_neg hq] at hl
      rw [List.replicate_succ, Notifier.events_cons, if_neg hq, hl]
      exact ih
  intro n
  refine ⟨h0 n, ?_⟩
  have hr : (k.observe none o).2 = true :=
    (Notifier.observe_raised k none o).mpr ⟨⟨hterm.1, hterm.2, hidle⟩, by simp⟩
  have hl := Notifier.observe_last k none o
  rw [if_pos hr] at hl
  rw [List.replicate_succ, Notifier.events_cons, if_pos hr, hl, h0 n]

/-! ## Theorems: the signature string determines the signature -/

theorem digitChar_spec (m : Nat) (h : m < 10) :
    (Nat.digitChar m).toNat - 48 = m ∧ Helpers.isDigit (Nat.digitChar m) = true := by
  interval_cases m <;> decide

theorem digitsValue_append (a : JsString) (c : Char) :
    digitsValue (a ++ [c]) = 10 * digitsValue a + (c.toNat - 48) := by
  unfold digitsValue
  rw [List.foldl_append]
  rfl

/-- The digits written by `Nat.toDigitsCore`: a non-empty text of decimal digits
whose value is the number, put before the digits already written. -/
theorem toDigitsCore_spec : ∀ (fuel n : Nat) (ds : List Char), n < fuel →
    ∃ pre, Nat.toDigitsCore 10 fuel n ds = pre ++ ds ∧ pre ≠ [] ∧
      (∀ c ∈ pre, Helpers.isDigit c = true) ∧ digitsValue pre = n := by
  intro fuel
  induction fuel with
  | zero => intro n ds h; exact absurd h (Nat.not_lt_zero _)
  | succ fuel ih =>
    intro n ds h
    have hd := digitChar_spec (n % 10) (Nat.mod_lt _ (by decide))
    by_cases h0 : n / 10 = 0
    · refine ⟨[Nat.digitChar (n % 10)], ?_, by simp, ?_, ?_⟩
      · simp [Nat.toDigitsCore, h0]
      · intro c hc
        rw [List.mem_singleton.mp hc]
        exact hd.2
      · have : digitsValue [Nat.digitChar (n % 10)] = (Nat.digitChar (n % 10)).toNat - 48 := by
          simp [digitsValue]
        rw [this, hd.1]
        omega
    · have hlt : n / 10 < fuel := by omega
      obtain ⟨pre, he, _, hdig, hval⟩ := ih (n / 10) (Nat.digitChar (n % 10) :: ds) hlt
      refine ⟨pre ++ [Nat.digitChar (n % 10)], ?_, by simp, ?_, ?_⟩
      · simp [Nat.toDigitsCore, h0, he]
      · intro c hc
        rcases List.mem_append.mp hc with hc | hc
        · exact hdig c hc
        · rw [List.mem_singleton.mp hc]
          exact hd.2
      · rw [digitsValue_append, hval, hd.1]
        omega

theorem toDigits_spec (n : Nat) :
    Nat.toDigits 10 n ≠ [] ∧ (∀ c ∈ Nat.toDigits 10 n, Helpers.isDigit c = true) ∧
      digitsValue (Nat.toDigits 10 n) = n := by
  obtain ⟨pre, he, hne, hdig, hval⟩ := toDigitsCore_spec (n + 1) n [] (Nat.lt_succ_self n)
  have : Nat.toDigits 10 n = pre := by
    unfold Nat.toDigits
    rw [he, List.append_nil]
  rw [this]
  exact ⟨hne, hdig, hval⟩

/-- The leading digits of a text of digits followed by a minus sign are those
digits. -/
theorem takeWhile_digits (ds rest : JsString) (h : ∀ c ∈ ds, Helpers.isDigit c = true) :
    (ds ++ '-' :: rest).takeWhile Helpers.isDigit = ds := by
  induction ds with
  | nil => rfl
  | cons d t ih =>
    rw [List.cons_append, List.takeWhile_cons, h d (List.mem_cons_self _ _)]
    simp only [if_true]
    rw [ih (fun c hc => h c (List.mem_cons_of_mem _ hc))]

theorem numberToString_shape (n : Int) :
    ∃ (sign ds : JsString), numberToString n = sign ++ ds ∧ (sign = [] ∨ sign = [ '-']) ∧
      ds ≠ [] ∧ (∀ c ∈ ds, Helpers.isDigit c = true) ∧
      n = (if sign = [] then (digitsValue ds : Int) else - (digitsValue ds : Int)) := by
  cases n with
  | ofNat m =>
    obtain ⟨h1, h2, h3⟩ := toDigits_spec m
    exact ⟨[], Nat.toDigits 10 m, rfl, Or.inl rfl, h1, h2, by simp [h3]⟩
  | negSucc m =>
    obtain ⟨h1, h2, h3⟩ := toDigits_spec (m + 1)
    refine ⟨[ '-'], Nat.toDigits 10 (m + 1), rfl, Or.inr rfl, h1, h2, ?_⟩
    simp [h3, Int.negSucc_eq]

/-- A numeral followed by a minus sign is read back from the text. -/
theorem numeral_split (sign ds sign2 ds2 rest rest2 : JsString)
    (hs : sign = [] ∨ sign = [ '-']) (hs2 : sign2 = [] ∨ sign2 = [ '-'])
    (hne : ds ≠ []) (hne2 : ds2 ≠ [])
    (hd : ∀ c ∈ ds, Helpers.isDigit c = true) (hd2 : ∀ c ∈ ds2, Helpers.isDigit c = true)
    (h : (sign ++ ds) ++ '-' :: rest = (sign2 ++ ds2) ++ '-' :: rest2) :
    sign = sign2 ∧ ds = ds2 ∧ rest = rest2 := by
  have hhead : ∀ (x : JsString), x ≠ [] → (∀ c ∈ x, Helpers.isDigit c = true) →
      ∀ y, x ++ y ≠ '-' :: (ds ++ '-' :: rest) ∧ x ++ y ≠ '-' :: (ds2 ++ '-' :: rest2) := by
    intro x hx hxd y
    cases x with
    | nil => exact absurd rfl hx
    | cons c t =>
      have hc := hxd c (List.mem_cons_self _ _)
      have hcne : c ≠ '-' := by
        intro hh
        rw [hh] at hc
        exact absurd hc (by decide)
      constructor <;> intro hh <;> exact hcne (List.cons.inj hh).1
  have key : ∀ (a b r r2 : JsString), (∀ c ∈ a, Helpers.isDigit c = true) →
      (∀ c ∈ b, Helpers.isDigit c = true) → a ++ '-' :: r = b ++ '-' :: r2 → a = b ∧ r = r2 := by
    intro a b r r2 ha hb hab
    have e1 := takeWhile_digits a r ha
    have e2 := takeWhile_digits b r2 hb
    rw [hab, e2] at e1
    subst e1
    exact ⟨rfl, List.cons.inj (List.append_cancel_left hab) |>.2⟩
  rcases hs with rfl | rfl <;> rcases hs2 with rfl | rfl
  · simp only [List.nil_append] at h
    obtain ⟨h1, h2⟩ := key ds ds2 rest rest2 hd hd2 h
    exact ⟨rfl, h1, h2⟩
  · simp only [List.nil_append, List.cons_append, List.append_assoc] at h
    exact absurd h (hhead ds hne hd _).2
  · simp only [List.nil_append, List.cons_append, List.append_assoc] at h
    exact absurd h.symm (hhead ds2 hne2 hd2 _).1
  · simp only [List.cons_append, List.nil_append, List.cons.injEq, true_and] at h
    obtain ⟨h1, h2⟩ := key ds ds2 rest rest2 hd hd2 h
    exact ⟨rfl, h1, h2⟩

theorem numberToString_split (a b : Int) (rest rest2 : JsString)
    (h : numberToString a ++ '-' :: rest = numberToString b ++ '-' :: rest2) :
    a = b ∧ rest = rest2 := by
  obtain ⟨s1, d1, e1, hs1, hn1, hd1, hv1⟩ := numberToString_shape a
  obtain ⟨s2, d2, e2, hs2, hn2, hd2, hv2⟩ := numberToString_shape b
  rw [e1, e2] at h
  obtain ⟨h1, h2, h3⟩ := numeral_split s1 d1 s2 d2 rest rest2 hs1 hs2 hn1 hn2 hd1 hd2 h
  subst h1 h2
  exact ⟨hv1.trans hv2.symm, h3⟩

theorem numberToString_injective (a b : Int) (h : numberToString a = numberToString b) :
    a = b :=
  (numberToString_split a b [] [] (by rw [h])).1

/-- Two results have the same signature string exactly when they have the same
signature (total, success, failed). -/
theorem blastId_eq_iff (r1 r2 : RunResult) :
    blastId r1 = blastId r2 ↔ r1.signature = r2.signature := by
  constructor
  · intro h
    unfold blastId at h
    rw [List.append_assoc, List.append_assoc] at h
    obtain ⟨h1, h2⟩ := numberToString_split _ _ _ _ h
    obtain ⟨h3, h4⟩ := numberToString_split r1.success r2.success _ _ h2
    have h5 := numberToString_injective _ _ h4
    unfold RunResult.signature
    rw [h1, h3, h5]
  · exact blastId_of_signature r1 r2

/-- C21 (counterexample): in the sequence `threeRuns` (a run of two recipients,
a run of three, a run of two, all delivered) the terminal signature (2, 2, 0) is
observed while no run is in progress and the completion event is raised twice
for it, not once, by the notifier of `BlastResults.js` and by the notifier of
`RegularBlast.js`. -/
theorem C21_signature_signalled_twice :
    (Notifier.events Notifier.blastResults none threeRuns).map
        (fun o => o.blastResults.signature) = [(2, 2, 0), (3, 3, 0), (2, 2, 0)] ∧
    (Notifier.events Notifier.regularBlast none threeRuns).map
        (fun o => o.blastResults.signature) = [(2, 2, 0), (3, 3, 0), (2, 2, 0)] ∧
    ((Notifier.events Notifier.blastResults none threeRuns).map
        (fun o => o.blastResults.signature)).count (2, 2, 0) = 2 ∧
    ((Notifier.events Notifier.regularBlast none threeRuns).map
        (fun o => o.blastResults.signature)).count (2, 2, 0) = 2 := by
  decide

/-- C21 (amended): for every sequence of observations made by a notifier that
starts with `lastCompletedBlast = null`: the completion event is raised only at
observations of a terminal result (total > 0 and success + failed = total) made
while the in-progress flags that the notifier reads are clear; two events raised
in a row never carry the same signature (total, success, failed); every
terminal result observed while the flags are clear has had its signature
signalled by then; and a terminal result observed any number of times in a row
is signalled once. -/
theorem C21_notifier_trace (k : Notifier) (obs : List Observation) :
    (∀ o ∈ Notifier.events k none obs,
      o ∈ obs ∧ o.blastResults.Terminal ∧ k.inProgress o = false) ∧
    List.Chain' (fun a b => a.blastResults.signature ≠ b.blastResults.signature)
      (Notifier.events k none obs) ∧
    (∀ (pre post : List Observation) (o : Observation), obs = pre ++ o :: post →
      o.blastResults.Terminal → k.inProgress o = false →
      ∃ e ∈ Notifier.events k none (pre ++ [o]),
        e.blastResults.signature = o.blastResults.signature) ∧
    (∀ (o : Observation) (n : Nat), o.blastResults.Terminal → k.inProgress o = false →
      Notifier.events k none (List.replicate (n + 1) o) = [o]) := by
  refine ⟨Notifier.events_sound k obs none, ?_, ?_, ?_⟩
  · exact List.Chain'.imp
      (fun a b hab hsig => hab (blastId_of_signature _ _ hsig))
      (Notifier.events_chain k obs none).2
  · intro pre post o _ hterm hidle
    rcases Notifier.events_complete k (pre ++ [o]) none o (by simp) hterm hidle with h | h
    · exact absurd h (by simp)
    · obtain ⟨e, he, hid⟩ := h
      exact ⟨e, he, (blastId_eq_iff _ _).mp hid⟩
  · intro o n hterm hidle
    exact (Notifier.events_replicate k o hterm hidle n).2

/-- C21 (amended) at the sequence `threeRuns` and the notifier of
`RegularBlast.js`: when the second run of two recipients is observed complete,
its signature has been signalled. -/
theorem C21_notifier_trace_witness :
    ∃ e ∈ Notifier.events Notifier.regularBlast none (threeRuns.take 13 ++ [idleObs 2 2 0]),
      e.blastResults.signature = (idleObs 2 2 0).blastResults.signature :=
  (C21_notifier_trace Notifier.regularBlast threeRuns).2.2.1 (threeRuns.take 13)
    [idleObs 2 2 0] (idleObs 2 2 0) (by decide) (by decide) rfl

/-- C30: at every observation a notifier raises the completion event exactly
when total > 0, success + failed = total, the in-progress flags it reads are
clear (`BlastResults.js`: both flags; `RegularBlast.js`: `blastInProgress`;
`CustomBlast.js`: `customBlastInProgress`) and the string `total-success-failed`
differs from `lastCompletedBlast`; `lastCompletedBlast` becomes that string when
the event is raised and is otherwise kept, so it is not cleared when a run
starts.  Hence, after an event for a result `r`, a run (observations that are
in progress or not terminal) that ends with the counters of `r` raises no event;
and in the sequence (2,2,0), (3,3,0), (2,2,0) the signature (2,2,0) is signalled
twice.  Two results have the same string exactly when they have the same
(total, success, failed). -/
theorem C30_notifier_remembers_last (k : Notifier) (last : Option JsString) (o : Observation) :
    ((k.observe last o).2 = true ↔
      0 < o.blastResults.total ∧
      o.blastResults.success + o.blastResults.failed = o.blastResults.total ∧
      k.inProgress o = false ∧ last ≠ some (blastId o.blastResults)) ∧
    (∀ r : RunResult, blastId r = blastId o.blastResults ↔
      r.signature = o.blastResults.signature) ∧
    (k.observe last o).1
      = (if (k.observe last o).2 = true then some (blastId o.blastResults) else last) ∧
    (∀ (r : RunResult) (run : List Observation), last = some (blastId r) →
      (∀ m ∈ run, k.inProgress m = true ∨ ¬ m.blastResults.Terminal) →
      o.blastResults.signature = r.signature →
      Notifier.events k last (run ++ [o]) = [] ∧
      Notifier.lastAfter k last (run ++ [o]) = last) ∧
    Notifier.events k none [idleObs 2 2 0, idleObs 3 3 0, idleObs 2 2 0]
      = [idleObs 2 2 0, idleObs 3 3 0, idleObs 2 2 0] := by
  refine ⟨?_, fun r => blastId_eq_iff r o.blastResults, Notifier.observe_last k last o, ?_, ?_⟩
  · rw [Notifier.observe_raised]
    constructor
    · rintro ⟨⟨a, b, c⟩, d⟩
      exact ⟨a, b, c, d⟩
    · rintro ⟨a, b, c, d⟩
      exact ⟨⟨a, b, c⟩, d⟩
  · intro r run hlast hrun hsig
    have hq := Notifier.events_quiet k run [o] last hrun
    have hid : blastId o.blastResults = blastId r := blastId_of_signature _ _ hsig
    have hno : ¬ (k.observe last o).2 = true := by
      intro hr
      exact ((Notifier.observe_raised k last o).mp hr).2 (by rw [hlast, hid])
    have hl := Notifier.observe_last k last o
    rw [if_neg hno] at hl
    refine ⟨?_, ?_⟩
    · rw [hq.1, Notifier.events_cons, if_neg hno]
      rfl
    · have : ∀ (run : List Observation) (l0 : Option JsString),
          Notifier.lastAfter k l0 (run ++ [o])
            = (k.observe (Notifier.lastAfter k l0 run) o).1 := by
        intro run
        induction run with
        | nil => intro l0; rfl
        | cons a tl ih => intro l0; exact ih _
      rw [this, hq.2, hl]
  · cases k <;> decide

/-- C30 at the notifier of `CustomBlast.js`: after the event for a run of two
recipients, both delivered, a second such run raises no event. -/
theorem C30_notifier_remembers_last_witness :
    Notifier.events Notifier.customBlast (some (blastId (idleObs 2 2 0).blastResults))
        ([idleObs 2 0 0, idleObs 2 1 0] ++ [idleObs 2 2 0]) = [] ∧
    Notifier.lastAfter Notifier.customBlast (some (blastId (idleObs 2 2 0).blastResults))
        ([idleObs 2 0 0, idleObs 2 1 0] ++ [idleObs 2 2 0])
      = some (blastId (idleObs 2 2 0).blastResults) :=
  (C30_notifier_remembers_last Notifier.customBlast
    (some (blastId (idleObs 2 2 0).blastResults)) (idleObs 2 2 0)).2.2.2.1
    (idleObs 2 2 0).blastResults [idleObs 2 0 0, idleObs 2 1 0] rfl (by decide) rfl

/-! ## Theorems: replacement of every occurrence, fallback defaults, retry policy -/

theorem joinWith_cons (sep t : JsString) (rest : List JsString) (h : rest ≠ []) :
    joinWith sep (t :: rest) = t ++ sep ++ joinWith sep rest := by
  cases rest with
  | nil => exact absurd rfl h
  | cons u us => rfl

theorem joinWith_cons_char (sep : JsString) (c : Char) (t : JsString) (rest : List JsString) :
    joinWith sep ((c :: t) :: rest) = c :: joinWith sep (t :: rest) := by
  cases rest with
  | nil => rfl
  | cons u us => rfl

theorem joinWith_head_prefix (sep t : JsString) (rest : List JsString) :
    t <+: joinWith sep (t :: rest) := by
  cases rest with
  | nil => exact List.prefix_refl _
  | cons u us =>
    show t <+: t ++ sep ++ joinWith sep (u :: us)
    rw [List.append_assoc]
    exact List.prefix_append _ _

theorem Regex.matchesAt_exact_iff : ∀ (pat s : JsString),
    Regex.matchesAt false pat s = true ↔ pat <+: s := by
  intro pat
  induction pat with
  | nil => intro s; simp [Regex.matchesAt]
  | cons p ps ih =>
    intro s
    cases s with
    | nil => simp [Regex.matchesAt]
    | cons c cs =>
      simp only [Regex.matchesAt, Regex.charMatch, Bool.false_eq_true, if_false,
        Bool.and_eq_true, beq_iff_eq, ih, List.cons_prefix_cons]

/-- The scanner of `replace` with an exact pattern and a replacement text
without `$` replaces every occurrence of the pattern. -/
theorem Regex.replaceGo_replacedEvery (pat repl : JsString) (hpat : pat ≠ [])
    (hrepl : '$' ∉ repl) :
    ∀ (n : Nat) (s : JsString), s.length ≤ n → ∀ before : JsString,
      ReplacedEvery pat repl s (Regex.replaceGo false pat repl 0 before s) := by
  intro n
  induction n with
  | zero =>
    intro s hs before
    have : s = [] := List.length_eq_zero.mp (Nat.le_zero.mp hs)
    subst this
    refine ⟨[[]], by simp, rfl, ?_, rfl⟩
    intro t ht hin
    rw [List.mem_singleton.mp ht] at hin
    exact hpat (List.eq_nil_of_infix_nil hin)
  | succ n ih =>
    intro s hs before
    cases s with
    | nil =>
      refine ⟨[[]], by simp, rfl, ?_, rfl⟩
      intro t ht hin
      rw [List.mem_singleton.mp ht] at hin
      exact hpat (List.eq_nil_of_infix_nil hin)
    | cons c cs =>
      rw [Regex.replaceGo]
      by_cases hm : Regex.matchesAt false pat (c :: cs) = true
      · rw [if_pos hm, Regex.getSubstitution_plain _ _ _ repl hrepl]
        obtain ⟨rest, hrest⟩ := (Regex.matchesAt_exact_iff pat (c :: cs)).mp hm
        cases pat with
        | nil => exact absurd rfl hpat
        | cons p ps =>
          rw [List.cons_append] at hrest
          obtain ⟨hpc, hcs⟩ := List.cons.inj hrest
          subst hpc
          have hlen : (p :: ps).length - 1 = ps.length := by simp
          rw [hlen, ← hcs, Regex.replaceGo_skip]
          have hrl : rest.length ≤ n := by
            have : (p :: cs).length ≤ n + 1 := hs
            rw [← hcs] at this
            simp only [List.length_cons, List.length_append] at this
            omega
          obtain ⟨pieces, hne, hs2, hfree, hout⟩ := ih rest hrl (before ++ [p] ++ ps)
          refine ⟨[] :: pieces, by simp, ?_, ?_, ?_⟩
          · rw [joinWith_cons _ _ _ hne, ← hs2]
            simp
          · intro t ht
            rcases List.mem_cons.mp ht with rfl | ht
            · intro hin
              exact absurd (List.eq_nil_of_infix_nil hin) (by simp)
            · exact hfree t ht
          · rw [joinWith_cons _ _ _ hne, ← hout]
            simp
      · rw [if_neg hm]
        have hrl : cs.length ≤ n := by
          have : (c :: cs).length ≤ n + 1 := hs
          simp only [List.length_cons] at this
          omega
        obtain ⟨pieces, hne, hs2, hfree, hout⟩ := ih cs hrl (before ++ [c])
        cases pieces with
        | nil => exact absurd rfl hne
        | cons t ts =>
          refine ⟨(c :: t) :: ts, by simp, ?_, ?_, ?_⟩
          · rw [joinWith_cons_char, ← hs2]
          · intro u hu
            rcases List.mem_cons.mp hu with rfl | hu
            · intro hin
              rcases List.infix_cons_iff.mp hin with h1 | h1
              · apply hm
                rw [Regex.matchesAt_exact_iff]
                have h2 : (c :: t) <+: c :: cs := by
                  rw [hs2, ← joinWith_cons_char]
                  exact joinWith_head_prefix _ _ _
                exact h1.trans h2
              · exact hfree t (List.mem_cons_self _ _) h1
            · exact hfree u (List.mem_cons_of_mem _ hu)
          · rw [joinWith_cons_char, ← hout]

theorem Regex.replacePlaceholder_replacedEvery (name : String) (repl s : JsString)
    (hrepl : '$' ∉ repl) :
    ReplacedEvery (Regex.placeholder name.toList) repl s
      (Regex.replacePlaceholder false name repl s) :=
  Regex.replaceGo_replacedEvery _ repl (by simp [Regex.placeholder]) hrepl s.length s
    (Nat.le_refl _) []

/-- Two texts without the pattern, each followed by nothing or by the pattern,
that give the same text: the second is not longer than the first. -/
theorem piece_not_longer (pat : JsString)
    (hb : ∀ d, 0 < d → d < pat.length → ¬ pat.drop d <+: pat)
    (t a X Y : JsString) (hu : ¬ pat <:+: t ++ a)
    (hX : X = [] ∨ ∃ J, X = pat ++ J) (hY : Y = [] ∨ ∃ J, Y = pat ++ J)
    (h : X = a ++ Y) : a = [] := by
  by_contra ha
  rcases hX with hX | ⟨J, hX⟩
  · rw [hX] at h
    exact ha (List.append_eq_nil.mp h.symm).1
  · rw [hX] at h
    rcases List.append_eq_append_iff.mp h with ⟨b, hab, _⟩ | ⟨b, hpb, hYb⟩
    · exact hu ⟨t, b, by rw [hab]; simp⟩
    · by_cases hbn : b = []
      · rw [hbn, List.append_nil] at hpb
        exact hu ⟨t, [], by rw [hpb]; simp⟩
      · have hal : 0 < a.length := List.length_pos.mpr ha
        have hbl : 0 < b.length := List.length_pos.mpr hbn
        have hpl : pat.length = a.length + b.length := by rw [hpb, List.length_append]
        have hdrop : pat.drop a.length = b := by rw [hpb, List.drop_left]
        apply hb a.length hal (by omega)
        rw [hdrop]
        rcases hY with hY | ⟨J2, hY⟩
        · rw [hY] at hYb
          exact absurd (List.append_eq_nil.mp hYb.symm).1 hbn
        · have h1 : b <+: pat ++ J2 := ⟨J, by rw [← hY, hYb]⟩
          have h2 : pat <+: pat ++ J2 := List.prefix_append _ _
          exact List.prefix_of_prefix_length_le h1 h2 (by omega)

theorem joinWith_tail (pat t : JsString) (ts : List JsString) :
    ∃ X, joinWith pat (t :: ts) = t ++ X ∧ (X = [] ∨ ∃ J, X = pat ++ J) ∧
      (ts = [] → X = []) ∧ (ts ≠ [] → X = pat ++ joinWith pat ts) := by
  cases ts with
  | nil => exact ⟨[], by simp [joinWith], Or.inl rfl, fun _ => rfl, fun h => absurd rfl h⟩
  | cons u us =>
    refine ⟨pat ++ joinWith pat (u :: us), ?_, Or.inr ⟨_, rfl⟩, fun h => by simp at h,
      fun _ => rfl⟩
    show t ++ pat ++ joinWith pat (u :: us) = _
    rw [List.append_assoc]

/-- For a pattern of which no proper end is a beginning, a text is cut into
pieces without the pattern in one way only. -/
theorem joinWith_unique (pat : JsString) (hpat : pat ≠ [])
    (hb : ∀ d, 0 < d → d < pat.length → ¬ pat.drop d <+: pat) :
    ∀ (p1 p2 : List JsString), p1 ≠ [] → p2 ≠ [] → (∀ t ∈ p1, ¬ pat <:+: t) →
      (∀ t ∈ p2, ¬ pat <:+: t) → joinWith pat p1 = joinWith pat p2 → p1 = p2 := by
  intro p1
  induction p1 with
  | nil => intro p2 h; exact absurd rfl h
  | cons t ts ih =>
    intro p2 _ h2 hf1 hf2 heq
    cases p2 with
    | nil => exact absurd rfl h2
    | cons u us =>
      obtain ⟨X, hX1, hX2, hX3, hX4⟩ := joinWith_tail pat t ts
      obtain ⟨Y, hY1, hY2, hY3, hY4⟩ := joinWith_tail pat u us
      rw [hX1, hY1] at heq
      have htu : t = u := by
        rcases List.append_eq_append_iff.mp heq with ⟨a, hua, hXa⟩ | ⟨a, hta, hYa⟩
        · have := piece_not_longer pat hb t a X Y
            (by rw [← hua]; exact hf2 u (List.mem_cons_self _ _)) hX2 hY2 hXa
          rw [this, List.append_nil] at hua
          exact hua.symm
        · have := piece_not_longer pat hb u a Y X
            (by rw [← hta]; exact hf1 t (List.mem_cons_self _ _)) hY2 hX2 hYa
          rw [this, List.append_nil] at hta
          exact hta
      subst htu
      have hXY : X = Y := List.append_cancel_left heq
      by_cases hts : ts = []
      · by_cases hus : us = []
        · rw [hts, hus]
        · rw [hX3 hts, hY4 hus] at hXY
          exact absurd (List.append_eq_nil.mp hXY.symm).1 hpat
      · by_cases hus : us = []
        · rw [hX4 hts, hY3 hus] at hXY
          exact absurd (List.append_eq_nil.mp hXY).1 hpat
        · rw [hX4 hts, hY4 hus] at hXY
          have := ih us hts hus (fun x hx => hf1 x (List.mem_cons_of_mem _ hx))
            (fun x hx => hf2 x (List.mem_cons_of_mem _ hx)) (List.append_cancel_left hXY)
          rw [this]

theorem Regex.placeholder_border_free (name : JsString) (hname : lbrace ∉ name) :
    ∀ d, 0 < d → d < (Regex.placeholder name).length →
      ¬ (Regex.placeholder name).drop d <+: Regex.placeholder name := by
  intro d hd hlen hpre
  have hp : Regex.placeholder name = lbrace :: (name ++ [rbrace]) := rfl
  rw [hp] at hpre hlen
  obtain ⟨d2, rfl⟩ : ∃ d2, d = d2 + 1 := ⟨d - 1, by omega⟩
  rw [List.drop_succ_cons] at hpre
  simp only [List.length_cons] at hlen
  have hne : (name ++ [rbrace]).drop d2 ≠ [] := by
    intro h
    have := congrArg List.length h
    simp only [List.length_drop, List.length_nil] at this
    omega
  cases hx : (name ++ [rbrace]).drop d2 with
  | nil => exact hne hx
  | cons x xs =>
    rw [hx] at hpre
    have hxl : x = lbrace := by
      obtain ⟨r, hr⟩ := hpre
      exact (List.cons.inj hr).1
    have hxm : x ∈ name ++ [rbrace] :=
      List.mem_of_mem_drop (by rw [hx]; exact List.mem_cons_self _ _)
    rw [hxl] at hxm
    rcases List.mem_append.mp hxm with h | h
    · exact hname h
    · exact absurd (List.mem_singleton.mp h) (by decide)

/-- For the pattern of a placeholder the text with every occurrence replaced is
determined. -/
theorem ReplacedEvery.unique (name repl s out1 out2 : JsString) (hname : lbrace ∉ name)
    (h1 : ReplacedEvery (Regex.placeholder name) repl s out1)
    (h2 : ReplacedEvery (Regex.placeholder name) repl s out2) : out1 = out2 := by
  obtain ⟨p1, hn1, hs1, hf1, ho1⟩ := h1
  obtain ⟨p2, hn2, hs2, hf2, ho2⟩ := h2
  have := joinWith_unique (Regex.placeholder name) (by simp [Regex.placeholder])
    (Regex.placeholder_border_free name hname) p1 p2 hn1 hn2 hf1 hf2 (hs1.symm.trans hs2)
  rw [ho1, ho2, this]

/-- C25: for every template, recipient, contact list and clock,
`AppContext.processTemplateForBlast` replaces every occurrence of a placeholder
by its documented default in the cases of the claim.  Without a contact the
four last replacements turn every `{nama}` into `Customer`, every `{kategori}`
into `Valued Customer` and every `{group}` and `{grup}` into `General`, in the
text left by the date replacements, which is the template itself when it has
none of `{tanggal}`, `{waktu}`, `{hari}`.  With a contact whose name is empty the
first replacement turns every `{nama}` of the template into `Customer`; with a
contact without a category the third one turns every `{kategori}` into `Valued
Customer`; with a contact without groups the fourth and fifth turn every
`{group}` and `{grup}` into `General`; the other replacements are those of the
code, before and after.  For a template made of text without an opening brace
and of placeholders, and values free of `$` and of opening braces, the whole
output is the template with every placeholder filled from the table, in which
these defaults stand. -/
theorem C25_fallback_defaults (contacts : List Contact) (clock : Clock)
    (template phone : JsString) :
    (findContact contacts phone = none →
      ∃ s1 s2 s3 : JsString,
        ReplacedEvery "{nama}".toList "Customer".toList
          (AppContext.replaceCommon clock template) s1 ∧
        ReplacedEvery "{kategori}".toList "Valued Customer".toList s1 s2 ∧
        ReplacedEvery "{group}".toList "General".toList s2 s3 ∧
        ReplacedEvery "{grup}".toList "General".toList s3
          (AppContext.processTemplateForBlast contacts clock template phone)) ∧
    ((∀ name ∈ ["tanggal", "waktu", "hari"],
        ¬ Occurs false (Regex.placeholder name.toList) template) →
      AppContext.replaceCommon clock template = template) ∧
    (∀ c : Contact, findContact contacts phone = some c →
      (c.name = [] →
        ∃ s1 : JsString,
          ReplacedEvery "{nama}".toList "Customer".toList template s1 ∧
          AppContext.processTemplateForBlast contacts clock template phone
            = AppContext.replaceCommon clock
                (Regex.replacePlaceholder false "grup" (c.groups.headD "General".toList)
                  (Regex.replacePlaceholder false "group" (c.groups.headD "General".toList)
                    (Regex.replacePlaceholder false "kategori"
                      (orElseOpt c.category "Valued Customer".toList)
                      (Regex.replacePlaceholder false "telepon" (orElse c.phone phone) s1))))) ∧
      ((c.category = none ∨ c.category = some []) →
        ∃ s3 : JsString,
          ReplacedEvery "{kategori}".toList "Valued Customer".toList
            (Regex.replacePlaceholder false "telepon" (orElse c.phone phone)
              (Regex.replacePlaceholder false "nama" (orElse c.name "Customer".toList)
                template)) s3 ∧
          AppContext.processTemplateForBlast contacts clock template phone
            = AppContext.replaceCommon clock
                (Regex.replacePlaceholder false "grup" (c.groups.headD "General".toList)
                  (Regex.replacePlaceholder false "group" (c.groups.headD "General".toList)
                    s3))) ∧
      (c.groups = [] →
        ∃ s4 s5 : JsString,
          ReplacedEvery "{group}".toList "General".toList
            (Regex.replacePlaceholder false "kategori"
              (orElseOpt c.category "Valued Customer".toList)
              (Regex.replacePlaceholder false "telepon" (orElse c.phone phone)
                (Regex.replacePlaceholder false "nama" (orElse c.name "Customer".toList)
                  template))) s4 ∧
          ReplacedEvery "{grup}".toList "General".toList s4 s5 ∧
          AppContext.processTemplateForBlast contacts clock template phone
            = AppContext.replaceCommon clock s5)) ∧
    (∀ segs : List Seg, template = renderSegs segs → (∀ seg ∈ segs, seg.Plain) →
      TameTable (AppContext.tableFor (findContact contacts phone) clock phone) →
      AppContext.processTemplateForBlast contacts clock template phone
        = renderSegs (segs.map
            (Seg.fill false (AppContext.tableFor (findContact contacts phone) clock phone))) ∧
      ((findContact contacts phone = none ∨
          ∃ c, findContact contacts phone = some c ∧ c.name = []) →
        Seg.fill false (AppContext.tableFor (findContact contacts phone) clock phone)
          (Seg.hole "nama".toList) = Seg.text "Customer".toList) ∧
      ((findContact contacts phone = none ∨
          ∃ c, findContact contacts phone = some c ∧
            (c.category = none ∨ c.category = some [])) →
        Seg.fill false (AppContext.tableFor (findContact contacts phone) clock phone)
          (Seg.hole "kategori".toList) = Seg.text "Valued Customer".toList) ∧
      ((findContact contacts phone = none ∨
          ∃ c, findContact contacts phone = some c ∧ c.groups = []) →
        Seg.fill false (AppContext.tableFor (findContact contacts phone) clock phone)
          (Seg.hole "group".toList) = Seg.text "General".toList ∧
        Seg.fill false (AppContext.tableFor (findContact contacts phone) clock phone)
          (Seg.hole "grup".toList) = Seg.text "General".toList)) := by
  have every : ∀ (name : String) (repl s : JsString), '$' ∉ repl →
      ReplacedEvery (Regex.placeholder name.toList) repl s
        (Regex.replacePlaceholder false name repl s) :=
    fun name repl s h => Regex.replacePlaceholder_replacedEvery name repl s h
  have hC : '$' ∉ "Customer".toList := by decide
  have hV : '$' ∉ "Valued Customer".toList := by decide
  have hG : '$' ∉ "General".toList := by decide
  refine ⟨?_, ?_, ?_, ?_⟩
  · intro hfind
    unfold AppContext.processTemplateForBlast
    rw [hfind]
    exact ⟨_, _, _, every "nama" _ _ hC, every "kategori" _ _ hV, every "group" _ _ hG,
      every "grup" _ _ hG⟩
  · intro h
    have hk : ∀ (name : String) (v : JsString), name ∈ ["tanggal", "waktu", "hari"] →
        Regex.replacePlaceholder false name v template = template :=
      fun name v hn => Regex.replacePlaceholder_of_not_occurs false name v template (h name hn)
    unfold AppContext.replaceCommon
    rw [hk "tanggal" _ (by decide), hk "waktu" _ (by decide), hk "hari" _ (by decide)]
  · intro c hfind
    have hout : AppContext.processTemplateForBlast contacts clock template phone
        = AppContext.replaceCommon clock
            (Regex.replacePlaceholder false "grup" (c.groups.headD "General".toList)
              (Regex.replacePlaceholder false "group" (c.groups.headD "General".toList)
                (Regex.replacePlaceholder false "kategori"
                  (orElseOpt c.category "Valued Customer".toList)
                  (Regex.replacePlaceholder false "telepon" (orElse c.phone phone)
                    (Regex.replacePlaceholder false "nama" (orElse c.name "Customer".toList)
                      template))))) := by
      unfold AppContext.processTemplateForBlast
      rw [hfind]
      dsimp only
      cases c.groups with
      | nil => rfl
      | cons g gs => rfl
    refine ⟨?_, ?_, ?_⟩
    · intro hn
      refine ⟨_, every "nama" "Customer".toList template hC, ?_⟩
      rw [hout, hn]
      rfl
    · intro hc
      have hcat : orElseOpt c.category "Valued Customer".toList = "Valued Customer".toList := by
        rcases hc with hc | hc <;> rw [hc] <;> rfl
      refine ⟨_, every "kategori" "Valued Customer".toList _ hV, ?_⟩
      rw [hout, hcat]
    · intro hg
      refine ⟨_, _, every "group" "General".toList _ hG, every "grup" "General".toList _ hG, ?_⟩
      rw [hout, hg]
      rfl
  · intro segs hseg hplain htame
    subst hseg
    refine ⟨?_, ?_, ?_, ?_⟩
    · rw [AppContext.processTemplateForBlast_eq_table]
      exact Regex.replaceTable_segs false _ segs htame hplain
    · rintro (h | ⟨c, h, hn⟩)
      · rw [h]; rfl
      · rw [h]
        simp only [AppContext.tableFor, hn]
        rfl
    · rintro (h | ⟨c, h, hc | hc⟩)
      · rw [h]; rfl
      · rw [h]
        simp only [AppContext.tableFor, hc]
        rfl
      · rw [h]
        simp only [AppContext.tableFor, hc]
        rfl
    · rintro (h | ⟨c, h, hg⟩)
      · rw [h]; exact ⟨rfl, rfl⟩
      · rw [h]
        simp only [AppContext.tableFor, hg]
        exact ⟨rfl, rfl⟩

/-- C25 at two inputs: without a contact the template `a { b {nama}`, whose
first brace opens no placeholder, is rendered as `a { b Customer`; with a
contact that has an empty name and the category `US$` the template
`Halo {nama}` is rendered as `Halo Customer`; and the template
`Halo {nama} ({kategori}, {group}/{grup})` is rendered as
`Halo Customer (Valued Customer, General/General)` without a contact. -/
theorem C25_fallback_defaults_witness :
    (∃ s1 s2 s3 : JsString,
      ReplacedEvery "{nama}".toList "Customer".toList
        (AppContext.replaceCommon sampleClock "a \x7b b {nama}".toList) s1 ∧
      ReplacedEvery "{kategori}".toList "Valued Customer".toList s1 s2 ∧
      ReplacedEvery "{group}".toList "General".toList s2 s3 ∧
      ReplacedEvery "{grup}".toList "General".toList s3
        (AppContext.processTemplateForBlast [] sampleClock "a \x7b b {nama}".toList phoneA)) ∧
    AppContext.processTemplateForBlast [] sampleClock "a \x7b b {nama}".toList phoneA
      = "a \x7b b Customer".toList ∧
    (∃ s1 : JsString,
      ReplacedEvery "{nama}".toList "Customer".toList "Halo {nama}".toList s1 ∧
      AppContext.processTemplateForBlast [dollarCategoryContact] sampleClock
          "Halo {nama}".toList phoneA
        = AppContext.replaceCommon sampleClock
            (Regex.replacePlaceholder false "grup" "General".toList
              (Regex.replacePlaceholder false "group" "General".toList
                (Regex.replacePlaceholder false "kategori" "US$".toList
                  (Regex.replacePlaceholder false "telepon" phoneA s1))))) ∧
    AppContext.processTemplateForBlast [dollarCategoryContact] sampleClock
        "Halo {nama}".toList phoneA = "Halo Customer".toList ∧
    AppContext.processTemplateForBlast [] sampleClock (renderSegs defaultsSegs) phoneA
      = "Halo Customer (Valued Customer, General/General)".toList :=
  ⟨(C25_fallback_defaults [] sampleClock "a \x7b b {nama}".toList phoneA).1 rfl,
   by decide,
   ((C25_fallback_defaults [dollarCategoryContact] sampleClock "Halo {nama}".toList
      phoneA).2.2.1 dollarCategoryContact rfl).1 rfl,
   by decide,
   ((C25_fallback_defaults [] sampleClock (renderSegs defaultsSegs) phoneA).2.2.2 defaultsSegs
      rfl (by decide) (by decide)).1.trans (by decide)⟩

/-- C26 (evaluation of the code): for an error of status 429 without a network
code `shouldRetryMessage` returns false whatever the attempt numbers, although
its comment excepts 429 from the client errors that are not retried.  The rest
of the policy is as documented: false when attempt >= maxAttempts; otherwise
true for the codes `ECONNABORTED` and `ERR_NETWORK`, and, for another code or
none, true for a status in 500..599 and false for a status in 400..499. -/
theorem C26_status_429_not_retried (attempt maxAttempts : Int) :
    Helpers.shouldRetryMessage { code := none, status := some 429 } attempt maxAttempts
      = false ∧
    Helpers.shouldRetryMessage { code := none, status := some 429 } 1 3 = false ∧
    (∀ error : RetryError, maxAttempts ≤ attempt →
      Helpers.shouldRetryMessage error attempt maxAttempts = false) ∧
    (∀ error : RetryError, attempt < maxAttempts →
      (error.code = some "ECONNABORTED".toList ∨ error.code = some "ERR_NETWORK".toList) →
      Helpers.shouldRetryMessage error attempt maxAttempts = true) ∧
    (∀ (code : Option JsString) (st : Int), attempt < maxAttempts →
      code ≠ some "ECONNABORTED".toList → code ≠ some "ERR_NETWORK".toList →
      (500 ≤ st ∧ st < 600 →
        Helpers.shouldRetryMessage { code := code, status := some st } attempt maxAttempts
          = true) ∧
      (400 ≤ st ∧ st < 500 →
        Helpers.shouldRetryMessage { code := code, status := some st } attempt maxAttempts
          = false)) := by
  refine ⟨?_, by decide, ?_, ?_, ?_⟩
  · unfold Helpers.shouldRetryMessage
    by_cases h : attempt ≥ maxAttempts
    · rw [if_pos h]
    · rw [if_neg h]
      decide
  · intro error h
    unfold Helpers.shouldRetryMessage
    rw [if_pos h]
  · intro error h hc
    unfold Helpers.shouldRetryMessage
    rw [if_neg (by omega), if_pos hc]
  · intro code st h h1 h2
    have hcode : ¬ (code = some "ECONNABORTED".toList ∨ code = some "ERR_NETWORK".toList) :=
      fun hh => hh.elim h1 h2
    constructor
    · intro hst
      unfold Helpers.shouldRetryMessage
      rw [if_neg (by omega), if_neg hcode]
      simp [RetryError.statusGe, RetryError.statusLt, hst.1, hst.2]
    · intro hst
      unfold Helpers.shouldRetryMessage
      rw [if_neg (by omega), if_neg hcode]
      have h5 : ¬ (500 ≤ st) := by omega
      have h0 : ¬ (st = 0) := by omega
      by_cases h429 : st = 429
      · subst h429
        simp [RetryError.statusGe, RetryError.statusLt, RetryError.statusNe,
          RetryError.statusFalsy]
      · simp [RetryError.statusGe, RetryError.statusLt, RetryError.statusNe,
          RetryError.statusFalsy, hst.1, hst.2, h5, h0, h429]

/-- C27 (evaluation of the code): for recipient A with the spreadsheet row
(`Telepon`, `Nama` = Budi) the original run, which renders with
`processCustomBlastTemplate` of `utils/template.js`, turns `Halo {nama}` into
`Halo Budi` and, with the contact Ana, `Halo {name}` into `Halo Ana`; the
retry, which renders with `processCustomBlastTemplate` of `AppContext.js`,
returns both templates unchanged.  `Halo {Nama}` gives `Halo Budi` in both. -/
theorem C27_retry_renders_differently :
    Template.processCustomBlastTemplate sampleClock "Halo {nama}".toList phoneA budiMapping
        ["Telepon".toList, "Nama".toList] [] = Rendered.text "Halo Budi".toList ∧
    AppContext.processCustomBlastTemplate [] sampleClock budiMapping
        ["Telepon".toList, "Nama".toList] "Halo {nama}".toList phoneA
      = Rendered.text "Halo {nama}".toList ∧
    Template.processCustomBlastTemplate sampleClock "Halo {name}".toList phoneA budiMapping
        ["Telepon".toList, "Nama".toList] [anaA] = Rendered.text "Halo Ana".toList ∧
    AppContext.processCustomBlastTemplate [anaA] sampleClock budiMapping
        ["Telepon".toList, "Nama".toList] "Halo {name}".toList phoneA
      = Rendered.text "Halo {name}".toList ∧
    Template.processCustomBlastTemplate sampleClock "Halo {Nama}".toList phoneA budiMapping
        ["Telepon".toList, "Nama".toList] [anaA] = Rendered.text "Halo Budi".toList ∧
    AppContext.processCustomBlastTemplate [anaA] sampleClock budiMapping
        ["Telepon".toList, "Nama".toList] "Halo {Nama}".toList phoneA
      = Rendered.text "Halo Budi".toList := by
  decide

/-- C29 (evaluation of the code): a value is used as the replacement text of
`String.prototype.replace`, in which `$$` stands for `$` and `$&` for the
matched placeholder.  For the contact named `US$$ Store` of category `$&` the
template `Halo {nama}` is rendered as `Halo US$ Store` and `Kat {kategori}` as
`Kat {kategori}`, by both contact renderers; a spreadsheet cell `$&` leaves
`Kode {kode}` as it is.  A group `Rp$1` is inserted unchanged, since the
patterns have no capture group. -/
theorem C29_dollar_patterns_expanded :
    AppContext.processTemplateForBlast [dollarContact] sampleClock "Halo {nama}".toList phoneA
      = "Halo US$ Store".toList ∧
    Template.processTemplate sampleClock "Halo {nama}".toList phoneA [dollarContact]
      = "Halo US$ Store".toList ∧
    AppContext.processTemplateForBlast [dollarContact] sampleClock "Kat {kategori}".toList
        phoneA = "Kat {kategori}".toList ∧
    Template.processTemplate sampleClock "Kat {kategori}".toList phoneA [dollarContact]
      = "Kat {kategori}".toList ∧
    Template.processCustomBlastTemplate sampleClock "Kode {kode}".toList phoneA ampMapping
        ["kode".toList] [] = Rendered.text "Kode {kode}".toList ∧
    AppContext.processCustomBlastTemplate [] sampleClock ampMapping ["kode".toList]
        "Kode {kode}".toList phoneA = Rendered.text "Kode {kode}".toList ∧
    AppContext.processTemplateForBlast [dollarContact] sampleClock "Grup {grup}".toList phoneA
      = "Grup Rp$1".toList ∧
    Template.processTemplate sampleClock "Grup {grup}".toList phoneA [dollarContact]
      = "Grup Rp$1".toList := by
  decide

/-! ## Theorems: recipient resolver, spreadsheet mode -/

/-- C23 (evaluation of the code): the row whose phone cell is `0812-3456-7890`
gives the recipient `0812-3456-7890`, the trimmed cell, and the run sends to
that text; the manual entry `0812-3456-7890` gives `6281234567890`. -/
theorem C23_sheet_phone_not_normalised :
    CustomBlast.phoneNumbersList (CustomBlast.processCustomBlastExcelData budiSheet)
      = ["0812-3456-7890".toList] ∧
    Helpers.parsePhoneNumbers (JsValue.str "0812-3456-7890".toList)
      = ["6281234567890".toList] ∧
    (CustomBlast.handleSubmitEvent noText plainContext false idleState
        { phoneMappingKeys :=
            CustomBlast.phoneNumbersList (CustomBlast.processCustomBlastExcelData budiSheet),
          customBlastMessage := "Promo".toList, customBlastType := "text".toList,
          customBlastDelay := 3, customBlastFile := none }
        [SendResult.resolved 200 false]).2
      = [Effect.send "/message/send-text".toList "0812-3456-7890".toList "Promo".toList] := by
  decide

theorem CustomBlast.isPhoneHeader_iff (header : JsString) :
    CustomBlast.isPhoneHeader header = true ↔ IsPhoneHeader header := by
  unfold CustomBlast.isPhoneHeader IsPhoneHeader CustomBlast.phonePatterns Api.includes
  rw [List.any_eq_true]
  constructor
  · rintro ⟨p, hp, h⟩
    exact ⟨p, hp, of_decide_eq_true h⟩
  · rintro ⟨p, hp, h⟩
    exact ⟨p, hp, decide_eq_true h⟩

theorem CustomBlast.detectGo_some : ∀ (headers : List JsString) (index j : Nat),
    CustomBlast.detectGo headers index (some j) = some j := by
  intro headers
  induction headers with
  | nil => intro index j; rfl
  | cons hd tl ih =>
    intro index j
    unfold CustomBlast.detectGo
    rw [if_neg (by simp)]
    exact ih _ _

theorem CustomBlast.detectGo_ge : ∀ (headers : List JsString) (index i : Nat),
    CustomBlast.detectGo headers index none = some i → index ≤ i := by
  intro headers
  induction headers with
  | nil => intro index i h; simp [CustomBlast.detectGo] at h
  | cons hd tl ih =>
    intro index i h
    unfold CustomBlast.detectGo at h
    by_cases hp : CustomBlast.isPhoneHeader hd = true
    · rw [if_pos ⟨rfl, hp⟩, CustomBlast.detectGo_some] at h
      exact Nat.le_of_eq (Option.some.inj h)
    · rw [if_neg (fun hh => hp hh.2)] at h
      exact Nat.le_of_succ_le (ih _ _ h)

theorem CustomBlast.detectGo_spec : ∀ (headers : List JsString) (index k : Nat),
    CustomBlast.detectGo headers index none = some (index + k) ↔
      (∃ h, headers.get? k = some h ∧ CustomBlast.isPhoneHeader h = true) ∧
      ∀ j < k, ∀ h, headers.get? j = some h → CustomBlast.isPhoneHeader h = false := by
  intro headers
  induction headers with
  | nil =>
    intro index k
    simp [CustomBlast.detectGo]
  | cons hd tl ih =>
    intro index k
    unfold CustomBlast.detectGo
    by_cases hp : CustomBlast.isPhoneHeader hd = true
    · rw [if_pos ⟨rfl, hp⟩, CustomBlast.detectGo_some]
      constructor
      · intro h
        have hk : k = 0 := by
          have := Option.some.inj h
          omega
        subst hk
        exact ⟨⟨hd, rfl, hp⟩, fun j hj => absurd hj (Nat.not_lt_zero _)⟩
      · rintro ⟨_, hall⟩
        cases k with
        | zero => rfl
        | succ k =>
          have := hall 0 (Nat.succ_pos _) hd rfl
          rw [hp] at this
          exact absurd this (by decide)
    · rw [if_neg (fun hh => hp hh.2)]
      cases k with
      | zero =>
        constructor
        · intro h
          have := CustomBlast.detectGo_ge tl (index + 1) (index + 0) h
          omega
        · rintro ⟨⟨h, hh, hph⟩, _⟩
          simp only [List.get?_cons_zero, Option.some.injEq] at hh
          subst hh
          exact absurd hph hp
      | succ k =>
        have e : index + (k + 1) = index + 1 + k := by omega
        rw [e, ih (index + 1) k]
        constructor
        · rintro ⟨hex, hall⟩
          refine ⟨hex, ?_⟩
          intro j hj h hh
          cases j with
          | zero =>
            simp only [List.get?_cons_zero, Option.some.injEq] at hh
            subst hh
            exact Bool.eq_false_iff.mpr hp
          | succ j => exact hall j (Nat.lt_of_succ_lt_succ hj) h hh
        · rintro ⟨hex, hall⟩
          exact ⟨hex, fun j hj h hh => hall (j + 1) (Nat.succ_lt_succ hj) h hh⟩

theorem CustomBlast.detectGo_none : ∀ (headers : List JsString) (index : Nat),
    CustomBlast.detectGo headers index none = none ↔
      ∀ h ∈ headers, CustomBlast.isPhoneHeader h = false := by
  intro headers
  induction headers with
  | nil => intro index; simp [CustomBlast.detectGo]
  | cons hd tl ih =>
    intro index
    unfold CustomBlast.detectGo
    by_cases hp : CustomBlast.isPhoneHeader hd = true
    · rw [if_pos ⟨rfl, hp⟩, CustomBlast.detectGo_some]
      constructor
      · intro h; exact absurd h (by simp)
      · intro h
        have := h hd (List.mem_cons_self _ _)
        rw [hp] at this
        exact absurd this (by decide)
    · rw [if_neg (fun hh => hp hh.2), ih]
      constructor
      · intro h x hx
        rcases List.mem_cons.mp hx with rfl | hx
        · exact Bool.eq_false_iff.mpr hp
        · exact h x hx
      · intro h x hx
        exact h x (List.mem_cons_of_mem _ hx)

/-- C22: the detected phone column is the smallest index whose header,
lower-cased, contains one of `telepon`, `phone`, `hp`, `wa`, `whatsapp`,
`nomor`, `number`; no column is detected exactly when no header does, and then
`processCustomBlastExcelData`, a total function, leaves the phone mapping and
the data mapping empty, so that there is no recipient. -/
theorem C22_phone_column_detection (headers : List JsString) (rows : List (List JsString)) :
    (∀ i, CustomBlast.detectPhoneColumn headers = some i ↔
      (∃ h, headers.get? i = some h ∧ IsPhoneHeader h) ∧
      ∀ j < i, ∀ h, headers.get? j = some h → ¬ IsPhoneHeader h) ∧
    (CustomBlast.detectPhoneColumn headers = none ↔ ∀ h ∈ headers, ¬ IsPhoneHeader h) ∧
    ((∀ h ∈ headers, ¬ IsPhoneHeader h) →
      CustomBlast.phoneNumbersList (CustomBlast.processCustomBlastExcelData ⟨headers, rows⟩)
        = [] ∧
      (CustomBlast.processCustomBlastExcelData ⟨headers, rows⟩).customBlastPhoneMapping = [] ∧
      (CustomBlast.processCustomBlastExcelData ⟨headers, rows⟩).customBlastDataMapping = []) := by
  have hnone : CustomBlast.detectPhoneColumn headers = none ↔
      ∀ h ∈ headers, ¬ IsPhoneHeader h := by
    unfold CustomBlast.detectPhoneColumn
    rw [CustomBlast.detectGo_none]
    constructor
    · intro h x hx hph
      have := h x hx
      rw [(CustomBlast.isPhoneHeader_iff x).mpr hph] at this
      exact absurd this (by decide)
    · intro h x hx
      exact Bool.eq_false_iff.mpr (fun hph => h x hx ((CustomBlast.isPhoneHeader_iff x).mp hph))
  refine ⟨?_, hnone, ?_⟩
  · intro i
    unfold CustomBlast.detectPhoneColumn
    have := CustomBlast.detectGo_spec headers 0 i
    rw [Nat.zero_add] at this
    rw [this]
    constructor
    · rintro ⟨⟨h, hh, hph⟩, hall⟩
      refine ⟨⟨h, hh, (CustomBlast.isPhoneHeader_iff h).mp hph⟩, ?_⟩
      intro j hj x hx hpx
      have := hall j hj x hx
      rw [(CustomBlast.isPhoneHeader_iff x).mpr hpx] at this
      exact absurd this (by decide)
    · rintro ⟨⟨h, hh, hph⟩, hall⟩
      refine ⟨⟨h, hh, (CustomBlast.isPhoneHeader_iff h).mpr hph⟩, ?_⟩
      intro j hj x hx
      exact Bool.eq_false_iff.mpr
        (fun hpx => hall j hj x hx ((CustomBlast.isPhoneHeader_iff x).mp hpx))
  · intro h
    have hd := hnone.mpr h
    have e : CustomBlast.processCustomBlastExcelData ⟨headers, rows⟩
        = { customBlastVariables := CustomBlast.variablesOf headers,
            customBlastPhoneMapping := [], customBlastDataMapping := [] } := by
      unfold CustomBlast.processCustomBlastExcelData
      simp only [hd]
    rw [e]
    exact ⟨rfl, rfl, rfl⟩

/-- C22 at a sheet with the headers `Nama` and `Kota`: no recipient and empty
mappings. -/
theorem C22_phone_column_detection_witness :
    CustomBlast.phoneNumbersList (CustomBlast.processCustomBlastExcelData
        ⟨noPhoneSheet.headers, noPhoneSheet.rows⟩) = [] ∧
    (CustomBlast.processCustomBlastExcelData
        ⟨noPhoneSheet.headers, noPhoneSheet.rows⟩).customBlastPhoneMapping = [] ∧
    (CustomBlast.processCustomBlastExcelData
        ⟨noPhoneSheet.headers, noPhoneSheet.rows⟩).customBlastDataMapping = [] :=
  (C22_phone_column_detection noPhoneSheet.headers noPhoneSheet.rows).2.2 (by decide)

theorem JsObject.ownKeys_set {α : Type} (o : JsObject α) (key : JsString) (value : α) :
    JsObject.ownKeys (JsObject.set o key value)
      = if key = protoKey then JsObject.ownKeys o
        else if key ∈ JsObject.ownKeys o then JsObject.ownKeys o
        else JsObject.ownKeys o ++ [key] := by
  unfold JsObject.set
  by_cases h1 : key = protoKey
  · rw [if_pos h1, if_pos h1]
  · rw [if_neg h1, if_neg h1]
    by_cases h2 : key ∈ JsObject.ownKeys o
    · rw [if_pos h2, if_pos h2]
      unfold JsObject.ownKeys
      rw [List.map_map]
      apply List.map_congr_left
      intro e _
      show (if e.1 = key then (key, value) else e).1 = e.1
      split_ifs with h
      · exact h.symm
      · rfl
    · rw [if_neg h2, if_neg h2]
      unfold JsObject.ownKeys
      rw [List.map_append]
      rfl

theorem JsObject.get?_nil {α : Type} (key : JsString) :
    JsObject.get? ([] : JsObject α) key = none := rfl

theorem JsObject.get?_cons {α : Type} (e : JsString × α) (o : JsObject α) (key : JsString) :
    JsObject.get? (e :: o) key = if e.1 = key then some e.2 else JsObject.get? o key := by
  unfold JsObject.get?
  rw [List.find?_cons]
  by_cases h : e.1 = key
  · simp [h]
  · simp [h]

theorem JsObject.get?_of_not_mem {α : Type} (o : JsObject α) (key : JsString)
    (h : key ∉ JsObject.ownKeys o) : JsObject.get? o key = none := by
  induction o with
  | nil => rfl
  | cons e tl ih =>
    rw [JsObject.get?_cons]
    have h1 : e.1 ≠ key := fun he => h (by rw [← he]; exact List.mem_cons_self _ _)
    rw [if_neg h1]
    exact ih (fun hm => h (List.mem_cons_of_mem _ hm))

theorem JsObject.get?_map_set {α : Type} (key key2 : JsString) (value : α) :
    ∀ o : JsObject α,
      JsObject.get? (o.map (fun e => if e.1 = key then (key, value) else e)) key2
        = if key2 = key then (if key ∈ JsObject.ownKeys o then some value else none)
          else JsObject.get? o key2 := by
  intro o
  induction o with
  | nil =>
    show JsObject.get? [] key2 = _
    rw [JsObject.get?_nil]
    split_ifs with h1 h2
    · exact absurd h2 (List.not_mem_nil _)
    · rfl
    · rfl
  | cons e tl ih =>
    rw [List.map_cons, JsObject.get?_cons, ih, JsObject.get?_cons]
    have hk : key ∈ JsObject.ownKeys (e :: tl) ↔ e.1 = key ∨ key ∈ JsObject.ownKeys tl := by
      unfold JsObject.ownKeys
      rw [List.map_cons, List.mem_cons]
      exact ⟨fun h => h.elim (fun h => Or.inl h.symm) Or.inr,
        fun h => h.elim (fun h => Or.inl h.symm) Or.inr⟩
    by_cases he : e.1 = key
    · by_cases h2 : key2 = key
      · simp [he, h2, hk]
      · have h3 : ¬ key = key2 := fun h => h2 h.symm
        simp [he, h2, h3]
    · by_cases h2 : key2 = key
      · subst h2
        simp [he, hk]
      · simp [he, h2]

theorem JsObject.get?_append_single {α : Type} (o : JsObject α) (key key2 : JsString)
    (value : α) (h : key ∉ JsObject.ownKeys o) :
    JsObject.get? (o ++ [(key, value)]) key2
      = if key2 = key then some value else JsObject.get? o key2 := by
  induction o with
  | nil =>
    show JsObject.get? [(key, value)] key2 = _
    rw [JsObject.get?_cons, JsObject.get?_nil]
    by_cases h2 : key2 = key
    · simp [h2]
    · have h3 : ¬ key = key2 := fun h => h2 h.symm
      simp [h2, h3]
  | cons e tl ih =>
    have h1 : e.1 ≠ key := fun he => h (by rw [← he]; exact List.mem_cons_self _ _)
    rw [List.cons_append, JsObject.get?_cons, JsObject.get?_cons,
      ih (fun hm => h (List.mem_cons_of_mem _ hm))]
    by_cases he : e.1 = key2
    · have h2 : key2 ≠ key := fun hh => h1 (he.trans hh)
      simp [he, h2]
    · simp [he]

theorem JsObject.get?_set {α : Type} (o : JsObject α) (key key2 : JsString) (value : α)
    (h : key ≠ protoKey) :
    JsObject.get? (JsObject.set o key value) key2
      = if key2 = key then some value else JsObject.get? o key2 := by
  unfold JsObject.set
  rw [if_neg h]
  by_cases hm : key ∈ JsObject.ownKeys o
  · rw [if_pos hm, JsObject.get?_map_set, if_pos hm]
  · rw [if_neg hm, JsObject.get?_append_single o key key2 value hm]

theorem JsObject.keys_perm {α : Type} (o : JsObject α) :
    (JsObject.keys o).Perm (JsObject.ownKeys o) := by
  unfold JsObject.keys
  exact ((List.perm_insertionSort _ _).append (List.Perm.refl _)).trans
    (List.filter_append_perm _ _)

theorem JsObject.nodup_set {α : Type} (o : JsObject α) (key : JsString) (value : α)
    (h : (JsObject.ownKeys o).Nodup) : (JsObject.ownKeys (JsObject.set o key value)).Nodup := by
  rw [JsObject.ownKeys_set]
  split_ifs with h1 h2
  · exact h
  · exact h
  · exact List.Nodup.append h (List.nodup_singleton _) (by simpa using h2)

theorem CustomBlast.processRows_cons (headers : List JsString) (i : Nat)
    (row : List JsString) (rest : List (List JsString))
    (maps : JsObject Bool × JsObject (JsObject JsString)) :
    CustomBlast.processRows headers i (row :: rest) maps
      = CustomBlast.processRows headers i rest
          (if (CustomBlast.phoneOf i row).isEmpty then maps
           else (JsObject.set maps.1 (CustomBlast.phoneOf i row) true,
                 JsObject.set maps.2 (CustomBlast.phoneOf i row)
                   (CustomBlast.rowDataOf headers row))) := rfl

theorem CustomBlast.processRows_append (headers : List JsString) (i : Nat) :
    ∀ (a b : List (List JsString)) (maps : JsObject Bool × JsObject (JsObject JsString)),
      CustomBlast.processRows headers i (a ++ b) maps
        = CustomBlast.processRows headers i b (CustomBlast.processRows headers i a maps) := by
  intro a
  induction a with
  | nil => intro b maps; rfl
  | cons row rest ih =>
    intro b maps
    rw [List.cons_append, CustomBlast.processRows_cons, CustomBlast.processRows_cons, ih]

/-- The keys of the phone mapping after the rows: those it had, and the phone
values of the rows that are neither empty nor `__proto__`. -/
theorem CustomBlast.processRows_keys (headers : List JsString) (i : Nat) :
    ∀ (rows : List (List JsString)) (maps : JsObject Bool × JsObject (JsObject JsString))
      (p : JsString),
      p ∈ JsObject.ownKeys (CustomBlast.processRows headers i rows maps).1 ↔
        p ∈ JsObject.ownKeys maps.1 ∨
          (p ≠ [] ∧ p ≠ protoKey ∧ ∃ row ∈ rows, CustomBlast.phoneOf i row = p) := by
  intro rows
  induction rows with
  | nil =>
    intro maps p
    simp [CustomBlast.processRows]
  | cons row rest ih =>
    intro maps p
    rw [CustomBlast.processRows_cons, ih]
    by_cases he : (CustomBlast.phoneOf i row).isEmpty = true
    · rw [if_pos he]
      have he2 : CustomBlast.phoneOf i row = [] := List.isEmpty_iff.mp he
      constructor
      · rintro (h | ⟨h1, h2, r, hr, hp⟩)
        · exact Or.inl h
        · exact Or.inr ⟨h1, h2, r, List.mem_cons_of_mem _ hr, hp⟩
      · rintro (h | ⟨h1, h2, r, hr, hp⟩)
        · exact Or.inl h
        · rcases List.mem_cons.mp hr with rfl | hr
          · exact absurd (hp.symm.trans he2) h1
          · exact Or.inr ⟨h1, h2, r, hr, hp⟩
    · rw [if_neg he]
      have he2 : CustomBlast.phoneOf i row ≠ [] := fun h => he (List.isEmpty_iff.mpr h)
      simp only [JsObject.ownKeys_set]
      by_cases hpr : CustomBlast.phoneOf i row = protoKey
      · rw [if_pos hpr]
        constructor
        · rintro (h | ⟨h1, h2, r, hr, hp⟩)
          · exact Or.inl h
          · exact Or.inr ⟨h1, h2, r, List.mem_cons_of_mem _ hr, hp⟩
        · rintro (h | ⟨h1, h2, r, hr, hp⟩)
          · exact Or.inl h
          · rcases List.mem_cons.mp hr with rfl | hr
            · exact absurd (hp.symm.trans hpr) h2
            · exact Or.inr ⟨h1, h2, r, hr, hp⟩
      · rw [if_neg hpr]
        by_cases hm : CustomBlast.phoneOf i row ∈ JsObject.ownKeys maps.1
        · rw [if_pos hm]
          constructor
          · rintro (h | ⟨h1, h2, r, hr, hp⟩)
            · exact Or.inl h
            · exact Or.inr ⟨h1, h2, r, List.mem_cons_of_mem _ hr, hp⟩
          · rintro (h | ⟨h1, h2, r, hr, hp⟩)
            · exact Or.inl h
            · rcases List.mem_cons.mp hr with rfl | hr
              · exact Or.inl (hp ▸ hm)
              · exact Or.inr ⟨h1, h2, r, hr, hp⟩
        · rw [if_neg hm]
          constructor
          · rintro (h | ⟨h1, h2, r, hr, hp⟩)
            · rcases List.mem_append.mp h with h | h
              · exact Or.inl h
              · have hp : p = CustomBlast.phoneOf i row := by simpa using h
                exact Or.inr ⟨hp ▸ he2, hp ▸ hpr, row, List.mem_cons_self _ _, hp.symm⟩
            · exact Or.inr ⟨h1, h2, r, List.mem_cons_of_mem _ hr, hp⟩
          · rintro (h | ⟨h1, h2, r, hr, hp⟩)
            · exact Or.inl (List.mem_append_left _ h)
            · rcases List.mem_cons.mp hr with rfl | hr
              · exact Or.inl (List.mem_append_right _ (by simp [hp]))
              · exact Or.inr ⟨h1, h2, r, hr, hp⟩

theorem CustomBlast.processRows_nodup (headers : List JsString) (i : Nat) :
    ∀ (rows : List (List JsString)) (maps : JsObject Bool × JsObject (JsObject JsString)),
      (JsObject.ownKeys maps.1).Nodup →
      (JsObject.ownKeys (CustomBlast.processRows headers i rows maps).1).Nodup := by
  intro rows
  induction rows with
  | nil => intro maps h; exact h
  | cons row rest ih =>
    intro maps h
    rw [CustomBlast.processRows_cons]
    apply ih
    split_ifs
    · exact h
    · exact JsObject.nodup_set _ _ _ h

/-- Rows with other phone values leave the row data of a number as it is. -/
theorem CustomBlast.processRows_untouched (headers : List JsString) (i : Nat) (p : JsString) :
    ∀ (rows : List (List JsString)) (maps : JsObject Bool × JsObject (JsObject JsString)),
      (∀ r ∈ rows, CustomBlast.phoneOf i r ≠ p) →
      JsObject.get? (CustomBlast.processRows headers i rows maps).2 p = JsObject.get? maps.2 p := by
  intro rows
  induction rows with
  | nil => intro maps _; rfl
  | cons row rest ih =>
    intro maps h
    rw [CustomBlast.processRows_cons, ih _ (fun r hr => h r (List.mem_cons_of_mem _ hr))]
    have hne := h row (List.mem_cons_self _ _)
    split_ifs with he
    · rfl
    · show JsObject.get? (JsObject.set maps.2 (CustomBlast.phoneOf i row) _) p = _
      by_cases hpr : CustomBlast.phoneOf i row = protoKey
      · unfold JsObject.set
        rw [if_pos hpr]
      · rw [JsObject.get?_set _ _ _ _ hpr, if_neg (fun hh => hne hh.symm)]

/-- The row data of a number is that of the last row with this phone value. -/
theorem CustomBlast.processRows_last (headers : List JsString) (i : Nat)
    (pre post : List (List JsString)) (row : List JsString)
    (maps : JsObject Bool × JsObject (JsObject JsString))
    (hne : CustomBlast.phoneOf i row ≠ []) (hpr : CustomBlast.phoneOf i row ≠ protoKey)
    (hpost : ∀ r ∈ post, CustomBlast.phoneOf i r ≠ CustomBlast.phoneOf i row) :
    JsObject.get? (CustomBlast.processRows headers i (pre ++ row :: post) maps).2
        (CustomBlast.phoneOf i row) = some (CustomBlast.rowDataOf headers row) := by
  rw [CustomBlast.processRows_append, CustomBlast.processRows_cons,
    CustomBlast.processRows_untouched headers i _ post _ hpost,
    if_neg (fun h => hne (List.isEmpty_iff.mp h))]
  show JsObject.get? (JsObject.set _ (CustomBlast.phoneOf i row) _) _ = _
  rw [JsObject.get?_set _ _ _ _ hpr, if_pos rfl]

theorem CustomBlast.rowDataGo_cons (row : List JsString) (header : JsString)
    (rest : List JsString) (index : Nat) (rowData : JsObject JsString) :
    CustomBlast.rowDataGo row (header :: rest) index rowData
      = CustomBlast.rowDataGo row rest (index + 1)
          (JsObject.set rowData (Helpers.trim header)
            (orElseOpt ((row.get? index).map Helpers.trim) [])) := rfl

theorem CustomBlast.rowDataGo_append (row : List JsString) :
    ∀ (a b : List JsString) (index : Nat) (rowData : JsObject JsString),
      CustomBlast.rowDataGo row (a ++ b) index rowData
        = CustomBlast.rowDataGo row b (index + a.length)
            (CustomBlast.rowDataGo row a index rowData) := by
  intro a
  induction a with
  | nil => intro b index rowData; rfl
  | cons h t ih =>
    intro b index rowData
    rw [List.cons_append, CustomBlast.rowDataGo_cons, CustomBlast.rowDataGo_cons, ih,
      List.length_cons]
    have : index + 1 + t.length = index + (t.length + 1) := by omega
    rw [this]

theorem CustomBlast.rowDataGo_untouched (row : List JsString) (key : JsString) :
    ∀ (hs : List JsString) (index : Nat) (rowData : JsObject JsString),
      (∀ h ∈ hs, Helpers.trim h ≠ key) →
      JsObject.get? (CustomBlast.rowDataGo row hs index rowData) key
        = JsObject.get? rowData key := by
  intro hs
  induction hs with
  | nil => intro index rowData _; rfl
  | cons h t ih =>
    intro index rowData hall
    rw [CustomBlast.rowDataGo_cons, ih _ _ (fun x hx => hall x (List.mem_cons_of_mem _ hx))]
    have hne := hall h (List.mem_cons_self _ _)
    by_cases hpr : Helpers.trim h = protoKey
    · unfold JsObject.set
      rw [if_pos hpr]
    · rw [JsObject.get?_set _ _ _ _ hpr, if_neg (fun hh => hne hh.symm)]

/-- The row data has, under a trimmed header, the trimmed cell of the last
column with this header. -/
theorem CustomBlast.rowDataOf_last (row : List JsString) (hpre hpost : List JsString)
    (header : JsString) (hpr : Helpers.trim header ≠ protoKey)
    (hlast : ∀ h ∈ hpost, Helpers.trim h ≠ Helpers.trim header) :
    JsObject.get? (CustomBlast.rowDataOf (hpre ++ header :: hpost) row) (Helpers.trim header)
      = some (orElseOpt ((row.get? hpre.length).map Helpers.trim) []) := by
  unfold CustomBlast.rowDataOf
  rw [CustomBlast.rowDataGo_append, CustomBlast.rowDataGo_cons,
    CustomBlast.rowDataGo_untouched row _ hpost _ _ hlast, JsObject.get?_set _ _ _ _ hpr,
    if_pos rfl, Nat.zero_add]

theorem CustomBlast.custom_runLoop_targets (txt : LogText) (ctx : Context)
    (form : CustomBlast.Form) (r : RunResult) (phones : List JsString)
    (outcomes : List SendResult) (e : JsString)
    (he : CustomBlast.endpointOf form.customBlastType = some e)
    (hlen : outcomes.length = phones.length) :
    ((CustomBlast.runLoop txt ctx form r phones outcomes).2).filterMap Effect.target
      = phones := by
  unfold CustomBlast.runLoop
  rw [CustomBlast.custom_attempt_of_endpoint ctx form e he,
    dispatchLoop_effects_zip
      (fun p => Effect.send e p (ctx.customTemplate form.customBlastMessage p)) _ _ _ phones
      outcomes hlen (fun _ => rfl) r]
  exact targets_of_sends
    (fun p => Effect.send e p (ctx.customTemplate form.customBlastMessage p))
    (fun _ => rfl) (Effect.sleep (form.customBlastDelay * 1000)) rfl phones

/-- C24: for a sheet with a detected phone column `i`, the recipients
`Object.keys(customBlastPhoneMapping)` are the trimmed phone cells of the rows
that are not empty (nor the key `__proto__`, which JavaScript does not store),
each once however many rows share it; the data mapping of a recipient is the
row data of the last row with its phone value; the row data has, under each
trimmed header, the trimmed cell of the (last) column with that header; and the
run over these recipients sends once to each of them. -/
theorem C24_sheet_rows_to_recipients (headers : List JsString) (rows : List (List JsString))
    (i : Nat) (hcol : CustomBlast.detectPhoneColumn headers = some i) :
    (∀ p, p ∈ CustomBlast.phoneNumbersList
          (CustomBlast.processCustomBlastExcelData ⟨headers, rows⟩) ↔
      p ≠ [] ∧ p ≠ protoKey ∧ ∃ row ∈ rows, CustomBlast.phoneOf i row = p) ∧
    (CustomBlast.phoneNumbersList
      (CustomBlast.processCustomBlastExcelData ⟨headers, rows⟩)).Nodup ∧
    (∀ (pre post : List (List JsString)) (row : List JsString), rows = pre ++ row :: post →
      CustomBlast.phoneOf i row ≠ [] → CustomBlast.phoneOf i row ≠ protoKey →
      (∀ r ∈ post, CustomBlast.phoneOf i r ≠ CustomBlast.phoneOf i row) →
      JsObject.get? (CustomBlast.processCustomBlastExcelData ⟨headers, rows⟩).customBlastDataMapping
          (CustomBlast.phoneOf i row) = some (CustomBlast.rowDataOf headers row)) ∧
    (∀ (row hpre hpost : List JsString) (header : JsString),
      headers = hpre ++ header :: hpost → Helpers.trim header ≠ protoKey →
      (∀ h ∈ hpost, Helpers.trim h ≠ Helpers.trim header) →
      JsObject.get? (CustomBlast.rowDataOf headers row) (Helpers.trim header)
        = some (Helpers.trim (row.getD hpre.length []))) ∧
    (∀ (txt : LogText) (ctx : Context) (form : CustomBlast.Form) (r : RunResult)
      (outcomes : List SendResult) (e : JsString),
      CustomBlast.endpointOf form.customBlastType = some e →
      outcomes.length = (CustomBlast.phoneNumbersList
        (CustomBlast.processCustomBlastExcelData ⟨headers, rows⟩)).length →
      ((CustomBlast.runLoop txt ctx form r
          (CustomBlast.phoneNumbersList (CustomBlast.processCustomBlastExcelData ⟨headers, rows⟩))
          outcomes).2).filterMap Effect.target
        = CustomBlast.phoneNumbersList
            (CustomBlast.processCustomBlastExcelData ⟨headers, rows⟩)) := by
  have e : CustomBlast.processCustomBlastExcelData ⟨headers, rows⟩
      = { customBlastVariables := CustomBlast.variablesOf headers,
          customBlastPhoneMapping := (CustomBlast.processRows headers i rows ([], [])).1,
          customBlastDataMapping := (CustomBlast.processRows headers i rows ([], [])).2 } := by
    unfold CustomBlast.processCustomBlastExcelData
    simp only [hcol]
  rw [e]
  refine ⟨?_, ?_, ?_, ?_, ?_⟩
  · intro p
    unfold CustomBlast.phoneNumbersList
    rw [(JsObject.keys_perm _).mem_iff]
    show p ∈ JsObject.ownKeys (CustomBlast.processRows headers i rows ([], [])).1 ↔ _
    rw [CustomBlast.processRows_keys]
    constructor
    · rintro (h | h)
      · exact absurd h (List.not_mem_nil _)
      · exact h
    · exact Or.inr
  · unfold CustomBlast.phoneNumbersList
    rw [(JsObject.keys_perm _).nodup_iff]
    exact CustomBlast.processRows_nodup headers i rows ([], []) List.nodup_nil
  · intro pre post row hrows hne hpr hpost
    show JsObject.get? (CustomBlast.processRows headers i rows ([], [])).2 _ = _
    rw [hrows]
    exact CustomBlast.processRows_last headers i pre post row _ hne hpr hpost
  · intro row hpre hpost header hh hpr hlast
    rw [hh, CustomBlast.rowDataOf_last row hpre hpost header hpr hlast]
    cases hg : row.get? hpre.length with
    | none =>
      have : row.getD hpre.length [] = [] := by
        rw [List.getD_eq_getElem?_getD, ← List.get?_eq_getElem?, hg]
        rfl
      rw [this]
      rfl
    | some c =>
      have : row.getD hpre.length [] = c := by
        rw [List.getD_eq_getElem?_getD, ← List.get?_eq_getElem?, hg]
        rfl
      rw [this]
      show some (orElse (Helpers.trim c) []) = _
      unfold orElse
      split_ifs with h1
      · rw [List.isEmpty_iff.mp h1]
      · rfl
  · intro txt ctx form r outcomes e2 he hlen
    exact CustomBlast.custom_runLoop_targets txt ctx form r _ outcomes e2 he hlen

/-- C24 at the sheet `repeatSheet`, whose phone column is the second one: the
recipients are A and B, once each, and the data of A is the row of Ani, the
last row with the number of A. -/
theorem C24_sheet_rows_to_recipients_witness :
    (phoneA ∈ CustomBlast.phoneNumbersList
      (CustomBlast.processCustomBlastExcelData ⟨repeatSheet.headers, repeatSheet.rows⟩)) ∧
    (CustomBlast.phoneNumbersList
      (CustomBlast.processCustomBlastExcelData
        ⟨repeatSheet.headers, repeatSheet.rows⟩)).Nodup ∧
    JsObject.get? (CustomBlast.processCustomBlastExcelData
        ⟨repeatSheet.headers, repeatSheet.rows⟩).customBlastDataMapping phoneA
      = some [("Nama".toList, "Ani".toList), ("No HP".toList, phoneA)] :=
  ⟨((C24_sheet_rows_to_recipients repeatSheet.headers repeatSheet.rows 1 (by decide)).1
      phoneA).mpr ⟨by decide, by decide, [" Ani ".toList, "6281111111111 ".toList],
        by decide, by decide⟩,
   (C24_sheet_rows_to_recipients repeatSheet.headers repeatSheet.rows 1 (by decide)).2.1,
   ((C24_sheet_rows_to_recipients repeatSheet.headers repeatSheet.rows 1 (by decide)).2.2.1
      [["Budi".toList, " 6281111111111".toList], ["Tono".toList, "  ".toList]]
      [["Cici".toList, "6282222222222".toList]] [" Ani ".toList, "6281111111111 ".toList]
      (by decide) (by decide) (by decide) (by decide)).trans (by decide)⟩

/-! ## Theorems: headers of ordinary characters are read as literal text -/

theorem RegExp.parseGo_ordinary (c : Char) (hc : RegExp.isOrdinary c = true) (cs : List Char)
    (opened : Bool) (top : Frame) (stack : List Frame) :
    RegExp.parseGo (c :: cs) false opened top stack
      = RegExp.parseGo cs false false (RegExp.push top (Re.chr c) true) stack := by
  unfold RegExp.isOrdinary at hc
  simp only [Bool.and_eq_true, decide_eq_true_eq, Bool.not_eq_true', List.contains_eq_any_beq,
    List.any_cons, List.any_nil, Bool.or_false, Bool.or_eq_false_iff, beq_eq_false_iff_ne,
    ne_eq] at hc
  obtain ⟨h128, h1, h2, h3, h4, h5, h6, h7, h8, h9, h10, h11, h12⟩ := hc
  have e13 : ¬ 128 ≤ c.toNat := by omega
  rw [RegExp.parseGo.eq_def]
  simp only [Bool.false_eq_true, if_false, h1, h2, h3, h4, h5, h6, h7, h8, h9, h10, h11, h12,
    e13, false_and, false_or, or_self]


theorem RegExp.parseGo_ordinary_word : ∀ (v : JsString), (∀ c ∈ v, RegExp.isOrdinary c = true) →
    ∀ (tail : List Char) (top : Frame) (stack : List Frame),
      RegExp.parseGo (v ++ tail) false false top stack
        = RegExp.parseGo tail false false
            (v.foldl (fun f c => RegExp.push f (Re.chr c) true) top) stack := by
  intro v
  induction v with
  | nil => intro _ tail top stack; rfl
  | cons c cs ih =>
    intro h tail top stack
    rw [List.cons_append, RegExp.parseGo_ordinary c (h c (List.mem_cons_self _ _)),
      ih (fun x hx => h x (List.mem_cons_of_mem _ hx)), List.foldl_cons]

theorem RegExp.foldl_push_terms : ∀ (v : JsString) (top : Frame),
    (v.foldl (fun f c => RegExp.push f (Re.chr c) true) top).terms
        = (v.map Re.chr).reverse ++ top.terms ∧
    (v.foldl (fun f c => RegExp.push f (Re.chr c) true) top).alts = top.alts := by
  intro v
  induction v with
  | nil => intro top; exact ⟨rfl, rfl⟩
  | cons c cs ih =>
    intro top
    rw [List.foldl_cons, (ih _).1, (ih _).2]
    simp [RegExp.push]

/-- The pattern made from a header of ordinary characters is the sequence of the
characters of its placeholder. -/
theorem RegExp.compile_ordinary (v : JsString) (h : ∀ c ∈ v, RegExp.isOrdinary c = true) :
    RegExp.compile (RegExp.sourceOf v)
      = Compiled.ok (Re.seqOf ((Regex.placeholder v).map Re.chr)) := by
  unfold RegExp.compile RegExp.sourceOf
  have s1 : ∀ (cs : List Char) (top : Frame),
      RegExp.parseGo (Char.ofNat 92 :: Char.ofNat 123 :: cs) false false top []
        = RegExp.parseGo cs false false (RegExp.push top (Re.chr (Char.ofNat 123)) true) [] := by
    intro cs top
    rw [RegExp.parseGo]
    simp only [Bool.false_eq_true, if_false, if_true]
    rw [RegExp.parseGo]
    simp only [if_true]
    rw [if_pos (by decide)]
  have s2 : ∀ (top : Frame),
      RegExp.parseGo [Char.ofNat 92, Char.ofNat 125] false false top []
        = Compiled.ok (RegExp.finish (RegExp.push top (Re.chr (Char.ofNat 125)) true)) := by
    intro top
    rw [RegExp.parseGo]
    simp only [Bool.false_eq_true, if_false, if_true]
    rw [RegExp.parseGo]
    simp only [if_true]
    rw [if_pos (by decide), RegExp.parseGo]
    simp
  rw [s1, RegExp.parseGo_ordinary_word v h, s2]
  have ht := RegExp.foldl_push_terms v
    (RegExp.push RegExp.emptyFrame (Re.chr (Char.ofNat 123)) true)
  generalize v.foldl (fun f c => RegExp.push f (Re.chr c) true)
    (RegExp.push RegExp.emptyFrame (Re.chr (Char.ofNat 123)) true) = F at ht ⊢
  simp [RegExp.finish, RegExp.push, ht.1, ht.2, RegExp.emptyFrame, Regex.placeholder]

theorem Re.hasGroup_seqOf_chr : ∀ l : List Char, (Re.seqOf (l.map Re.chr)).hasGroup = false := by
  intro l
  induction l with
  | nil => rfl
  | cons a t ih =>
    cases t with
    | nil => rfl
    | cons b t2 =>
      show (Re.seq (Re.chr a) (Re.seqOf ((b :: t2).map Re.chr))).hasGroup = false
      simp only [Re.hasGroup, ih, Bool.or_false]

theorem Re.run_seq (ic : Bool) (n : Nat) (a b : Re) (pos : Nat) (rest : JsString)
    (k : Nat → JsString → Exec) :
    Re.run ic (n + 1) (Re.seq a b) pos rest k
      = Re.run ic n a pos rest (fun p r => Re.run ic n b p r k) := rfl

theorem Re.run_chr_cons (ic : Bool) (n : Nat) (c x : Char) (pos : Nat) (xs : JsString)
    (k : Nat → JsString → Exec) :
    Re.run ic (n + 1) (Re.chr c) pos (x :: xs) k
      = if Regex.charMatch ic c x = true then k (pos + 1) xs else Exec.fail := rfl

theorem Re.run_chr_nil (ic : Bool) (n : Nat) (c : Char) (pos : Nat)
    (k : Nat → JsString → Exec) :
    Re.run ic (n + 1) (Re.chr c) pos [] k = Exec.fail := rfl

/-- The matcher on a sequence of characters is the literal comparison. -/
theorem Re.run_seqOf_chr (ic : Bool) :
    ∀ (pat : List Char) (n pos : Nat) (rest : JsString) (k : Nat → JsString → Exec),
      pat.length < n →
      Re.run ic n (Re.seqOf (pat.map Re.chr)) pos rest k
        = if Regex.matchesAt ic pat rest = true then k (pos + pat.length) (rest.drop pat.length)
          else Exec.fail := by
  intro pat
  induction pat with
  | nil =>
    intro n pos rest k hn
    cases n with
    | zero => exact absurd hn (Nat.not_lt_zero _)
    | succ m =>
      show k pos rest = _
      simp [Regex.matchesAt]
  | cons p t ih =>
    intro n pos rest k hn
    cases n with
    | zero => exact absurd hn (Nat.not_lt_zero _)
    | succ m =>
      cases t with
      | nil =>
        show Re.run ic (m + 1) (Re.chr p) pos rest k = _
        cases rest with
        | nil =>
          rw [Re.run_chr_nil]
          simp [Regex.matchesAt]
        | cons x xs =>
          rw [Re.run_chr_cons]
          by_cases hc : Regex.charMatch ic p x = true
          · simp [Regex.matchesAt, hc]
          · simp [Regex.matchesAt, hc]
      | cons q t2 =>
        show Re.run ic (m + 1) (Re.seq (Re.chr p) (Re.seqOf ((q :: t2).map Re.chr))) pos rest k = _
        have hm : (q :: t2).length < m := by
          simp only [List.length_cons] at hn ⊢
          omega
        cases m with
        | zero => exact absurd hm (Nat.not_lt_zero _)
        | succ m2 =>
          rw [Re.run_seq]
          cases rest with
          | nil =>
            rw [Re.run_chr_nil]
            simp [Regex.matchesAt]
          | cons x xs =>
            rw [Re.run_chr_cons]
            by_cases hc : Regex.charMatch ic p x = true
            · have := ih (m2 + 1) (pos + 1) xs k hm
              rw [if_pos hc, this]
              simp only [Regex.matchesAt, hc, Bool.true_and, List.length_cons, List.drop_succ_cons]
              have e : pos + 1 + (t2.length + 1) = pos + (t2.length + 1 + 1) := by omega
              rw [e]
            · simp [Regex.matchesAt, hc]

theorem Regex.matchesAt_nil_right (ic : Bool) (pat : List Char) (h : pat ≠ []) :
    Regex.matchesAt ic pat [] = false := by
  cases pat with
  | nil => exact absurd rfl h
  | cons p t => rfl

/-- The scanner with the pattern of a literal text is the literal scanner. -/
theorem RegExp.replaceGo_literal (ic : Bool) (pat repl : JsString) (hpat : pat ≠ [])
    (fuel : Nat) (hf : pat.length < fuel) :
    ∀ (s : JsString) (k : Nat) (before : JsString),
      RegExp.replaceGo ic (Re.seqOf (pat.map Re.chr)) fuel repl k before s
        = some (Regex.replaceGo ic pat repl k before s) := by
  have hlen : 0 < pat.length := List.length_pos.mpr hpat
  intro s
  induction s with
  | nil =>
    intro k before
    cases k with
    | zero =>
      rw [RegExp.replaceGo, Re.run_seqOf_chr ic pat fuel _ _ _ hf,
        Regex.matchesAt_nil_right ic pat hpat]
      rfl
    | succ k => rfl
  | cons c cs ih =>
    intro k before
    cases k with
    | succ k =>
      rw [RegExp.replaceGo, Regex.replaceGo]
      exact ih k _
    | zero =>
      rw [RegExp.replaceGo, Regex.replaceGo, Re.run_seqOf_chr ic pat fuel _ _ _ hf]
      by_cases hm : Regex.matchesAt ic pat (c :: cs) = true
      · rw [if_pos hm, if_pos hm]
        have e : before.length + pat.length - before.length = pat.length := by omega
        simp only [e]
        rw [if_neg (by omega), ih]
        rfl
      · rw [if_neg hm, if_neg hm]
        simp only [ih]
        rfl

theorem RegExp.replaceVariable_ordinary (ic : Bool) (v value s : JsString)
    (h : ∀ c ∈ v, RegExp.isOrdinary c = true) :
    RegExp.replaceVariable ic v value s
      = Rendered.text (Regex.replaceGo ic (Regex.placeholder v) value 0 [] s) := by
  unfold RegExp.replaceVariable
  rw [RegExp.compile_ordinary v h]
  simp only [Re.hasGroup_seqOf_chr, Bool.false_eq_true, false_and, if_false]
  rw [RegExp.replaceGo_literal ic (Regex.placeholder v) value (by simp [Regex.placeholder])]
  have e1 : (Regex.placeholder v).length = v.length + 2 := by simp [Regex.placeholder]
  have e2 : (RegExp.sourceOf v).length = v.length + 4 := by simp [RegExp.sourceOf]
  rw [e1, e2]
  have : (v.length + 4 + 1) * 2 ≤ (v.length + 4 + 1) * (s.length + 2) :=
    Nat.mul_le_mul_left _ (by omega)
  omega

theorem RegExp.replaceVariables_ordinary (ic : Bool) (rowData : JsString → JsString) :
    ∀ (vars : List JsString) (s : JsString),
      (∀ v ∈ vars, ∀ c ∈ v, RegExp.isOrdinary c = true) →
      RegExp.replaceVariables ic rowData vars s
        = Rendered.text
            (Regex.replaceTable ic (vars.map (fun v => (v, rowData v))) s) := by
  intro vars
  induction vars with
  | nil => intro s _; rfl
  | cons v rest ih =>
    intro s h
    rw [RegExp.replaceVariables, RegExp.replaceVariable_ordinary ic v _ s
      (h v (List.mem_cons_self _ _))]
    simp only
    rw [ih _ (fun w hw => h w (List.mem_cons_of_mem _ hw))]
    rfl

theorem AppContext.context_replaceVariables_eq_table (excelData : JsString → JsString) :
    ∀ (vars : List JsString) (s : JsString),
      AppContext.replaceVariablesLiteral excelData vars s
        = Regex.replaceTable false (vars.map (fun v => (v, excelData v))) s := by
  intro vars
  induction vars with
  | nil => intro s; rfl
  | cons v rest ih =>
    intro s
    unfold AppContext.replaceVariablesLiteral
    rw [ih]
    rfl

/-- For headers of ordinary characters the renderers with the patterns made by
`new RegExp` do not throw and give the text of the renderers that take the
header as literal text. -/
theorem RegExp.renderers_ordinary (contacts : List Contact) (clock : Clock)
    (template phone : JsString) (dataMapping : JsString → Option (JsString → JsString))
    (vars : List JsString) (h : ∀ v ∈ vars, ∀ c ∈ v, RegExp.isOrdinary c = true) :
    Template.processCustomBlastTemplate clock template phone dataMapping vars contacts
      = Rendered.text
          (Template.processCustomBlastTemplateLiteral clock template phone dataMapping vars contacts) ∧
    AppContext.processCustomBlastTemplate contacts clock dataMapping vars template phone
      = Rendered.text
          (AppContext.processCustomBlastTemplateLiteral contacts clock dataMapping vars template
            phone) := by
  constructor
  · unfold Template.processCustomBlastTemplate Template.processCustomBlastTemplateLiteral
    split_ifs with he
    · rfl
    · cases dataMapping phone with
      | none => rfl
      | some row =>
        simp only [RegExp.replaceVariables_ordinary true row vars template h,
          Template.replaceVariablesLiteral_eq_table]
  · unfold AppContext.processCustomBlastTemplate AppContext.processCustomBlastTemplateLiteral
    cases dataMapping phone with
    | none => rfl
    | some row =>
      simp only [RegExp.replaceVariables_ordinary false row vars template h,
        AppContext.context_replaceVariables_eq_table]

/-! ## Theorems: inserted values are scanned by the later replacements -/

/-- C11 (counterexample): a value that contains the text of another placeholder
does not appear unchanged: for a contact named `{kategori}` of category VIP the
template `Halo {nama}` is not rendered as `Halo {kategori}`, by either renderer,
and for a spreadsheet cell `{nama}` the template `Beli {produk}` is not rendered
as `Beli {nama}`. -/
theorem C11_inserted_value_rescanned :
    AppContext.processTemplateForBlast [trickyContact] sampleClock "Halo {nama}".toList
        "628111222333".toList ≠ "Halo {kategori}".toList ∧
    Template.processTemplate sampleClock "Halo {nama}".toList "628111222333".toList
        [trickyContact] ≠ "Halo {kategori}".toList ∧
    Template.processCustomBlastTemplate sampleClock "Beli {produk}".toList
        "628111222333".toList trickyMapping ["produk".toList] [ana]
      ≠ Rendered.text "Beli {nama}".toList := by
  decide

/-- C11 (amended): rendering is the fixed sequence of global replacements of the
renderer's table.  For a template made of text without an opening brace and of
placeholders, and a table whose values contain neither an opening brace nor `$`,
every placeholder becomes the value of the first entry with its name, inserted
unchanged, and everything else is kept; this holds for
`AppContext.processTemplateForBlast` and `processTemplate`, and for
`processCustomBlastTemplate` of `utils/template.js` when the spreadsheet headers
are made of ordinary characters (ASCII, none of `\ ( ) | * + ? . ^ $ [` and the
opening brace), a header being read as pattern syntax otherwise.  Text inserted
by one replacement is scanned by the later ones: a contact name `{kategori}` is
rendered as the category, a spreadsheet cell `{nama}` as the contact's name; it
is not scanned by the replacement that inserted it: a contact name `{nama}`
appears unchanged. -/
theorem C11_render_by_table (contacts : List Contact) (clock : Clock) (phone : JsString)
    (dataMapping : JsString → Option (JsString → JsString)) (vars : List JsString)
    (segs : List Seg) (hplain : ∀ seg ∈ segs, seg.Plain) :
    (TameTable (AppContext.tableFor (findContact contacts phone) clock phone) →
      AppContext.processTemplateForBlast contacts clock (renderSegs segs) phone
        = renderSegs (segs.map
            (Seg.fill false (AppContext.tableFor (findContact contacts phone) clock phone)))) ∧
    (TameTable (Template.tableFor (findContact contacts phone) clock phone) →
      Template.processTemplate clock (renderSegs segs) phone contacts
        = renderSegs (segs.map
            (Seg.fill true (Template.tableFor (findContact contacts phone) clock phone)))) ∧
    ((∀ v ∈ vars, ∀ c ∈ v, RegExp.isOrdinary c = true) →
      TameTable (Template.variableTable (dataMapping phone) vars
        ++ Template.tableFor (findContact contacts phone) clock phone) →
      Template.processCustomBlastTemplate clock (renderSegs segs) phone dataMapping vars contacts
        = Rendered.text (renderSegs (segs.map
            (Seg.fill true (Template.variableTable (dataMapping phone) vars
              ++ Template.tableFor (findContact contacts phone) clock phone))))) ∧
    AppContext.processTemplateForBlast [trickyContact] sampleClock "Halo {nama}".toList
        "628111222333".toList = "Halo VIP".toList ∧
    Template.processTemplate sampleClock "Halo {nama}".toList "628111222333".toList
        [trickyContact] = "Halo VIP".toList ∧
    Template.processCustomBlastTemplate sampleClock "Beli {produk}".toList
        "628111222333".toList trickyMapping ["produk".toList] [ana]
      = Rendered.text "Beli Ana".toList ∧
    AppContext.processTemplateForBlast [selfContact] sampleClock "Halo {nama}".toList
        "628111222333".toList = "Halo {nama}".toList ∧
    Template.processTemplate sampleClock "Halo {nama}".toList "628111222333".toList
        [selfContact] = "Halo {nama}".toList := by
  refine ⟨?_, ?_, ?_, by decide, by decide, by decide, by decide, by decide⟩
  · intro ht
    rw [AppContext.processTemplateForBlast_eq_table]
    exact Regex.replaceTable_segs false _ segs ht hplain
  · intro ht
    rw [Template.processTemplate_eq_table]
    exact Regex.replaceTable_segs true _ segs ht hplain
  · intro hord ht
    rw [(RegExp.renderers_ordinary contacts clock (renderSegs segs) phone dataMapping vars
      hord).1, Template.processCustomBlastTemplateLiteral_eq_table,
      Regex.replaceTable_segs true _ segs ht hplain]

/-- C11 at the template `Halo {nama}, {kategori}`: with the contact Ana of
category VIP the two contact renderers give `Halo Ana, VIP`; for recipient A
with the spreadsheet row (`Telepon`, `Nama` = Budi) and the contact Ana the
renderer of variable-driven runs gives `Halo Budi, VIP`. -/
theorem C11_render_by_table_witness :
    AppContext.processTemplateForBlast [ana] sampleClock (renderSegs haloSegs)
        "628111222333".toList = "Halo Ana, VIP".toList ∧
    Template.processTemplate sampleClock (renderSegs haloSegs) "628111222333".toList [ana]
      = "Halo Ana, VIP".toList ∧
    Template.processCustomBlastTemplate sampleClock (renderSegs haloSegs) phoneA budiMapping
        ["Telepon".toList, "Nama".toList] [anaA] = Rendered.text "Halo Budi, VIP".toList :=
  ⟨((C11_render_by_table [ana] sampleClock "628111222333".toList (fun _ => none) [] haloSegs
      (by decide)).1 (by decide)).trans (by decide),
   ((C11_render_by_table [ana] sampleClock "628111222333".toList (fun _ => none) [] haloSegs
      (by decide)).2.1 (by decide)).trans (by decide),
   ((C11_render_by_table [anaA] sampleClock phoneA budiMapping
      ["Telepon".toList, "Nama".toList] haloSegs (by decide)).2.2.1 (by decide)
      (by decide)).trans (by decide)⟩

/-! ## Theorems: headers read as pattern syntax -/

/-- C28 (evaluation of the code): the header `Harga (Rp)` makes the pattern
`\{Harga (Rp)\}`, in which the parentheses are a capture group: the text
`{Harga (Rp)}` of a template is not replaced by the cell `5000`, while the text
`{Harga Rp}` is.  The header `Harga (Rp` makes a pattern with an unterminated
group, and `new RegExp` throws a `SyntaxError`.  Both renderers of
variable-driven runs behave so.  For headers of ordinary characters (ASCII
other than the pattern characters) rendering does not throw and replaces the
placeholders of the headers as literal text. -/
theorem C28_header_read_as_pattern :
    Template.processCustomBlastTemplate sampleClock
        ("Total ".toList ++ Regex.placeholder "Harga (Rp)".toList) phoneA hargaMapping
        ["Harga (Rp)".toList] []
      = Rendered.text ("Total ".toList ++ Regex.placeholder "Harga (Rp)".toList) ∧
    AppContext.processCustomBlastTemplate [] sampleClock hargaMapping
        ["Harga (Rp)".toList] ("Total ".toList ++ Regex.placeholder "Harga (Rp)".toList) phoneA
      = Rendered.text ("Total ".toList ++ Regex.placeholder "Harga (Rp)".toList) ∧
    Template.processCustomBlastTemplate sampleClock
        ("Total ".toList ++ Regex.placeholder "Harga Rp".toList) phoneA hargaMapping
        ["Harga (Rp)".toList] []
      = Rendered.text "Total 5000".toList ∧
    Template.processCustomBlastTemplate sampleClock
        ("Total ".toList ++ Regex.placeholder "Harga (Rp".toList) phoneA hargaMapping
        ["Harga (Rp".toList] []
      = Rendered.threw ∧
    AppContext.processCustomBlastTemplate [] sampleClock hargaMapping
        ["Harga (Rp".toList] ("Total ".toList ++ Regex.placeholder "Harga (Rp".toList) phoneA
      = Rendered.threw ∧
    Template.processCustomBlastTemplate sampleClock
        ("Total ".toList ++ Regex.placeholder "Harga".toList) phoneA hargaMapping
        ["Harga".toList] []
      = Rendered.text "Total 5000".toList ∧
    AppContext.processCustomBlastTemplate [] sampleClock hargaMapping
        ["Harga".toList] ("Total ".toList ++ Regex.placeholder "Harga".toList) phoneA
      = Rendered.text "Total 5000".toList ∧
    (∀ (contacts : List Contact) (clock : Clock) (template phone : JsString)
      (dataMapping : JsString → Option (JsString → JsString)) (vars : List JsString),
      (∀ v ∈ vars, ∀ c ∈ v, RegExp.isOrdinary c = true) →
      Template.processCustomBlastTemplate clock template phone dataMapping vars contacts
        = Rendered.text
            (Template.processCustomBlastTemplateLiteral clock template phone dataMapping vars
              contacts) ∧
      AppContext.processCustomBlastTemplate contacts clock dataMapping vars template phone
        = Rendered.text
            (AppContext.processCustomBlastTemplateLiteral contacts clock dataMapping vars template
              phone)) := by
  refine ⟨by decide, by decide, by decide, by decide, by decide, by decide, by decide, ?_⟩
  intro contacts clock template phone dataMapping vars h
  exact RegExp.renderers_ordinary contacts clock template phone dataMapping vars h

end WaBlast
